import Mathlib

/-!
Verification of the 8-puzzle state-space search core (`project.py`).

The program's core is embedded shallowly: Python lists of lists become
`List (List Nat)`, the mutable visited set and predecessor dictionary become
association lists threaded through fuel-based loops, `random.choice` becomes
an explicit choice function, and `heapq` is modelled by its contract
(a min-priority queue under Python's tuple/list lexicographic order).
Out-of-range indexing, which raises in Python, is kept out of every theorem's
domain by explicit validity hypotheses.
-/

namespace Puzzle

/-- A puzzle state: a list of rows of tile values (0 is the blank). -/
abbrev Grid := List (List Nat)

/-- A path is an ordered sequence of grids. -/
abbrev GPath := List Grid

/-- Mirrors `GRID_SIZE = 3` in the source. -/
def GRID_SIZE : Nat := 3

/-- Mirrors `goal_state` in the source. -/
def goal_state : Grid := [[1, 2, 3], [4, 5, 6], [7, 8, 0]]

/-- Reading `state[r][c]`.  The default 9 is outside the tile alphabet and
stands for Python's out-of-range behaviour; theorems stay on well-shaped
grids where it is never produced. -/
def cell (state : Grid) (r c : Nat) : Nat := (state.getD r []).getD c 9

/-- Row-major order of the nested `for row ... for col ...` loops. -/
def cellIndices : List (Nat × Nat) :=
  (List.range GRID_SIZE).flatMap fun r => (List.range GRID_SIZE).map fun c => (r, c)

/-- Mirrors `find_zero`: first cell holding 0 in row-major order, else `None`. -/
def find_zero (state : Grid) : Option (Nat × Nat) :=
  cellIndices.find? fun p => cell state p.1 p.2 == 0

/-- Mirrors `directions = [(-1,0),(1,0),(0,-1),(0,1)]` (up, down, left, right). -/
def directions : List (Int × Int) := [(-1, 0), (1, 0), (0, -1), (0, 1)]

/-- Writing `state[r][c] = v` on a fresh copy. -/
def setCell (state : Grid) (r c : Nat) (v : Nat) : Grid :=
  state.set r ((state.getD r []).set c v)

/-- The two assignments of `get_neighbors`: the blank cell receives the
adjacent tile and the adjacent cell receives 0. -/
def slideTo (state : Grid) (zr zc nr nc : Nat) : Grid :=
  setCell (setCell state zr zc (cell state nr nc)) nr nc 0

/-- Mirrors `get_neighbors`.  When `find_zero` yields `None` the Python code
raises a `TypeError` on `zero_pos[0]`; that branch is modelled as producing
no neighbors and every search theorem assumes a blank exists. -/
def get_neighbors (state : Grid) : List Grid :=
  match find_zero state with
  | none => []
  | some zp =>
    directions.filterMap fun d =>
      let nr : Int := (zp.1 : Int) + d.1
      let nc : Int := (zp.2 : Int) + d.2
      if 0 ≤ nr ∧ nr < (GRID_SIZE : Int) ∧ 0 ≤ nc ∧ nc < (GRID_SIZE : Int) then
        some (slideTo state zp.1 zp.2 nr.toNat nc.toNat)
      else none

/-- The nested inversion-counting loops of `is_solvable`: for each element,
count the later elements that are smaller, and add up. -/
def inversions : List Nat → Nat
  | [] => 0
  | x :: xs => (xs.filter fun y => y < x).length + inversions xs

/-- Mirrors `is_solvable`: flatten without the blank, count inversions,
test evenness. -/
def is_solvable (state : Grid) : Bool :=
  inversions (state.flatten.filter fun num => num != 0) % 2 == 0

/-- Mirrors `shuffle_puzzle` as a value-level function: `random.choice` is the
explicit choice function `pick` (step index and candidate list to choice). -/
def shuffle_puzzle (pick : Nat → List Grid → Grid) (state : Grid)
    (moves : Nat) : Grid :=
  (List.range moves).foldl (fun s i => pick i (get_neighbors s)) state

/-- Mirrors `shuffle_puzzle` at the store level: the argument is a reference
`ref` into a store of grids, and each `state[:] = random.choice(...)` is an
in-place update of the referenced slot.  The function returns the updated
store together with the reference returned by `return state`. -/
def shuffle_puzzle_ref (pick : Nat → List Grid → Grid) (store : List Grid)
    (ref : Nat) (moves : Nat) : List Grid × Nat :=
  ((List.range moves).foldl
    (fun sigma i => sigma.set ref (pick i (get_neighbors (sigma.getD ref [])))) store,
   ref)

/-- The `while current in came_from` loop of `reconstruct_path`, with fuel
standing for Python's unbounded iteration (a cyclic map would loop forever,
returning `none` here). -/
def reconstruct_loop (came_from : List (Grid × Grid)) :
    Nat → Grid → GPath → Option GPath
  | 0, _, _ => none
  | fuel + 1, current, path =>
    match came_from.lookup current with
    | some prev => reconstruct_loop came_from fuel prev (path ++ [current])
    | none => some path

/-- Mirrors `reconstruct_path`: walk the predecessor map from `current`,
collecting states, then reverse into start-to-goal order. -/
def reconstruct_path (came_from : List (Grid × Grid)) (current : Grid)
    (fuel : Nat) : Option GPath :=
  (reconstruct_loop came_from fuel current []).map List.reverse

/-- One step of the BFS neighbor loop: skip a visited neighbor, otherwise
append it to the queue, mark it visited, and record its predecessor. -/
def bfs_visit (current : Grid) (acc : List Grid × List Grid × List (Grid × Grid))
    (n : Grid) : List Grid × List Grid × List (Grid × Grid) :=
  if n ∈ acc.2.1 then acc
  else (acc.1 ++ [n], n :: acc.2.1, (n, current) :: acc.2.2)

/-- The `while queue` loop of `bfs`.  `none` means the fuel ran out,
`some none` is the source's `return None`, `some (some p)` a found path. -/
def bfsLoop (goal : Grid) :
    Nat → List Grid → List Grid → List (Grid × Grid) → Option (Option GPath)
  | 0, _, _, _ => none
  | _ + 1, [], _, _ => some none
  | fuel + 1, current :: queue, visited, came_from =>
    if current = goal then
      match reconstruct_path came_from current (came_from.length + 1) with
      | some p => some (some p)
      | none => none
    else
      let acc := (get_neighbors current).foldl (bfs_visit current)
        (queue, visited, came_from)
      bfsLoop goal fuel acc.1 acc.2.1 acc.2.2

/-- Fuel covering every possible BFS iteration: at most one dequeue per
enqueue and at most `9! = 362880` distinct enqueued grids. -/
def FUEL : Nat := 400000

/-- Mirrors `bfs(start, goal)`: queue and visited seeded with `start`,
empty predecessor map. -/
def bfs (start goal : Grid) : Option (Option GPath) :=
  bfsLoop goal FUEL [start] [start] []

/-- The `while stack` loop of `dfs`.  Stack entries are
(state, path taken, depth), the head being the top of the stack. -/
def dfsLoop (goal : Grid) (depth_limit : Nat) :
    Nat → List (Grid × GPath × Nat) → List Grid → Option (Option GPath)
  | 0, _, _ => none
  | _ + 1, [], _ => some none
  | fuel + 1, (current, path, depth) :: stack, visited =>
    if depth_limit < depth then dfsLoop goal depth_limit fuel stack visited
    else if current ∈ visited then dfsLoop goal depth_limit fuel stack visited
    else
      let visited1 := current :: visited
      if current = goal then some (some (path ++ [current]))
      else
        let pushes := ((get_neighbors current).reverse.filter
            (fun n => n ∉ visited1)).map (fun n => (n, path ++ [current], depth + 1))
        dfsLoop goal depth_limit fuel (pushes.reverse ++ stack) visited1

/-- Fuel covering every possible DFS or UCS iteration: at most four pushes
per expansion and at most `9!` expansions. -/
def FUEL2 : Nat := 1500000

/-- Mirrors `dfs(start, goal, depth_limit=50)`. -/
def dfs (start goal : Grid) (depth_limit : Nat) : Option (Option GPath) :=
  dfsLoop goal depth_limit FUEL2 [(start, [], 0)] []

/-- Python's `<` on lists of naturals (lexicographic, shorter-is-less). -/
def natListLt : List Nat → List Nat → Bool
  | _, [] => false
  | [], _ :: _ => true
  | x :: xs, y :: ys => if x < y then true else if y < x then false else natListLt xs ys

/-- Python's `<` on grids: rows compared lexicographically. -/
def gridLt : Grid → Grid → Bool
  | _, [] => false
  | [], _ :: _ => true
  | r :: rs, s :: ss =>
    if natListLt r s then true else if natListLt s r then false else gridLt rs ss

/-- Python's `<` on heap entries `(cost, state)`: cost first, then the grid. -/
def entryLt (a b : Nat × Grid) : Bool :=
  if a.1 < b.1 then true else if b.1 < a.1 then false else gridLt a.2 b.2

/-- The least entry of a nonempty heap under `entryLt`. -/
def heapMinFrom (x : Nat × Grid) (xs : List (Nat × Grid)) : Nat × Grid :=
  xs.foldl (fun m y => if entryLt y m then y else m) x

/-- `heapq.heappop` by its contract: remove and return a least element.
Which equal-priority copy is removed is unobservable because entries are
compared as values. -/
def heappop : List (Nat × Grid) → Option ((Nat × Grid) × List (Nat × Grid))
  | [] => none
  | x :: xs =>
    let m := heapMinFrom x xs
    some (m, (x :: xs).erase m)

/-- One step of the UCS neighbor loop: relax the edge to `n` with cost
`current_cost + 1`; on a strict improvement (or first sight) push the entry,
record the new cost and the predecessor. -/
def ucs_relax (current : Grid) (current_cost : Nat)
    (acc : List (Nat × Grid) × List (Grid × Grid) × List (Grid × Nat)) (n : Grid) :
    List (Nat × Grid) × List (Grid × Grid) × List (Grid × Nat) :=
  let new_cost := current_cost + 1
  match acc.2.2.lookup n with
  | none =>
    (acc.1 ++ [(new_cost, n)], (n, current) :: acc.2.1, (n, new_cost) :: acc.2.2)
  | some oldc =>
    if new_cost < oldc then
      (acc.1 ++ [(new_cost, n)], (n, current) :: acc.2.1, (n, new_cost) :: acc.2.2)
    else acc

/-- The `while priority_queue` loop of `ucs`.  State: heap, visited set,
predecessor map, best-known-cost map. -/
def ucsLoop (goal : Grid) :
    Nat → List (Nat × Grid) → List Grid → List (Grid × Grid) → List (Grid × Nat) →
    Option (Option GPath)
  | 0, _, _, _, _ => none
  | _ + 1, [], _, _, _ => some none
  | fuel + 1, h :: hs, visited, came_from, cost_so_far =>
    match heappop (h :: hs) with
    | none => some none
    | some ((current_cost, current), heap1) =>
      if current = goal then
        match reconstruct_path came_from current (came_from.length + 1) with
        | some p => some (some p)
        | none => none
      else if current ∈ visited then
        ucsLoop goal fuel heap1 visited came_from cost_so_far
      else
        let acc := (get_neighbors current).foldl (ucs_relax current current_cost)
          (heap1, came_from, cost_so_far)
        ucsLoop goal fuel acc.1 (current :: visited) acc.2.1 acc.2.2

/-- Mirrors `ucs(start, goal)`: heap seeded with `(0, start)`, cost map with
`{start: 0}`. -/
def ucs (start goal : Grid) : Option (Option GPath) :=
  ucsLoop goal FUEL2 [(0, start)] [] [] [(start, 0)]

/-! ### Specification-side definitions (not from the source) -/

/-- A well-formed puzzle state: three rows of three cells whose entries are
a permutation of 0..8.  This is the spec's Grid data type. -/
def validGrid (g : Grid) : Prop :=
  g.map List.length = [GRID_SIZE, GRID_SIZE, GRID_SIZE] ∧
    g.flatten.Perm (List.range 9)

/-- One legal slide: `b` is among the neighbors of `a`. -/
def adjacent (a b : Grid) : Prop := b ∈ get_neighbors a

/-- There is a slide sequence of exactly `n` moves from `a` to `b`:
the witness lists the successive states after each move. -/
def ReachN (a b : Grid) (n : Nat) : Prop :=
  ∃ p : List Grid, p.length = n ∧ List.Chain' adjacent (a :: p) ∧
    (a :: p).getLast? = some b

/-- `b` is reachable from `a` by some slide sequence. -/
def Reachable (a b : Grid) : Prop := ∃ n, ReachN a b n

/-- `k` is the minimal number of slides from `a` to `b`. -/
def distIs (a b : Grid) (k : Nat) : Prop :=
  ReachN a b k ∧ ∀ m, ReachN a b m → k ≤ m

/-- Count of elements of `l` smaller than `x`: the contribution of one element
to the inversion count of a list it heads. -/
def cntLt (x : Nat) (l : List Nat) : Nat := (l.filter fun y => y < x).length

/-- The inversion pairs crossing from `l1` into `l2`. -/
def crossLt (l1 l2 : List Nat) : Nat := (l1.map fun x => cntLt x l2).sum


/-- The grid with the contents of two cells exchanged: the specification-side
description of one slide. -/
def swapCells (g : Grid) (r1 c1 r2 c2 : Nat) : Grid :=
  (List.range GRID_SIZE).map fun i => (List.range GRID_SIZE).map fun j =>
    if (i, j) = (r1, c1) then cell g r2 c2
    else if (i, j) = (r2, c2) then cell g r1 c1
    else cell g i j

/-- Two positions are orthogonally adjacent. -/
def orthAdj (r1 c1 r2 c2 : Nat) : Prop :=
  (r1 = r2 ∧ (c1 + 1 = c2 ∨ c2 + 1 = c1)) ∨ (c1 = c2 ∧ (r1 + 1 = r2 ∨ r2 + 1 = r1))

/-- The ordered neighbor specification: the blank at `(r, c)` swapped with the
cells above, below, left and right of it, keeping the in-bounds ones, in that
order. -/
def neighborsSpec (g : Grid) (r c : Nat) : List Grid :=
  (if 1 <= r then [swapCells g r c (r - 1) c] else []) ++
  (if r + 1 < GRID_SIZE then [swapCells g r c (r + 1) c] else []) ++
  (if 1 <= c then [swapCells g r c r (c - 1)] else []) ++
  (if c + 1 < GRID_SIZE then [swapCells g r c r (c + 1)] else [])

/-- Corner blank position. -/
def cornerPos (r c : Nat) : Prop := (r = 0 \/ r = 2) /\ (c = 0 \/ c = 2)

/-- Edge (non-corner, non-center) blank position. -/
def edgePos (r c : Nat) : Prop := (r = 1 /\ c ≠ 1) \/ (r ≠ 1 /\ c = 1)

/-- Center blank position. -/
def centerPos (r c : Nat) : Prop := r = 1 /\ c = 1


instance (r1 c1 r2 c2 : Nat) : Decidable (orthAdj r1 c1 r2 c2) := by
  unfold orthAdj; infer_instance

instance (r c : Nat) : Decidable (cornerPos r c) := by
  unfold cornerPos; infer_instance

instance (r c : Nat) : Decidable (edgePos r c) := by
  unfold edgePos; infer_instance

instance (r c : Nat) : Decidable (centerPos r c) := by
  unfold centerPos; infer_instance

instance (g : Grid) : Decidable (validGrid g) := by
  unfold validGrid; exact instDecidableAnd


/-- A search-shaped predecessor map: keys are distinct, and every stored
predecessor either has no entry of its own (a root) or appears later in the
list (entries are prepended, so later entries are older). -/
def PredMapWF (cf : List (Grid × Grid)) : Prop :=
  (cf.map Prod.fst).Nodup ∧
  ∀ l1 e l2, cf = l1 ++ e :: l2 →
    e.2 ∉ cf.map Prod.fst ∨ e.2 ∈ l2.map Prod.fst


/-- A concrete one-entry predecessor map used to exercise the reconstruction
contract. -/
def cf6 : List (Grid × Grid) := [(goal_state, [[1, 2, 3], [4, 5, 6], [7, 0, 8]])]


/-- Soundness invariant of the BFS loop state: the queue holds discovered
grids, predecessor entries are edges between discovered grids recorded at
discovery time, keys are distinct, never the start, and every stored
predecessor is the start or an earlier key. -/
structure BfsInvS (start : Grid) (queue visited : List Grid)
    (cf : List (Grid × Grid)) : Prop where
  startVis : start ∈ visited
  queueVis : ∀ q ∈ queue, q ∈ visited
  visNodup : visited.Nodup
  keysNodup : (cf.map Prod.fst).Nodup
  keysNotStart : ∀ e ∈ cf, e.1 ≠ start
  keysVis : ∀ e ∈ cf, e.1 ∈ visited
  edges : ∀ e ∈ cf, adjacent e.2 e.1 ∧ e.2 ∈ visited
  wf : ∀ l1 e l2, cf = l1 ++ e :: l2 → e.2 = start ∨ e.2 ∈ l2.map Prod.fst
  visCover : ∀ v ∈ visited, v ≠ start → v ∈ cf.map Prod.fst


/-- Soundness invariant of the UCS loop state: the start holds cost 0 and has
no predecessor entry, every heap entry's grid has a recorded cost bounded by
the entry's key, and every other costed grid has a predecessor entry that is
an edge from a strictly cheaper grid. -/
structure UcsInvS (start : Grid) (heap : List (Nat × Grid))
    (cf : List (Grid × Grid)) (cost : List (Grid × Nat)) : Prop where
  sCost : cost.lookup start = some 0
  sNoCf : cf.lookup start = none
  heapCost : ∀ e ∈ heap, ∃ ce, cost.lookup e.2 = some ce ∧ ce ≤ e.1
  tree : ∀ x c, cost.lookup x = some c → x ≠ start →
    ∃ w, cf.lookup x = some w ∧ adjacent w x ∧
      ∃ cw, cost.lookup w = some cw ∧ cw < c


/-- Level invariant of the BFS loop state: the queue splits into a level-`k`
prefix and a level-`(k+1)` suffix, every state at distance at most `k` is
already visited, visited states are within distance `k+1` and valid, every
visited state is still queued or fully expanded, predecessor entries step
down exactly one level, and the goal is never expanded. -/
structure BfsOpt (s goal : Grid) (q vis : List Grid)
    (cf : List (Grid × Grid)) (k : Nat) : Prop where
  qLevels : ∃ A B, q = A ++ B ∧ (∀ x ∈ A, distIs s x k) ∧
    (∀ x ∈ B, distIs s x (k + 1))
  covered : ∀ z j, distIs s z j → j ≤ k → z ∈ vis
  visDist : ∀ v ∈ vis, ∃ j, distIs s v j ∧ j ≤ k + 1
  closed : ∀ x ∈ vis, x ∈ q ∨ ∀ n ∈ get_neighbors x, n ∈ vis
  cfDist : ∀ x w, cf.lookup x = some w → ∀ j, distIs s x j →
    ∃ j2, j = j2 + 1 ∧ distIs s w j2
  visValid : ∀ v ∈ vis, validGrid v
  notGoal : ∀ x ∈ vis, x ∈ q ∨ x ≠ goal

/-- Relation between the BFS loop state before and after processing the
neighbor batch `ns` of the level-`k` state `c`: fresh neighbors are appended
to the queue at level `k+1`, the level/expansion invariants persist with `c`
exempted from the requeue requirement, all of `ns` ends up visited, and the
queue and visited set grow by the same count. -/
structure BfsFoldOut (s goal c : Grid) (k : Nat) (ns q vis : List Grid)
    (cf : List (Grid × Grid)) (q2 vis2 : List Grid)
    (cf2 : List (Grid × Grid)) : Prop where
  qext : ∃ fresh, q2 = q ++ fresh ∧ ∀ f ∈ fresh, distIs s f (k + 1)
  covered : ∀ z j, distIs s z j → j ≤ k → z ∈ vis2
  visDist : ∀ v ∈ vis2, ∃ j, distIs s v j ∧ j ≤ k + 1
  closedExc : ∀ x ∈ vis2, x = c ∨ x ∈ q2 ∨ ∀ n ∈ get_neighbors x, n ∈ vis2
  cfDist : ∀ x w, cf2.lookup x = some w → ∀ j, distIs s x j →
    ∃ j2, j = j2 + 1 ∧ distIs s w j2
  visValid : ∀ v ∈ vis2, validGrid v
  notGoalExc : ∀ x ∈ vis2, x = c ∨ x ∈ q2 ∨ x ≠ goal
  nsVis : ∀ n ∈ ns, n ∈ vis2
  visSub : vis ⊆ vis2
  lenEq : q2.length + vis.length = q.length + vis2.length


/-- Dijkstra invariant of the UCS loop state: recorded costs and heap keys
are realizable path lengths over valid grids, expanded states are settled at
their exact distance with their neighbors relaxed, every recorded cost is
witnessed by an expanded state or a live heap entry at most that cheap, the
start keeps its zero entry until expanded, and the goal is never expanded. -/
structure UcsOpt (s goal : Grid) (heap : List (Nat × Grid)) (vis : List Grid)
    (cost : List (Grid × Nat)) : Prop where
  costReach : ∀ x c, cost.lookup x = some c → ReachN s x c
  heapReach : ∀ e ∈ heap, ReachN s e.2 e.1
  heapValid : ∀ e ∈ heap, validGrid e.2
  settled : ∀ x ∈ vis, ∃ dx, distIs s x dx ∧ cost.lookup x = some dx
  nbrCost : ∀ x ∈ vis, ∀ n, adjacent x n → ∃ cn dx, distIs s x dx ∧
    cost.lookup n = some cn ∧ cn ≤ dx + 1
  costEntry : ∀ x c, cost.lookup x = some c → x ∈ vis ∨
    ∃ e ∈ heap, e.2 = x ∧ e.1 ≤ c
  startEntry : s ∉ vis → ∃ e ∈ heap, e.2 = s ∧ e.1 = 0
  visValid : ∀ v ∈ vis, validGrid v
  visNodup : vis.Nodup
  goalNotVis : goal ∉ vis

/-- Relation between the UCS cost/heap state before and after relaxing the
neighbor batch `ns` of the settled state `mg` of distance `mc`: costs stay
realizable and only decrease, heap entries persist and stay realizable, the
settled and relaxed-neighbor facts persist, every processed neighbor ends up
with a recorded cost at most `mc + 1`, and the heap grows by at most one
entry per neighbor. -/
structure UcsFoldOut (s mg : Grid) (mc : Nat) (ns : List Grid)
    (heap : List (Nat × Grid)) (cost : List (Grid × Nat)) (vis : List Grid)
    (heap2 : List (Nat × Grid)) (cost2 : List (Grid × Nat)) : Prop where
  costReach : ∀ x c, cost2.lookup x = some c → ReachN s x c
  heapReach : ∀ e ∈ heap2, ReachN s e.2 e.1
  heapValid : ∀ e ∈ heap2, validGrid e.2
  settled : ∀ x ∈ vis, ∃ dx, distIs s x dx ∧ cost2.lookup x = some dx
  mgCost : cost2.lookup mg = some mc
  nbrCost : ∀ x ∈ vis, ∀ n, adjacent x n → ∃ cn dx, distIs s x dx ∧
    cost2.lookup n = some cn ∧ cn ≤ dx + 1
  costEntry : ∀ x c, cost2.lookup x = some c → x = mg ∨ x ∈ vis ∨
    ∃ e ∈ heap2, e.2 = x ∧ e.1 ≤ c
  processed : ∀ n ∈ ns, ∃ cn, cost2.lookup n = some cn ∧ cn ≤ mc + 1
  heapMono : ∀ e ∈ heap, e ∈ heap2
  costMono : ∀ y cy, cost.lookup y = some cy →
    ∃ cy2, cost2.lookup y = some cy2 ∧ cy2 ≤ cy
  lenLe : heap2.length ≤ heap.length + ns.length

/-! ## Theorems -/

theorem list_len3 {α : Type} (l : List α) (h : l.length = 3) :
    ∃ x y z, l = [x, y, z] := by
  rcases l with _ | ⟨x, _ | ⟨y, _ | ⟨z, _ | ⟨w, t⟩⟩⟩⟩ <;> simp_all

theorem shape_cells (g : Grid)
    (hs : g.map List.length = [GRID_SIZE, GRID_SIZE, GRID_SIZE]) :
    ∃ a b c d e f x y z : Nat, g = [[a, b, c], [d, e, f], [x, y, z]] := by
  have hlen : g.length = 3 := by
    have := congrArg List.length hs
    simpa [GRID_SIZE] using this
  obtain ⟨r1, r2, r3, rfl⟩ := list_len3 g hlen
  simp only [List.map_cons, List.map_nil, GRID_SIZE, List.cons.injEq,
    and_true] at hs
  obtain ⟨hr1, hr2, hr3⟩ := hs
  obtain ⟨a, b, c, rfl⟩ := list_len3 r1 hr1
  obtain ⟨d, e, f, rfl⟩ := list_len3 r2 hr2
  obtain ⟨x, y, z, rfl⟩ := list_len3 r3 hr3
  exact ⟨a, b, c, d, e, f, x, y, z, rfl⟩

theorem valid_shape (g : Grid) (hv : validGrid g) :
    ∃ a b c d e f x y z : Nat, g = [[a, b, c], [d, e, f], [x, y, z]] :=
  shape_cells g hv.1

theorem valid_nodup (g : Grid) (hv : validGrid g) : g.flatten.Nodup :=
  hv.2.nodup_iff.mpr (List.nodup_range 9)

theorem valid_zero_mem (g : Grid) (hv : validGrid g) : 0 ∈ g.flatten :=
  hv.2.mem_iff.mpr (by simp)

theorem find_zero_p00 (b c d e f x y z : Nat) :
    find_zero [[0, b, c], [d, e, f], [x, y, z]] = some (0, 0) := rfl

theorem find_zero_p01 (a c d e f x y z : Nat) (ha : a ≠ 0) :
    find_zero [[a, 0, c], [d, e, f], [x, y, z]] = some (0, 1) := by
  have ha1 : (a == 0) = false := by simpa using ha
  simp [find_zero, cellIndices, GRID_SIZE, cell, List.find?, ha1]

theorem find_zero_p02 (a b d e f x y z : Nat) (ha : a ≠ 0) (hb : b ≠ 0) :
    find_zero [[a, b, 0], [d, e, f], [x, y, z]] = some (0, 2) := by
  have ha1 : (a == 0) = false := by simpa using ha
  have hb1 : (b == 0) = false := by simpa using hb
  simp [find_zero, cellIndices, GRID_SIZE, cell, List.find?, ha1, hb1]

theorem find_zero_p10 (a b c e f x y z : Nat) (ha : a ≠ 0) (hb : b ≠ 0)
    (hc : c ≠ 0) :
    find_zero [[a, b, c], [0, e, f], [x, y, z]] = some (1, 0) := by
  have ha1 : (a == 0) = false := by simpa using ha
  have hb1 : (b == 0) = false := by simpa using hb
  have hc1 : (c == 0) = false := by simpa using hc
  simp [find_zero, cellIndices, GRID_SIZE, cell, List.find?, ha1, hb1, hc1]

theorem find_zero_p11 (a b c d f x y z : Nat) (ha : a ≠ 0) (hb : b ≠ 0)
    (hc : c ≠ 0) (hd : d ≠ 0) :
    find_zero [[a, b, c], [d, 0, f], [x, y, z]] = some (1, 1) := by
  have ha1 : (a == 0) = false := by simpa using ha
  have hb1 : (b == 0) = false := by simpa using hb
  have hc1 : (c == 0) = false := by simpa using hc
  have hd1 : (d == 0) = false := by simpa using hd
  simp [find_zero, cellIndices, GRID_SIZE, cell, List.find?, ha1, hb1, hc1, hd1]

theorem find_zero_p12 (a b c d e x y z : Nat) (ha : a ≠ 0) (hb : b ≠ 0)
    (hc : c ≠ 0) (hd : d ≠ 0) (he : e ≠ 0) :
    find_zero [[a, b, c], [d, e, 0], [x, y, z]] = some (1, 2) := by
  have ha1 : (a == 0) = false := by simpa using ha
  have hb1 : (b == 0) = false := by simpa using hb
  have hc1 : (c == 0) = false := by simpa using hc
  have hd1 : (d == 0) = false := by simpa using hd
  have he1 : (e == 0) = false := by simpa using he
  simp [find_zero, cellIndices, GRID_SIZE, cell, List.find?, ha1, hb1, hc1, hd1, he1]

theorem find_zero_p20 (a b c d e f y z : Nat) (ha : a ≠ 0) (hb : b ≠ 0)
    (hc : c ≠ 0) (hd : d ≠ 0) (he : e ≠ 0) (hf : f ≠ 0) :
    find_zero [[a, b, c], [d, e, f], [0, y, z]] = some (2, 0) := by
  have ha1 : (a == 0) = false := by simpa using ha
  have hb1 : (b == 0) = false := by simpa using hb
  have hc1 : (c == 0) = false := by simpa using hc
  have hd1 : (d == 0) = false := by simpa using hd
  have he1 : (e == 0) = false := by simpa using he
  have hf1 : (f == 0) = false := by simpa using hf
  simp [find_zero, cellIndices, GRID_SIZE, cell, List.find?, ha1, hb1, hc1, hd1,
    he1, hf1]

theorem find_zero_p21 (a b c d e f x z : Nat) (ha : a ≠ 0) (hb : b ≠ 0)
    (hc : c ≠ 0) (hd : d ≠ 0) (he : e ≠ 0) (hf : f ≠ 0) (hx : x ≠ 0) :
    find_zero [[a, b, c], [d, e, f], [x, 0, z]] = some (2, 1) := by
  have ha1 : (a == 0) = false := by simpa using ha
  have hb1 : (b == 0) = false := by simpa using hb
  have hc1 : (c == 0) = false := by simpa using hc
  have hd1 : (d == 0) = false := by simpa using hd
  have he1 : (e == 0) = false := by simpa using he
  have hf1 : (f == 0) = false := by simpa using hf
  have hx1 : (x == 0) = false := by simpa using hx
  simp [find_zero, cellIndices, GRID_SIZE, cell, List.find?, ha1, hb1, hc1, hd1,
    he1, hf1, hx1]

theorem find_zero_p22 (a b c d e f x y : Nat) (ha : a ≠ 0) (hb : b ≠ 0)
    (hc : c ≠ 0) (hd : d ≠ 0) (he : e ≠ 0) (hf : f ≠ 0) (hx : x ≠ 0)
    (hy : y ≠ 0) :
    find_zero [[a, b, c], [d, e, f], [x, y, 0]] = some (2, 2) := by
  have ha1 : (a == 0) = false := by simpa using ha
  have hb1 : (b == 0) = false := by simpa using hb
  have hc1 : (c == 0) = false := by simpa using hc
  have hd1 : (d == 0) = false := by simpa using hd
  have he1 : (e == 0) = false := by simpa using he
  have hf1 : (f == 0) = false := by simpa using hf
  have hx1 : (x == 0) = false := by simpa using hx
  have hy1 : (y == 0) = false := by simpa using hy
  simp [find_zero, cellIndices, GRID_SIZE, cell, List.find?, ha1, hb1, hc1, hd1,
    he1, hf1, hx1, hy1]

theorem neighbors_p00 (b c d e f x y z : Nat) :
    get_neighbors [[0, b, c], [d, e, f], [x, y, z]] =
      [[[d, b, c], [0, e, f], [x, y, z]], [[b, 0, c], [d, e, f], [x, y, z]]] := by
  unfold get_neighbors
  rw [find_zero_p00]
  rfl

theorem neighbors_p01 (a c d e f x y z : Nat) (ha : a ≠ 0) :
    get_neighbors [[a, 0, c], [d, e, f], [x, y, z]] =
      [[[a, e, c], [d, 0, f], [x, y, z]], [[0, a, c], [d, e, f], [x, y, z]],
       [[a, c, 0], [d, e, f], [x, y, z]]] := by
  unfold get_neighbors
  rw [find_zero_p01 a c d e f x y z ha]
  rfl

theorem neighbors_p02 (a b d e f x y z : Nat) (ha : a ≠ 0) (hb : b ≠ 0) :
    get_neighbors [[a, b, 0], [d, e, f], [x, y, z]] =
      [[[a, b, f], [d, e, 0], [x, y, z]], [[a, 0, b], [d, e, f], [x, y, z]]] := by
  unfold get_neighbors
  rw [find_zero_p02 a b d e f x y z ha hb]
  rfl

theorem neighbors_p10 (a b c e f x y z : Nat) (ha : a ≠ 0) (hb : b ≠ 0)
    (hc : c ≠ 0) :
    get_neighbors [[a, b, c], [0, e, f], [x, y, z]] =
      [[[0, b, c], [a, e, f], [x, y, z]], [[a, b, c], [x, e, f], [0, y, z]],
       [[a, b, c], [e, 0, f], [x, y, z]]] := by
  unfold get_neighbors
  rw [find_zero_p10 a b c e f x y z ha hb hc]
  rfl

theorem neighbors_p11 (a b c d f x y z : Nat) (ha : a ≠ 0) (hb : b ≠ 0)
    (hc : c ≠ 0) (hd : d ≠ 0) :
    get_neighbors [[a, b, c], [d, 0, f], [x, y, z]] =
      [[[a, 0, c], [d, b, f], [x, y, z]], [[a, b, c], [d, y, f], [x, 0, z]],
       [[a, b, c], [0, d, f], [x, y, z]], [[a, b, c], [d, f, 0], [x, y, z]]] := by
  unfold get_neighbors
  rw [find_zero_p11 a b c d f x y z ha hb hc hd]
  rfl

theorem neighbors_p12 (a b c d e x y z : Nat) (ha : a ≠ 0) (hb : b ≠ 0)
    (hc : c ≠ 0) (hd : d ≠ 0) (he : e ≠ 0) :
    get_neighbors [[a, b, c], [d, e, 0], [x, y, z]] =
      [[[a, b, 0], [d, e, c], [x, y, z]], [[a, b, c], [d, e, z], [x, y, 0]],
       [[a, b, c], [d, 0, e], [x, y, z]]] := by
  unfold get_neighbors
  rw [find_zero_p12 a b c d e x y z ha hb hc hd he]
  rfl

theorem neighbors_p20 (a b c d e f y z : Nat) (ha : a ≠ 0) (hb : b ≠ 0)
    (hc : c ≠ 0) (hd : d ≠ 0) (he : e ≠ 0) (hf : f ≠ 0) :
    get_neighbors [[a, b, c], [d, e, f], [0, y, z]] =
      [[[a, b, c], [0, e, f], [d, y, z]], [[a, b, c], [d, e, f], [y, 0, z]]] := by
  unfold get_neighbors
  rw [find_zero_p20 a b c d e f y z ha hb hc hd he hf]
  rfl

theorem neighbors_p21 (a b c d e f x z : Nat) (ha : a ≠ 0) (hb : b ≠ 0)
    (hc : c ≠ 0) (hd : d ≠ 0) (he : e ≠ 0) (hf : f ≠ 0) (hx : x ≠ 0) :
    get_neighbors [[a, b, c], [d, e, f], [x, 0, z]] =
      [[[a, b, c], [d, 0, f], [x, e, z]], [[a, b, c], [d, e, f], [0, x, z]],
       [[a, b, c], [d, e, f], [x, z, 0]]] := by
  unfold get_neighbors
  rw [find_zero_p21 a b c d e f x z ha hb hc hd he hf hx]
  rfl

theorem neighbors_p22 (a b c d e f x y : Nat) (ha : a ≠ 0) (hb : b ≠ 0)
    (hc : c ≠ 0) (hd : d ≠ 0) (he : e ≠ 0) (hf : f ≠ 0) (hx : x ≠ 0)
    (hy : y ≠ 0) :
    get_neighbors [[a, b, c], [d, e, f], [x, y, 0]] =
      [[[a, b, c], [d, e, 0], [x, y, f]], [[a, b, c], [d, e, f], [x, 0, y]]] := by
  unfold get_neighbors
  rw [find_zero_p22 a b c d e f x y ha hb hc hd he hf hx hy]
  rfl

/-- Case analysis for a well-formed grid: the blank is at one of the nine
positions, and `find_zero` and `get_neighbors` compute accordingly. -/
theorem valid_grid_cases (g : Grid) (hv : validGrid g) :
    (∃ b c d e f x y z : Nat, g = [[0, b, c], [d, e, f], [x, y, z]] ∧
      find_zero g = some (0, 0) ∧ get_neighbors g =
        [[[d, b, c], [0, e, f], [x, y, z]], [[b, 0, c], [d, e, f], [x, y, z]]]) ∨
    (∃ a c d e f x y z : Nat, g = [[a, 0, c], [d, e, f], [x, y, z]] ∧
      find_zero g = some (0, 1) ∧ get_neighbors g =
        [[[a, e, c], [d, 0, f], [x, y, z]], [[0, a, c], [d, e, f], [x, y, z]],
         [[a, c, 0], [d, e, f], [x, y, z]]]) ∨
    (∃ a b d e f x y z : Nat, g = [[a, b, 0], [d, e, f], [x, y, z]] ∧
      find_zero g = some (0, 2) ∧ get_neighbors g =
        [[[a, b, f], [d, e, 0], [x, y, z]], [[a, 0, b], [d, e, f], [x, y, z]]]) ∨
    (∃ a b c e f x y z : Nat, g = [[a, b, c], [0, e, f], [x, y, z]] ∧
      find_zero g = some (1, 0) ∧ get_neighbors g =
        [[[0, b, c], [a, e, f], [x, y, z]], [[a, b, c], [x, e, f], [0, y, z]],
         [[a, b, c], [e, 0, f], [x, y, z]]]) ∨
    (∃ a b c d f x y z : Nat, g = [[a, b, c], [d, 0, f], [x, y, z]] ∧
      find_zero g = some (1, 1) ∧ get_neighbors g =
        [[[a, 0, c], [d, b, f], [x, y, z]], [[a, b, c], [d, y, f], [x, 0, z]],
         [[a, b, c], [0, d, f], [x, y, z]], [[a, b, c], [d, f, 0], [x, y, z]]]) ∨
    (∃ a b c d e x y z : Nat, g = [[a, b, c], [d, e, 0], [x, y, z]] ∧
      find_zero g = some (1, 2) ∧ get_neighbors g =
        [[[a, b, 0], [d, e, c], [x, y, z]], [[a, b, c], [d, e, z], [x, y, 0]],
         [[a, b, c], [d, 0, e], [x, y, z]]]) ∨
    (∃ a b c d e f y z : Nat, g = [[a, b, c], [d, e, f], [0, y, z]] ∧
      find_zero g = some (2, 0) ∧ get_neighbors g =
        [[[a, b, c], [0, e, f], [d, y, z]], [[a, b, c], [d, e, f], [y, 0, z]]]) ∨
    (∃ a b c d e f x z : Nat, g = [[a, b, c], [d, e, f], [x, 0, z]] ∧
      find_zero g = some (2, 1) ∧ get_neighbors g =
        [[[a, b, c], [d, 0, f], [x, e, z]], [[a, b, c], [d, e, f], [0, x, z]],
         [[a, b, c], [d, e, f], [x, z, 0]]]) ∨
    (∃ a b c d e f x y : Nat, g = [[a, b, c], [d, e, f], [x, y, 0]] ∧
      find_zero g = some (2, 2) ∧ get_neighbors g =
        [[[a, b, c], [d, e, 0], [x, y, f]], [[a, b, c], [d, e, f], [x, 0, y]]]) := by
  obtain ⟨a, b, c, d, e, f, x, y, z, rfl⟩ := valid_shape g hv
  have hnd := valid_nodup _ hv
  have h0 := valid_zero_mem _ hv
  simp only [List.flatten_cons, List.flatten_nil, List.append_nil,
    List.cons_append, List.nil_append] at hnd h0
  simp only [List.nodup_cons, List.mem_cons, List.not_mem_nil, or_false,
    not_or, List.nodup_nil, and_true, not_false_eq_true] at hnd
  obtain ⟨⟨nab, nac, nad, nae, naf, nax, nay, naz⟩,
    ⟨nbc, nbd, nbe, nbf, nbx, nby, nbz⟩, ⟨ncd, nce, ncf, ncx, ncy, ncz⟩,
    ⟨nde, ndf, ndx, ndy, ndz⟩, ⟨nef, nex, ney, nez⟩, ⟨nfx, nfy, nfz⟩,
    ⟨nxy, nxz⟩, nyz⟩ := hnd
  simp only [List.mem_cons, List.not_mem_nil, or_false] at h0
  rcases h0 with h | h | h | h | h | h | h | h | h <;> subst h
  · exact Or.inl ⟨b, c, d, e, f, x, y, z, rfl, find_zero_p00 b c d e f x y z,
      neighbors_p00 b c d e f x y z⟩
  · exact Or.inr (Or.inl ⟨a, c, d, e, f, x, y, z, rfl,
      find_zero_p01 a c d e f x y z nab, neighbors_p01 a c d e f x y z nab⟩)
  · exact Or.inr (Or.inr (Or.inl ⟨a, b, d, e, f, x, y, z, rfl,
      find_zero_p02 a b d e f x y z nac nbc, neighbors_p02 a b d e f x y z nac nbc⟩))
  · exact Or.inr (Or.inr (Or.inr (Or.inl ⟨a, b, c, e, f, x, y, z, rfl,
      find_zero_p10 a b c e f x y z nad nbd ncd,
      neighbors_p10 a b c e f x y z nad nbd ncd⟩)))
  · exact Or.inr (Or.inr (Or.inr (Or.inr (Or.inl ⟨a, b, c, d, f, x, y, z, rfl,
      find_zero_p11 a b c d f x y z nae nbe nce nde,
      neighbors_p11 a b c d f x y z nae nbe nce nde⟩))))
  · exact Or.inr (Or.inr (Or.inr (Or.inr (Or.inr (Or.inl ⟨a, b, c, d, e, x, y, z,
      rfl, find_zero_p12 a b c d e x y z naf nbf ncf ndf nef,
      neighbors_p12 a b c d e x y z naf nbf ncf ndf nef⟩)))))
  · exact Or.inr (Or.inr (Or.inr (Or.inr (Or.inr (Or.inr (Or.inl
      ⟨a, b, c, d, e, f, y, z, rfl,
       find_zero_p20 a b c d e f y z nax nbx ncx ndx nex nfx,
       neighbors_p20 a b c d e f y z nax nbx ncx ndx nex nfx⟩))))))
  · exact Or.inr (Or.inr (Or.inr (Or.inr (Or.inr (Or.inr (Or.inr (Or.inl
      ⟨a, b, c, d, e, f, x, z, rfl,
       find_zero_p21 a b c d e f x z nay nby ncy ndy ney nfy nxy,
       neighbors_p21 a b c d e f x z nay nby ncy ndy ney nfy nxy⟩)))))))
  · exact Or.inr (Or.inr (Or.inr (Or.inr (Or.inr (Or.inr (Or.inr (Or.inr
      ⟨a, b, c, d, e, f, x, y, rfl,
       find_zero_p22 a b c d e f x y naz nbz ncz ndz nez nfz nxz nyz,
       neighbors_p22 a b c d e f x y naz nbz ncz ndz nez nfz nxz nyz⟩)))))))

/-- Exchanging two elements separated by a block is a permutation. -/
theorem perm_swap_middle (p q : Nat) (u v w : List Nat) :
    (u ++ p :: (v ++ q :: w)).Perm (u ++ q :: (v ++ p :: w)) :=
  List.Perm.append_left u
    ((List.perm_middle.cons p).trans
      ((List.Perm.swap q p (v ++ w)).trans (List.perm_middle.symm.cons q)))

/-- Every neighbor of a well-formed grid is well-formed. -/
theorem valid_neighbor (g n : Grid) (hv : validGrid g)
    (hn : n ∈ get_neighbors g) : validGrid n := by
  rcases valid_grid_cases g hv with
      ⟨b, c, d, e, f, x, y, z, rfl, -, hns⟩ | ⟨a, c, d, e, f, x, y, z, rfl, -, hns⟩ |
      ⟨a, b, d, e, f, x, y, z, rfl, -, hns⟩ | ⟨a, b, c, e, f, x, y, z, rfl, -, hns⟩ |
      ⟨a, b, c, d, f, x, y, z, rfl, -, hns⟩ | ⟨a, b, c, d, e, x, y, z, rfl, -, hns⟩ |
      ⟨a, b, c, d, e, f, y, z, rfl, -, hns⟩ | ⟨a, b, c, d, e, f, x, z, rfl, -, hns⟩ |
      ⟨a, b, c, d, e, f, x, y, rfl, -, hns⟩ <;>
    rw [hns] at hn <;>
    simp only [List.mem_cons, List.not_mem_nil, or_false] at hn
  · rcases hn with rfl | rfl
    · exact ⟨rfl, ((perm_swap_middle 0 d [] [b,c] [e,f,x,y,z]).symm.trans hv.2)⟩
    · exact ⟨rfl, ((perm_swap_middle 0 b [] [] [c,d,e,f,x,y,z]).symm.trans hv.2)⟩
  · rcases hn with rfl | rfl | rfl
    · exact ⟨rfl, ((perm_swap_middle 0 e [a] [c,d] [f,x,y,z]).symm.trans hv.2)⟩
    · exact ⟨rfl, ((perm_swap_middle a 0 [] [] [c,d,e,f,x,y,z]).symm.trans hv.2)⟩
    · exact ⟨rfl, ((perm_swap_middle 0 c [a] [] [d,e,f,x,y,z]).symm.trans hv.2)⟩
  · rcases hn with rfl | rfl
    · exact ⟨rfl, ((perm_swap_middle 0 f [a,b] [d,e] [x,y,z]).symm.trans hv.2)⟩
    · exact ⟨rfl, ((perm_swap_middle b 0 [a] [] [d,e,f,x,y,z]).symm.trans hv.2)⟩
  · rcases hn with rfl | rfl | rfl
    · exact ⟨rfl, ((perm_swap_middle a 0 [] [b,c] [e,f,x,y,z]).symm.trans hv.2)⟩
    · exact ⟨rfl, ((perm_swap_middle 0 x [a,b,c] [e,f] [y,z]).symm.trans hv.2)⟩
    · exact ⟨rfl, ((perm_swap_middle 0 e [a,b,c] [] [f,x,y,z]).symm.trans hv.2)⟩
  · rcases hn with rfl | rfl | rfl | rfl
    · exact ⟨rfl, ((perm_swap_middle b 0 [a] [c,d] [f,x,y,z]).symm.trans hv.2)⟩
    · exact ⟨rfl, ((perm_swap_middle 0 y [a,b,c,d] [f,x] [z]).symm.trans hv.2)⟩
    · exact ⟨rfl, ((perm_swap_middle d 0 [a,b,c] [] [f,x,y,z]).symm.trans hv.2)⟩
    · exact ⟨rfl, ((perm_swap_middle 0 f [a,b,c,d] [] [x,y,z]).symm.trans hv.2)⟩
  · rcases hn with rfl | rfl | rfl
    · exact ⟨rfl, ((perm_swap_middle c 0 [a,b] [d,e] [x,y,z]).symm.trans hv.2)⟩
    · exact ⟨rfl, ((perm_swap_middle 0 z [a,b,c,d,e] [x,y] []).symm.trans hv.2)⟩
    · exact ⟨rfl, ((perm_swap_middle e 0 [a,b,c,d] [] [x,y,z]).symm.trans hv.2)⟩
  · rcases hn with rfl | rfl
    · exact ⟨rfl, ((perm_swap_middle d 0 [a,b,c] [e,f] [y,z]).symm.trans hv.2)⟩
    · exact ⟨rfl, ((perm_swap_middle 0 y [a,b,c,d,e,f] [] [z]).symm.trans hv.2)⟩
  · rcases hn with rfl | rfl | rfl
    · exact ⟨rfl, ((perm_swap_middle e 0 [a,b,c,d] [f,x] [z]).symm.trans hv.2)⟩
    · exact ⟨rfl, ((perm_swap_middle x 0 [a,b,c,d,e,f] [] [z]).symm.trans hv.2)⟩
    · exact ⟨rfl, ((perm_swap_middle 0 z [a,b,c,d,e,f,x] [] []).symm.trans hv.2)⟩
  · rcases hn with rfl | rfl
    · exact ⟨rfl, ((perm_swap_middle f 0 [a,b,c,d,e] [x,y] []).symm.trans hv.2)⟩
    · exact ⟨rfl, ((perm_swap_middle y 0 [a,b,c,d,e,f,x] [] []).symm.trans hv.2)⟩

/-- C5: for every valid grid, `find_zero` locates the blank, `get_neighbors`
returns the in-bounds blank swaps in the fixed order up, down, left, right
(2 of them from a corner, 3 from an edge, 4 from the center), and every
neighbor is a valid grid differing from the input only by swapping the blank
with one orthogonally adjacent tile.  (`get_neighbors` is a pure function of
an immutable value, so the input grid is unchanged by construction.) -/
theorem C5_neighbors (g : Grid) (hv : validGrid g) :
    ∃ r c, find_zero g = some (r, c) ∧ r < GRID_SIZE ∧ c < GRID_SIZE ∧
      cell g r c = 0 ∧
      get_neighbors g = neighborsSpec g r c ∧
      (∀ n ∈ get_neighbors g, validGrid n ∧ ∃ r2 c2, r2 < GRID_SIZE ∧
        c2 < GRID_SIZE ∧ orthAdj r c r2 c2 ∧ n = swapCells g r c r2 c2) ∧
      2 ≤ (get_neighbors g).length ∧ (get_neighbors g).length ≤ 4 ∧
      (cornerPos r c → (get_neighbors g).length = 2) ∧
      (edgePos r c → (get_neighbors g).length = 3) ∧
      (centerPos r c → (get_neighbors g).length = 4) := by
  rcases valid_grid_cases g hv with
      ⟨b, c, d, e, f, x, y, z, rfl, hfz, hns⟩ |
      ⟨a, c, d, e, f, x, y, z, rfl, hfz, hns⟩ |
      ⟨a, b, d, e, f, x, y, z, rfl, hfz, hns⟩ |
      ⟨a, b, c, e, f, x, y, z, rfl, hfz, hns⟩ |
      ⟨a, b, c, d, f, x, y, z, rfl, hfz, hns⟩ |
      ⟨a, b, c, d, e, x, y, z, rfl, hfz, hns⟩ |
      ⟨a, b, c, d, e, f, y, z, rfl, hfz, hns⟩ |
      ⟨a, b, c, d, e, f, x, z, rfl, hfz, hns⟩ |
      ⟨a, b, c, d, e, f, x, y, rfl, hfz, hns⟩
  · refine ⟨0, 0, hfz, by decide, by decide, rfl, by rw [hns]; rfl, ?_,
      by rw [hns]; simp, by rw [hns]; simp, ?_, ?_, ?_⟩
    · intro n hn
      refine ⟨valid_neighbor _ n hv hn, ?_⟩
      rw [hns] at hn
      simp only [List.mem_cons, List.not_mem_nil, or_false] at hn
      rcases hn with rfl | rfl
      · exact ⟨1, 0, by decide, by decide, by decide, rfl⟩
      · exact ⟨0, 1, by decide, by decide, by decide, rfl⟩
    · intro h1; rw [hns]; rfl
    · intro h1; exact absurd h1 (by decide)
    · intro h1; exact absurd h1 (by decide)
  · refine ⟨0, 1, hfz, by decide, by decide, rfl, by rw [hns]; rfl, ?_,
      by rw [hns]; simp, by rw [hns]; simp, ?_, ?_, ?_⟩
    · intro n hn
      refine ⟨valid_neighbor _ n hv hn, ?_⟩
      rw [hns] at hn
      simp only [List.mem_cons, List.not_mem_nil, or_false] at hn
      rcases hn with rfl | rfl | rfl
      · exact ⟨1, 1, by decide, by decide, by decide, rfl⟩
      · exact ⟨0, 0, by decide, by decide, by decide, rfl⟩
      · exact ⟨0, 2, by decide, by decide, by decide, rfl⟩
    · intro h1; exact absurd h1 (by decide)
    · intro h1; rw [hns]; rfl
    · intro h1; exact absurd h1 (by decide)
  · refine ⟨0, 2, hfz, by decide, by decide, rfl, by rw [hns]; rfl, ?_,
      by rw [hns]; simp, by rw [hns]; simp, ?_, ?_, ?_⟩
    · intro n hn
      refine ⟨valid_neighbor _ n hv hn, ?_⟩
      rw [hns] at hn
      simp only [List.mem_cons, List.not_mem_nil, or_false] at hn
      rcases hn with rfl | rfl
      · exact ⟨1, 2, by decide, by decide, by decide, rfl⟩
      · exact ⟨0, 1, by decide, by decide, by decide, rfl⟩
    · intro h1; rw [hns]; rfl
    · intro h1; exact absurd h1 (by decide)
    · intro h1; exact absurd h1 (by decide)
  · refine ⟨1, 0, hfz, by decide, by decide, rfl, by rw [hns]; rfl, ?_,
      by rw [hns]; simp, by rw [hns]; simp, ?_, ?_, ?_⟩
    · intro n hn
      refine ⟨valid_neighbor _ n hv hn, ?_⟩
      rw [hns] at hn
      simp only [List.mem_cons, List.not_mem_nil, or_false] at hn
      rcases hn with rfl | rfl | rfl
      · exact ⟨0, 0, by decide, by decide, by decide, rfl⟩
      · exact ⟨2, 0, by decide, by decide, by decide, rfl⟩
      · exact ⟨1, 1, by decide, by decide, by decide, rfl⟩
    · intro h1; exact absurd h1 (by decide)
    · intro h1; rw [hns]; rfl
    · intro h1; exact absurd h1 (by decide)
  · refine ⟨1, 1, hfz, by decide, by decide, rfl, by rw [hns]; rfl, ?_,
      by rw [hns]; simp, by rw [hns]; simp, ?_, ?_, ?_⟩
    · intro n hn
      refine ⟨valid_neighbor _ n hv hn, ?_⟩
      rw [hns] at hn
      simp only [List.mem_cons, List.not_mem_nil, or_false] at hn
      rcases hn with rfl | rfl | rfl | rfl
      · exact ⟨0, 1, by decide, by decide, by decide, rfl⟩
      · exact ⟨2, 1, by decide, by decide, by decide, rfl⟩
      · exact ⟨1, 0, by decide, by decide, by decide, rfl⟩
      · exact ⟨1, 2, by decide, by decide, by decide, rfl⟩
    · intro h1; exact absurd h1 (by decide)
    · intro h1; exact absurd h1 (by decide)
    · intro h1; rw [hns]; rfl
  · refine ⟨1, 2, hfz, by decide, by decide, rfl, by rw [hns]; rfl, ?_,
      by rw [hns]; simp, by rw [hns]; simp, ?_, ?_, ?_⟩
    · intro n hn
      refine ⟨valid_neighbor _ n hv hn, ?_⟩
      rw [hns] at hn
      simp only [List.mem_cons, List.not_mem_nil, or_false] at hn
      rcases hn with rfl | rfl | rfl
      · exact ⟨0, 2, by decide, by decide, by decide, rfl⟩
      · exact ⟨2, 2, by decide, by decide, by decide, rfl⟩
      · exact ⟨1, 1, by decide, by decide, by decide, rfl⟩
    · intro h1; exact absurd h1 (by decide)
    · intro h1; rw [hns]; rfl
    · intro h1; exact absurd h1 (by decide)
  · refine ⟨2, 0, hfz, by decide, by decide, rfl, by rw [hns]; rfl, ?_,
      by rw [hns]; simp, by rw [hns]; simp, ?_, ?_, ?_⟩
    · intro n hn
      refine ⟨valid_neighbor _ n hv hn, ?_⟩
      rw [hns] at hn
      simp only [List.mem_cons, List.not_mem_nil, or_false] at hn
      rcases hn with rfl | rfl
      · exact ⟨1, 0, by decide, by decide, by decide, rfl⟩
      · exact ⟨2, 1, by decide, by decide, by decide, rfl⟩
    · intro h1; rw [hns]; rfl
    · intro h1; exact absurd h1 (by decide)
    · intro h1; exact absurd h1 (by decide)
  · refine ⟨2, 1, hfz, by decide, by decide, rfl, by rw [hns]; rfl, ?_,
      by rw [hns]; simp, by rw [hns]; simp, ?_, ?_, ?_⟩
    · intro n hn
      refine ⟨valid_neighbor _ n hv hn, ?_⟩
      rw [hns] at hn
      simp only [List.mem_cons, List.not_mem_nil, or_false] at hn
      rcases hn with rfl | rfl | rfl
      · exact ⟨1, 1, by decide, by decide, by decide, rfl⟩
      · exact ⟨2, 0, by decide, by decide, by decide, rfl⟩
      · exact ⟨2, 2, by decide, by decide, by decide, rfl⟩
    · intro h1; exact absurd h1 (by decide)
    · intro h1; rw [hns]; rfl
    · intro h1; exact absurd h1 (by decide)
  · refine ⟨2, 2, hfz, by decide, by decide, rfl, by rw [hns]; rfl, ?_,
      by rw [hns]; simp, by rw [hns]; simp, ?_, ?_, ?_⟩
    · intro n hn
      refine ⟨valid_neighbor _ n hv hn, ?_⟩
      rw [hns] at hn
      simp only [List.mem_cons, List.not_mem_nil, or_false] at hn
      rcases hn with rfl | rfl
      · exact ⟨1, 2, by decide, by decide, by decide, rfl⟩
      · exact ⟨2, 1, by decide, by decide, by decide, rfl⟩
    · intro h1; rw [hns]; rfl
    · intro h1; exact absurd h1 (by decide)
    · intro h1; exact absurd h1 (by decide)

/-- Witness for C5 at the goal grid. -/
theorem C5_neighbors_witness :
    validGrid goal_state ∧
    ∃ r c, find_zero goal_state = some (r, c) ∧ r < GRID_SIZE ∧ c < GRID_SIZE ∧
      cell goal_state r c = 0 ∧
      get_neighbors goal_state = neighborsSpec goal_state r c ∧
      (∀ n ∈ get_neighbors goal_state, validGrid n ∧ ∃ r2 c2, r2 < GRID_SIZE ∧
        c2 < GRID_SIZE ∧ orthAdj r c r2 c2 ∧ n = swapCells goal_state r c r2 c2) ∧
      2 ≤ (get_neighbors goal_state).length ∧ (get_neighbors goal_state).length ≤ 4 ∧
      (cornerPos r c → (get_neighbors goal_state).length = 2) ∧
      (edgePos r c → (get_neighbors goal_state).length = 3) ∧
      (centerPos r c → (get_neighbors goal_state).length = 4) :=
  ⟨by decide, C5_neighbors goal_state (by decide)⟩

/-- C10: on a 3-row-by-3-column grid, `find_zero` returns the row-major-first
zero cell whenever one exists (so `get_neighbors` takes its `some` branch),
and returns `None` exactly when no cell is zero, in which case the Python
code's subsequent indexing of the blank position has nothing to index
(modelled here by `get_neighbors` producing nothing). -/
theorem C10_find_zero (g : Grid)
    (hs : g.map List.length = [GRID_SIZE, GRID_SIZE, GRID_SIZE]) :
    ((∃ r c, r < GRID_SIZE ∧ c < GRID_SIZE ∧ cell g r c = 0) →
      ∃ r c, find_zero g = some (r, c) ∧ r < GRID_SIZE ∧ c < GRID_SIZE ∧
        cell g r c = 0 ∧
        ∀ r2 c2, r2 < GRID_SIZE → c2 < GRID_SIZE →
          (r2 < r ∨ (r2 = r ∧ c2 < c)) → cell g r2 c2 ≠ 0) ∧
    ((∀ r c, r < GRID_SIZE → c < GRID_SIZE → cell g r c ≠ 0) →
      find_zero g = none ∧ get_neighbors g = []) := by
  obtain ⟨a, b, c, d, e, f, x, y, z, rfl⟩ := shape_cells g hs
  by_cases ha : a = 0
  · subst ha
    refine ⟨fun _ => ⟨0, 0, find_zero_p00 b c d e f x y z, by decide,
        by decide, rfl, ?_⟩,
      fun hall => absurd rfl (hall 0 0 (by decide) (by decide))⟩
    intro r2 c2 hr2 hc2 hlt
    simp only [GRID_SIZE] at hr2 hc2
    interval_cases r2 <;> interval_cases c2 <;> simp [cell] <;>
      first | assumption | omega
  by_cases hb : b = 0
  · subst hb
    refine ⟨fun _ => ⟨0, 1, find_zero_p01 a c d e f x y z ha, by decide,
        by decide, rfl, ?_⟩,
      fun hall => absurd rfl (hall 0 1 (by decide) (by decide))⟩
    intro r2 c2 hr2 hc2 hlt
    simp only [GRID_SIZE] at hr2 hc2
    interval_cases r2 <;> interval_cases c2 <;> simp [cell] <;>
      first | assumption | omega
  by_cases hc : c = 0
  · subst hc
    refine ⟨fun _ => ⟨0, 2, find_zero_p02 a b d e f x y z ha hb, by decide,
        by decide, rfl, ?_⟩,
      fun hall => absurd rfl (hall 0 2 (by decide) (by decide))⟩
    intro r2 c2 hr2 hc2 hlt
    simp only [GRID_SIZE] at hr2 hc2
    interval_cases r2 <;> interval_cases c2 <;> simp [cell] <;>
      first | assumption | omega
  by_cases hd : d = 0
  · subst hd
    refine ⟨fun _ => ⟨1, 0, find_zero_p10 a b c e f x y z ha hb hc, by decide,
        by decide, rfl, ?_⟩,
      fun hall => absurd rfl (hall 1 0 (by decide) (by decide))⟩
    intro r2 c2 hr2 hc2 hlt
    simp only [GRID_SIZE] at hr2 hc2
    interval_cases r2 <;> interval_cases c2 <;> simp [cell] <;>
      first | assumption | omega
  by_cases he : e = 0
  · subst he
    refine ⟨fun _ => ⟨1, 1, find_zero_p11 a b c d f x y z ha hb hc hd, by decide,
        by decide, rfl, ?_⟩,
      fun hall => absurd rfl (hall 1 1 (by decide) (by decide))⟩
    intro r2 c2 hr2 hc2 hlt
    simp only [GRID_SIZE] at hr2 hc2
    interval_cases r2 <;> interval_cases c2 <;> simp [cell] <;>
      first | assumption | omega
  by_cases hf : f = 0
  · subst hf
    refine ⟨fun _ => ⟨1, 2, find_zero_p12 a b c d e x y z ha hb hc hd he, by decide,
        by decide, rfl, ?_⟩,
      fun hall => absurd rfl (hall 1 2 (by decide) (by decide))⟩
    intro r2 c2 hr2 hc2 hlt
    simp only [GRID_SIZE] at hr2 hc2
    interval_cases r2 <;> interval_cases c2 <;> simp [cell] <;>
      first | assumption | omega
  by_cases hx : x = 0
  · subst hx
    refine ⟨fun _ => ⟨2, 0, find_zero_p20 a b c d e f y z ha hb hc hd he hf, by decide,
        by decide, rfl, ?_⟩,
      fun hall => absurd rfl (hall 2 0 (by decide) (by decide))⟩
    intro r2 c2 hr2 hc2 hlt
    simp only [GRID_SIZE] at hr2 hc2
    interval_cases r2 <;> interval_cases c2 <;> simp [cell] <;>
      first | assumption | omega
  by_cases hy : y = 0
  · subst hy
    refine ⟨fun _ => ⟨2, 1, find_zero_p21 a b c d e f x z ha hb hc hd he hf hx, by decide,
        by decide, rfl, ?_⟩,
      fun hall => absurd rfl (hall 2 1 (by decide) (by decide))⟩
    intro r2 c2 hr2 hc2 hlt
    simp only [GRID_SIZE] at hr2 hc2
    interval_cases r2 <;> interval_cases c2 <;> simp [cell] <;>
      first | assumption | omega
  by_cases hz : z = 0
  · subst hz
    refine ⟨fun _ => ⟨2, 2, find_zero_p22 a b c d e f x y ha hb hc hd he hf hx hy, by decide,
        by decide, rfl, ?_⟩,
      fun hall => absurd rfl (hall 2 2 (by decide) (by decide))⟩
    intro r2 c2 hr2 hc2 hlt
    simp only [GRID_SIZE] at hr2 hc2
    interval_cases r2 <;> interval_cases c2 <;> simp [cell] <;>
      first | assumption | omega
  refine ⟨?_, fun _ => ?_⟩
  · rintro ⟨r, c, hr, hc, h0⟩
    simp only [GRID_SIZE] at hr hc
    interval_cases r <;> interval_cases c <;> simp [cell] at h0 <;> contradiction
  · have hfz : find_zero [[a, b, c], [d, e, f], [x, y, z]] = none := by
      have ha1 : (a == 0) = false := by simpa using ha
      have hb1 : (b == 0) = false := by simpa using hb
      have hc1 : (c == 0) = false := by simpa using hc
      have hd1 : (d == 0) = false := by simpa using hd
      have he1 : (e == 0) = false := by simpa using he
      have hf1 : (f == 0) = false := by simpa using hf
      have hx1 : (x == 0) = false := by simpa using hx
      have hy1 : (y == 0) = false := by simpa using hy
      have hz1 : (z == 0) = false := by simpa using hz
      simp [find_zero, cellIndices, GRID_SIZE, cell, List.find?, ha1, hb1, hc1, hd1, he1, hf1, hx1, hy1, hz1]
    refine ⟨hfz, ?_⟩
    unfold get_neighbors
    rw [hfz]

/-- Witness for C10 at the goal grid. -/
theorem C10_find_zero_witness :
    goal_state.map List.length = [GRID_SIZE, GRID_SIZE, GRID_SIZE] ∧
    (((∃ r c, r < GRID_SIZE ∧ c < GRID_SIZE ∧ cell goal_state r c = 0) →
      ∃ r c, find_zero goal_state = some (r, c) ∧ r < GRID_SIZE ∧ c < GRID_SIZE ∧
        cell goal_state r c = 0 ∧
        ∀ r2 c2, r2 < GRID_SIZE → c2 < GRID_SIZE →
          (r2 < r ∨ (r2 = r ∧ c2 < c)) → cell goal_state r2 c2 ≠ 0) ∧
    ((∀ r c, r < GRID_SIZE → c < GRID_SIZE → cell goal_state r c ≠ 0) →
      find_zero goal_state = none ∧ get_neighbors goal_state = [])) :=
  ⟨by decide, C10_find_zero goal_state (by decide)⟩

theorem inversions_cons (t : Nat) (l : List Nat) :
    inversions (t :: l) = cntLt t l + inversions l := rfl

theorem cntLt_cons (t a : Nat) (l : List Nat) :
    cntLt t (a :: l) = (if a < t then 1 else 0) + cntLt t l := by
  by_cases h : a < t
  · simp [cntLt, List.filter_cons, h, Nat.add_comm]
  · simp [cntLt, List.filter_cons, h]

theorem cntLt_append (t : Nat) (l1 l2 : List Nat) :
    cntLt t (l1 ++ l2) = cntLt t l1 + cntLt t l2 := by
  simp [cntLt, List.filter_append]

theorem cntLt_perm (t : Nat) {l1 l2 : List Nat} (h : l1.Perm l2) :
    cntLt t l1 = cntLt t l2 :=
  (h.filter _).length_eq

theorem inversions_append (l1 l2 : List Nat) :
    inversions (l1 ++ l2) = inversions l1 + inversions l2 + crossLt l1 l2 := by
  induction l1 with
  | nil => simp [inversions, crossLt]
  | cons t l1 ih =>
    have h1 : inversions ((t :: l1) ++ l2) = cntLt t (l1 ++ l2) + inversions (l1 ++ l2) :=
      rfl
    have h2 : crossLt (t :: l1) l2 = cntLt t l2 + crossLt l1 l2 := by
      simp [crossLt]
    rw [h1, cntLt_append, ih, inversions_cons, h2]
    omega

theorem crossLt_perm_right (l1 : List Nat) {l2 l3 : List Nat} (h : l2.Perm l3) :
    crossLt l1 l2 = crossLt l1 l3 := by
  unfold crossLt
  have he : (fun t => cntLt t l2) = fun t => cntLt t l3 :=
    funext fun t => cntLt_perm t h
  rw [he]

theorem inversions_three_head (t p q : Nat) (w : List Nat) (hp : p ≠ t)
    (hq : q ≠ t) :
    inversions (p :: q :: t :: w) % 2 = inversions (t :: p :: q :: w) % 2 := by
  simp only [inversions_cons, cntLt_cons]
  rcases Nat.lt_or_gt_of_ne hp with h1 | h1 <;>
    rcases Nat.lt_or_gt_of_ne hq with h2 | h2
  · rw [if_neg (by omega : ¬t < p), if_neg (by omega : ¬t < q),
      if_pos (by omega : p < t), if_pos (by omega : q < t)]
    omega
  · rw [if_neg (by omega : ¬t < p), if_pos (by omega : t < q),
      if_pos (by omega : p < t), if_neg (by omega : ¬q < t)]
    omega
  · rw [if_pos (by omega : t < p), if_neg (by omega : ¬t < q),
      if_neg (by omega : ¬p < t), if_pos (by omega : q < t)]
    omega
  · rw [if_pos (by omega : t < p), if_pos (by omega : t < q),
      if_neg (by omega : ¬p < t), if_neg (by omega : ¬q < t)]
    omega

/-- Moving one value `t` across a block of two values, none equal to `t`,
keeps the inversion-count parity: each crossed pair flips exactly one of the
two complementary orientations. -/
theorem inversions_parity_shift (t p q : Nat) (u w : List Nat) (hp : p ≠ t)
    (hq : q ≠ t) :
    inversions (u ++ p :: q :: t :: w) % 2 = inversions (u ++ t :: p :: q :: w) % 2 := by
  rw [inversions_append, inversions_append]
  have hperm : (p :: q :: t :: w).Perm (t :: p :: q :: w) :=
    @List.perm_middle Nat t [p, q] w
  rw [crossLt_perm_right u hperm]
  have h3 := inversions_three_head t p q w hp hq
  omega

theorem is_solvable_neighbor (g n : Grid) (hv : validGrid g)
    (hn : n ∈ get_neighbors g) : is_solvable n = is_solvable g := by
  have hnd := valid_nodup g hv
  rcases valid_grid_cases g hv with
      ⟨b, c, d, e, f, x, y, z, rfl, -, hns⟩ |
      ⟨a, c, d, e, f, x, y, z, rfl, -, hns⟩ |
      ⟨a, b, d, e, f, x, y, z, rfl, -, hns⟩ |
      ⟨a, b, c, e, f, x, y, z, rfl, -, hns⟩ |
      ⟨a, b, c, d, f, x, y, z, rfl, -, hns⟩ |
      ⟨a, b, c, d, e, x, y, z, rfl, -, hns⟩ |
      ⟨a, b, c, d, e, f, y, z, rfl, -, hns⟩ |
      ⟨a, b, c, d, e, f, x, z, rfl, -, hns⟩ |
      ⟨a, b, c, d, e, f, x, y, rfl, -, hns⟩ <;>
    rw [hns] at hn <;>
    simp only [List.flatten_cons, List.flatten_nil, List.append_nil,
      List.cons_append, List.nil_append] at hnd <;>
    simp only [List.nodup_cons, List.mem_cons, List.not_mem_nil, or_false,
      not_or, List.nodup_nil, and_true, not_false_eq_true] at hnd <;>
    obtain ⟨⟨n12, n13, n14, n15, n16, n17, n18, n19⟩,
      ⟨n23, n24, n25, n26, n27, n28, n29⟩, ⟨n34, n35, n36, n37, n38, n39⟩,
      ⟨n45, n46, n47, n48, n49⟩, ⟨n56, n57, n58, n59⟩, ⟨n67, n68, n69⟩,
      ⟨n78, n79⟩, n89⟩ := hnd <;>
    simp only [List.mem_cons, List.not_mem_nil, or_false] at hn
  · rcases hn with rfl | rfl
    · have hpar := inversions_parity_shift d b c [] [e, f, x, y, z]
        (n24) (n34)
      simp only [List.cons_append, List.nil_append] at hpar
      have hfn : List.filter (fun num => num != 0) [d, b, c, 0, e, f, x, y, z] = [d, b, c, e, f, x, y, z] := by
        simp [Ne.symm n12, Ne.symm n13, Ne.symm n14, Ne.symm n15, Ne.symm n16, Ne.symm n17, Ne.symm n18, Ne.symm n19]
      have hfg : List.filter (fun num => num != 0) [0, b, c, d, e, f, x, y, z] = [b, c, d, e, f, x, y, z] := by
        simp [Ne.symm n12, Ne.symm n13, Ne.symm n14, Ne.symm n15, Ne.symm n16, Ne.symm n17, Ne.symm n18, Ne.symm n19]
      simp only [is_solvable, List.flatten_cons, List.flatten_nil,
        List.append_nil, List.cons_append, List.nil_append]
      rw [hfn, hfg, hpar]
    · have hfn : List.filter (fun num => num != 0) [b, 0, c, d, e, f, x, y, z] = [b, c, d, e, f, x, y, z] := by
        simp [Ne.symm n12, Ne.symm n13, Ne.symm n14, Ne.symm n15, Ne.symm n16, Ne.symm n17, Ne.symm n18, Ne.symm n19]
      have hfg : List.filter (fun num => num != 0) [0, b, c, d, e, f, x, y, z] = [b, c, d, e, f, x, y, z] := by
        simp [Ne.symm n12, Ne.symm n13, Ne.symm n14, Ne.symm n15, Ne.symm n16, Ne.symm n17, Ne.symm n18, Ne.symm n19]
      simp only [is_solvable, List.flatten_cons, List.flatten_nil,
        List.append_nil, List.cons_append, List.nil_append]
      rw [hfn, hfg]
  · rcases hn with rfl | rfl | rfl
    · have hpar := inversions_parity_shift e c d [a] [f, x, y, z]
        (n35) (n45)
      simp only [List.cons_append, List.nil_append] at hpar
      have hfn : List.filter (fun num => num != 0) [a, e, c, d, 0, f, x, y, z] = [a, e, c, d, f, x, y, z] := by
        simp [n12, Ne.symm n23, Ne.symm n24, Ne.symm n25, Ne.symm n26, Ne.symm n27, Ne.symm n28, Ne.symm n29]
      have hfg : List.filter (fun num => num != 0) [a, 0, c, d, e, f, x, y, z] = [a, c, d, e, f, x, y, z] := by
        simp [n12, Ne.symm n23, Ne.symm n24, Ne.symm n25, Ne.symm n26, Ne.symm n27, Ne.symm n28, Ne.symm n29]
      simp only [is_solvable, List.flatten_cons, List.flatten_nil,
        List.append_nil, List.cons_append, List.nil_append]
      rw [hfn, hfg, hpar]
    · have hfn : List.filter (fun num => num != 0) [0, a, c, d, e, f, x, y, z] = [a, c, d, e, f, x, y, z] := by
        simp [n12, Ne.symm n23, Ne.symm n24, Ne.symm n25, Ne.symm n26, Ne.symm n27, Ne.symm n28, Ne.symm n29]
      have hfg : List.filter (fun num => num != 0) [a, 0, c, d, e, f, x, y, z] = [a, c, d, e, f, x, y, z] := by
        simp [n12, Ne.symm n23, Ne.symm n24, Ne.symm n25, Ne.symm n26, Ne.symm n27, Ne.symm n28, Ne.symm n29]
      simp only [is_solvable, List.flatten_cons, List.flatten_nil,
        List.append_nil, List.cons_append, List.nil_append]
      rw [hfn, hfg]
    · have hfn : List.filter (fun num => num != 0) [a, c, 0, d, e, f, x, y, z] = [a, c, d, e, f, x, y, z] := by
        simp [n12, Ne.symm n23, Ne.symm n24, Ne.symm n25, Ne.symm n26, Ne.symm n27, Ne.symm n28, Ne.symm n29]
      have hfg : List.filter (fun num => num != 0) [a, 0, c, d, e, f, x, y, z] = [a, c, d, e, f, x, y, z] := by
        simp [n12, Ne.symm n23, Ne.symm n24, Ne.symm n25, Ne.symm n26, Ne.symm n27, Ne.symm n28, Ne.symm n29]
      simp only [is_solvable, List.flatten_cons, List.flatten_nil,
        List.append_nil, List.cons_append, List.nil_append]
      rw [hfn, hfg]
  · rcases hn with rfl | rfl
    · have hpar := inversions_parity_shift f d e [a, b] [x, y, z]
        (n46) (n56)
      simp only [List.cons_append, List.nil_append] at hpar
      have hfn : List.filter (fun num => num != 0) [a, b, f, d, e, 0, x, y, z] = [a, b, f, d, e, x, y, z] := by
        simp [n13, n23, Ne.symm n34, Ne.symm n35, Ne.symm n36, Ne.symm n37, Ne.symm n38, Ne.symm n39]
      have hfg : List.filter (fun num => num != 0) [a, b, 0, d, e, f, x, y, z] = [a, b, d, e, f, x, y, z] := by
        simp [n13, n23, Ne.symm n34, Ne.symm n35, Ne.symm n36, Ne.symm n37, Ne.symm n38, Ne.symm n39]
      simp only [is_solvable, List.flatten_cons, List.flatten_nil,
        List.append_nil, List.cons_append, List.nil_append]
      rw [hfn, hfg, hpar]
    · have hfn : List.filter (fun num => num != 0) [a, 0, b, d, e, f, x, y, z] = [a, b, d, e, f, x, y, z] := by
        simp [n13, n23, Ne.symm n34, Ne.symm n35, Ne.symm n36, Ne.symm n37, Ne.symm n38, Ne.symm n39]
      have hfg : List.filter (fun num => num != 0) [a, b, 0, d, e, f, x, y, z] = [a, b, d, e, f, x, y, z] := by
        simp [n13, n23, Ne.symm n34, Ne.symm n35, Ne.symm n36, Ne.symm n37, Ne.symm n38, Ne.symm n39]
      simp only [is_solvable, List.flatten_cons, List.flatten_nil,
        List.append_nil, List.cons_append, List.nil_append]
      rw [hfn, hfg]
  · rcases hn with rfl | rfl | rfl
    · have hpar := inversions_parity_shift a b c [] [e, f, x, y, z]
        (Ne.symm n12) (Ne.symm n13)
      simp only [List.cons_append, List.nil_append] at hpar
      have hfn : List.filter (fun num => num != 0) [0, b, c, a, e, f, x, y, z] = [b, c, a, e, f, x, y, z] := by
        simp [n14, n24, n34, Ne.symm n45, Ne.symm n46, Ne.symm n47, Ne.symm n48, Ne.symm n49]
      have hfg : List.filter (fun num => num != 0) [a, b, c, 0, e, f, x, y, z] = [a, b, c, e, f, x, y, z] := by
        simp [n14, n24, n34, Ne.symm n45, Ne.symm n46, Ne.symm n47, Ne.symm n48, Ne.symm n49]
      simp only [is_solvable, List.flatten_cons, List.flatten_nil,
        List.append_nil, List.cons_append, List.nil_append]
      rw [hfn, hfg, hpar]
    · have hpar := inversions_parity_shift x e f [a, b, c] [y, z]
        (n57) (n67)
      simp only [List.cons_append, List.nil_append] at hpar
      have hfn : List.filter (fun num => num != 0) [a, b, c, x, e, f, 0, y, z] = [a, b, c, x, e, f, y, z] := by
        simp [n14, n24, n34, Ne.symm n45, Ne.symm n46, Ne.symm n47, Ne.symm n48, Ne.symm n49]
      have hfg : List.filter (fun num => num != 0) [a, b, c, 0, e, f, x, y, z] = [a, b, c, e, f, x, y, z] := by
        simp [n14, n24, n34, Ne.symm n45, Ne.symm n46, Ne.symm n47, Ne.symm n48, Ne.symm n49]
      simp only [is_solvable, List.flatten_cons, List.flatten_nil,
        List.append_nil, List.cons_append, List.nil_append]
      rw [hfn, hfg, hpar]
    · have hfn : List.filter (fun num => num != 0) [a, b, c, e, 0, f, x, y, z] = [a, b, c, e, f, x, y, z] := by
        simp [n14, n24, n34, Ne.symm n45, Ne.symm n46, Ne.symm n47, Ne.symm n48, Ne.symm n49]
      have hfg : List.filter (fun num => num != 0) [a, b, c, 0, e, f, x, y, z] = [a, b, c, e, f, x, y, z] := by
        simp [n14, n24, n34, Ne.symm n45, Ne.symm n46, Ne.symm n47, Ne.symm n48, Ne.symm n49]
      simp only [is_solvable, List.flatten_cons, List.flatten_nil,
        List.append_nil, List.cons_append, List.nil_append]
      rw [hfn, hfg]
  · rcases hn with rfl | rfl | rfl | rfl
    · have hpar := inversions_parity_shift b c d [a] [f, x, y, z]
        (Ne.symm n23) (Ne.symm n24)
      simp only [List.cons_append, List.nil_append] at hpar
      have hfn : List.filter (fun num => num != 0) [a, 0, c, d, b, f, x, y, z] = [a, c, d, b, f, x, y, z] := by
        simp [n15, n25, n35, n45, Ne.symm n56, Ne.symm n57, Ne.symm n58, Ne.symm n59]
      have hfg : List.filter (fun num => num != 0) [a, b, c, d, 0, f, x, y, z] = [a, b, c, d, f, x, y, z] := by
        simp [n15, n25, n35, n45, Ne.symm n56, Ne.symm n57, Ne.symm n58, Ne.symm n59]
      simp only [is_solvable, List.flatten_cons, List.flatten_nil,
        List.append_nil, List.cons_append, List.nil_append]
      rw [hfn, hfg, hpar]
    · have hpar := inversions_parity_shift y f x [a, b, c, d] [z]
        (n68) (n78)
      simp only [List.cons_append, List.nil_append] at hpar
      have hfn : List.filter (fun num => num != 0) [a, b, c, d, y, f, x, 0, z] = [a, b, c, d, y, f, x, z] := by
        simp [n15, n25, n35, n45, Ne.symm n56, Ne.symm n57, Ne.symm n58, Ne.symm n59]
      have hfg : List.filter (fun num => num != 0) [a, b, c, d, 0, f, x, y, z] = [a, b, c, d, f, x, y, z] := by
        simp [n15, n25, n35, n45, Ne.symm n56, Ne.symm n57, Ne.symm n58, Ne.symm n59]
      simp only [is_solvable, List.flatten_cons, List.flatten_nil,
        List.append_nil, List.cons_append, List.nil_append]
      rw [hfn, hfg, hpar]
    · have hfn : List.filter (fun num => num != 0) [a, b, c, 0, d, f, x, y, z] = [a, b, c, d, f, x, y, z] := by
        simp [n15, n25, n35, n45, Ne.symm n56, Ne.symm n57, Ne.symm n58, Ne.symm n59]
      have hfg : List.filter (fun num => num != 0) [a, b, c, d, 0, f, x, y, z] = [a, b, c, d, f, x, y, z] := by
        simp [n15, n25, n35, n45, Ne.symm n56, Ne.symm n57, Ne.symm n58, Ne.symm n59]
      simp only [is_solvable, List.flatten_cons, List.flatten_nil,
        List.append_nil, List.cons_append, List.nil_append]
      rw [hfn, hfg]
    · have hfn : List.filter (fun num => num != 0) [a, b, c, d, f, 0, x, y, z] = [a, b, c, d, f, x, y, z] := by
        simp [n15, n25, n35, n45, Ne.symm n56, Ne.symm n57, Ne.symm n58, Ne.symm n59]
      have hfg : List.filter (fun num => num != 0) [a, b, c, d, 0, f, x, y, z] = [a, b, c, d, f, x, y, z] := by
        simp [n15, n25, n35, n45, Ne.symm n56, Ne.symm n57, Ne.symm n58, Ne.symm n59]
      simp only [is_solvable, List.flatten_cons, List.flatten_nil,
        List.append_nil, List.cons_append, List.nil_append]
      rw [hfn, hfg]
  · rcases hn with rfl | rfl | rfl
    · have hpar := inversions_parity_shift c d e [a, b] [x, y, z]
        (Ne.symm n34) (Ne.symm n35)
      simp only [List.cons_append, List.nil_append] at hpar
      have hfn : List.filter (fun num => num != 0) [a, b, 0, d, e, c, x, y, z] = [a, b, d, e, c, x, y, z] := by
        simp [n16, n26, n36, n46, n56, Ne.symm n67, Ne.symm n68, Ne.symm n69]
      have hfg : List.filter (fun num => num != 0) [a, b, c, d, e, 0, x, y, z] = [a, b, c, d, e, x, y, z] := by
        simp [n16, n26, n36, n46, n56, Ne.symm n67, Ne.symm n68, Ne.symm n69]
      simp only [is_solvable, List.flatten_cons, List.flatten_nil,
        List.append_nil, List.cons_append, List.nil_append]
      rw [hfn, hfg, hpar]
    · have hpar := inversions_parity_shift z x y [a, b, c, d, e] []
        (n79) (n89)
      simp only [List.cons_append, List.nil_append] at hpar
      have hfn : List.filter (fun num => num != 0) [a, b, c, d, e, z, x, y, 0] = [a, b, c, d, e, z, x, y] := by
        simp [n16, n26, n36, n46, n56, Ne.symm n67, Ne.symm n68, Ne.symm n69]
      have hfg : List.filter (fun num => num != 0) [a, b, c, d, e, 0, x, y, z] = [a, b, c, d, e, x, y, z] := by
        simp [n16, n26, n36, n46, n56, Ne.symm n67, Ne.symm n68, Ne.symm n69]
      simp only [is_solvable, List.flatten_cons, List.flatten_nil,
        List.append_nil, List.cons_append, List.nil_append]
      rw [hfn, hfg, hpar]
    · have hfn : List.filter (fun num => num != 0) [a, b, c, d, 0, e, x, y, z] = [a, b, c, d, e, x, y, z] := by
        simp [n16, n26, n36, n46, n56, Ne.symm n67, Ne.symm n68, Ne.symm n69]
      have hfg : List.filter (fun num => num != 0) [a, b, c, d, e, 0, x, y, z] = [a, b, c, d, e, x, y, z] := by
        simp [n16, n26, n36, n46, n56, Ne.symm n67, Ne.symm n68, Ne.symm n69]
      simp only [is_solvable, List.flatten_cons, List.flatten_nil,
        List.append_nil, List.cons_append, List.nil_append]
      rw [hfn, hfg]
  · rcases hn with rfl | rfl
    · have hpar := inversions_parity_shift d e f [a, b, c] [y, z]
        (Ne.symm n45) (Ne.symm n46)
      simp only [List.cons_append, List.nil_append] at hpar
      have hfn : List.filter (fun num => num != 0) [a, b, c, 0, e, f, d, y, z] = [a, b, c, e, f, d, y, z] := by
        simp [n17, n27, n37, n47, n57, n67, Ne.symm n78, Ne.symm n79]
      have hfg : List.filter (fun num => num != 0) [a, b, c, d, e, f, 0, y, z] = [a, b, c, d, e, f, y, z] := by
        simp [n17, n27, n37, n47, n57, n67, Ne.symm n78, Ne.symm n79]
      simp only [is_solvable, List.flatten_cons, List.flatten_nil,
        List.append_nil, List.cons_append, List.nil_append]
      rw [hfn, hfg, hpar]
    · have hfn : List.filter (fun num => num != 0) [a, b, c, d, e, f, y, 0, z] = [a, b, c, d, e, f, y, z] := by
        simp [n17, n27, n37, n47, n57, n67, Ne.symm n78, Ne.symm n79]
      have hfg : List.filter (fun num => num != 0) [a, b, c, d, e, f, 0, y, z] = [a, b, c, d, e, f, y, z] := by
        simp [n17, n27, n37, n47, n57, n67, Ne.symm n78, Ne.symm n79]
      simp only [is_solvable, List.flatten_cons, List.flatten_nil,
        List.append_nil, List.cons_append, List.nil_append]
      rw [hfn, hfg]
  · rcases hn with rfl | rfl | rfl
    · have hpar := inversions_parity_shift e f x [a, b, c, d] [z]
        (Ne.symm n56) (Ne.symm n57)
      simp only [List.cons_append, List.nil_append] at hpar
      have hfn : List.filter (fun num => num != 0) [a, b, c, d, 0, f, x, e, z] = [a, b, c, d, f, x, e, z] := by
        simp [n18, n28, n38, n48, n58, n68, n78, Ne.symm n89]
      have hfg : List.filter (fun num => num != 0) [a, b, c, d, e, f, x, 0, z] = [a, b, c, d, e, f, x, z] := by
        simp [n18, n28, n38, n48, n58, n68, n78, Ne.symm n89]
      simp only [is_solvable, List.flatten_cons, List.flatten_nil,
        List.append_nil, List.cons_append, List.nil_append]
      rw [hfn, hfg, hpar]
    · have hfn : List.filter (fun num => num != 0) [a, b, c, d, e, f, 0, x, z] = [a, b, c, d, e, f, x, z] := by
        simp [n18, n28, n38, n48, n58, n68, n78, Ne.symm n89]
      have hfg : List.filter (fun num => num != 0) [a, b, c, d, e, f, x, 0, z] = [a, b, c, d, e, f, x, z] := by
        simp [n18, n28, n38, n48, n58, n68, n78, Ne.symm n89]
      simp only [is_solvable, List.flatten_cons, List.flatten_nil,
        List.append_nil, List.cons_append, List.nil_append]
      rw [hfn, hfg]
    · have hfn : List.filter (fun num => num != 0) [a, b, c, d, e, f, x, z, 0] = [a, b, c, d, e, f, x, z] := by
        simp [n18, n28, n38, n48, n58, n68, n78, Ne.symm n89]
      have hfg : List.filter (fun num => num != 0) [a, b, c, d, e, f, x, 0, z] = [a, b, c, d, e, f, x, z] := by
        simp [n18, n28, n38, n48, n58, n68, n78, Ne.symm n89]
      simp only [is_solvable, List.flatten_cons, List.flatten_nil,
        List.append_nil, List.cons_append, List.nil_append]
      rw [hfn, hfg]
  · rcases hn with rfl | rfl
    · have hpar := inversions_parity_shift f x y [a, b, c, d, e] []
        (Ne.symm n67) (Ne.symm n68)
      simp only [List.cons_append, List.nil_append] at hpar
      have hfn : List.filter (fun num => num != 0) [a, b, c, d, e, 0, x, y, f] = [a, b, c, d, e, x, y, f] := by
        simp [n19, n29, n39, n49, n59, n69, n79, n89]
      have hfg : List.filter (fun num => num != 0) [a, b, c, d, e, f, x, y, 0] = [a, b, c, d, e, f, x, y] := by
        simp [n19, n29, n39, n49, n59, n69, n79, n89]
      simp only [is_solvable, List.flatten_cons, List.flatten_nil,
        List.append_nil, List.cons_append, List.nil_append]
      rw [hfn, hfg, hpar]
    · have hfn : List.filter (fun num => num != 0) [a, b, c, d, e, f, x, 0, y] = [a, b, c, d, e, f, x, y] := by
        simp [n19, n29, n39, n49, n59, n69, n79, n89]
      have hfg : List.filter (fun num => num != 0) [a, b, c, d, e, f, x, y, 0] = [a, b, c, d, e, f, x, y] := by
        simp [n19, n29, n39, n49, n59, n69, n79, n89]
      simp only [is_solvable, List.flatten_cons, List.flatten_nil,
        List.append_nil, List.cons_append, List.nil_append]
      rw [hfn, hfg]

/-- C4: inversion parity (and hence `is_solvable`) is invariant under one
blank slide: for every valid grid and every one of its neighbors the two
solvability checks agree. -/
theorem C4_parity_invariant (g n : Grid) (hv : validGrid g)
    (hn : n ∈ get_neighbors g) : is_solvable n = is_solvable g :=
  is_solvable_neighbor g n hv hn

/-- Witness for C4: one slide away from the goal keeps solvability. -/
theorem C4_parity_invariant_witness :
    validGrid goal_state ∧
    [[1, 2, 3], [4, 5, 6], [7, 0, 8]] ∈ get_neighbors goal_state ∧
    is_solvable [[1, 2, 3], [4, 5, 6], [7, 0, 8]] = is_solvable goal_state :=
  ⟨by decide, by decide,
    C4_parity_invariant goal_state [[1, 2, 3], [4, 5, 6], [7, 0, 8]]
      (by decide) (by decide)⟩

theorem get_neighbors_length_le (g : Grid) : (get_neighbors g).length ≤ 4 := by
  unfold get_neighbors
  cases hfz : find_zero g with
  | none => simp
  | some zp =>
    calc (directions.filterMap _).length ≤ directions.length :=
          List.length_filterMap_le _ _
    _ = 4 := rfl

theorem dfsLoop_all_deep (goal : Grid) (visited : List Grid) :
    ∀ (stack : List (Grid × GPath × Nat)) (fuel : Nat),
      (∀ e ∈ stack, 1 ≤ e.2.2) → stack.length < fuel →
      dfsLoop goal 0 fuel stack visited = some none := by
  intro stack
  induction stack with
  | nil =>
    intro fuel _ hf
    match fuel, hf with
    | fuel + 1, _ => rfl
  | cons e rest ih =>
    intro fuel hdeep hf
    match fuel, hf with
    | fuel + 1, hf =>
      obtain ⟨current, path, depth⟩ := e
      have h1 : (0 : Nat) < depth := hdeep (current, path, depth) (List.mem_cons_self _ _)
      show dfsLoop goal 0 (fuel + 1) ((current, path, depth) :: rest) visited = some none
      rw [dfsLoop, if_pos h1]
      exact ih fuel (fun e he => hdeep e (List.mem_cons_of_mem _ he)) (by
        simpa using Nat.lt_of_succ_lt_succ hf)

/-- C7: depth-limited DFS with `depth_limit = 0` on a valid start different
from the goal returns the no-path result: the root is expanded but every
pushed neighbor sits at depth 1 and is discarded by the depth test. -/
theorem C7_dfs_depth_zero (start g0 : Grid) (hv : validGrid start)
    (hne : start ≠ g0) : dfs start g0 0 = some none := by
  unfold dfs
  have hb : FUEL2 = 1499999 + 1 := by norm_num [FUEL2]
  rw [hb, dfsLoop, if_neg (by omega : ¬(0:Nat) < 0),
    if_neg (show start ∉ ([] : List Grid) by simp), if_neg hne]
  apply dfsLoop_all_deep
  · intro e he
    simp only [List.append_nil, List.mem_reverse, List.mem_map] at he
    obtain ⟨n, -, rfl⟩ := he
    exact Nat.le_refl 1
  · have h4 := get_neighbors_length_le start
    have h5 : (((get_neighbors start).reverse.filter
        (fun n => n ∉ [start])).map
          (fun n => (n, ([] : GPath) ++ [start], 0 + 1))).length ≤ 4 := by
      calc _ = ((get_neighbors start).reverse.filter (fun n => n ∉ [start])).length :=
            List.length_map _ _
        _ ≤ (get_neighbors start).reverse.length := List.length_filter_le _ _
        _ = (get_neighbors start).length := List.length_reverse _
        _ ≤ 4 := h4
    simp only [List.append_nil, List.length_reverse]
    omega

/-- Witness for C7 at a concrete one-slide-from-goal start. -/
theorem C7_dfs_depth_zero_witness :
    validGrid [[1, 2, 3], [4, 5, 6], [7, 0, 8]] ∧
    [[1, 2, 3], [4, 5, 6], [7, 0, 8]] ≠ goal_state ∧
    dfs [[1, 2, 3], [4, 5, 6], [7, 0, 8]] goal_state 0 = some none :=
  ⟨by decide, by decide,
    C7_dfs_depth_zero [[1, 2, 3], [4, 5, 6], [7, 0, 8]] goal_state
      (by decide) (by decide)⟩

theorem neighbor_ne (g n : Grid) (hv : validGrid g)
    (hn : n ∈ get_neighbors g) : n ≠ g := by
  have hnd := valid_nodup g hv
  rcases valid_grid_cases g hv with
      ⟨b, c, d, e, f, x, y, z, rfl, -, hns⟩ |
      ⟨a, c, d, e, f, x, y, z, rfl, -, hns⟩ |
      ⟨a, b, d, e, f, x, y, z, rfl, -, hns⟩ |
      ⟨a, b, c, e, f, x, y, z, rfl, -, hns⟩ |
      ⟨a, b, c, d, f, x, y, z, rfl, -, hns⟩ |
      ⟨a, b, c, d, e, x, y, z, rfl, -, hns⟩ |
      ⟨a, b, c, d, e, f, y, z, rfl, -, hns⟩ |
      ⟨a, b, c, d, e, f, x, z, rfl, -, hns⟩ |
      ⟨a, b, c, d, e, f, x, y, rfl, -, hns⟩ <;>
    rw [hns] at hn <;>
    simp only [List.flatten_cons, List.flatten_nil, List.append_nil,
      List.cons_append, List.nil_append] at hnd <;>
    simp only [List.nodup_cons, List.mem_cons, List.not_mem_nil, or_false,
      not_or, List.nodup_nil, and_true, not_false_eq_true] at hnd <;>
    obtain ⟨⟨n12, n13, n14, n15, n16, n17, n18, n19⟩,
      ⟨n23, n24, n25, n26, n27, n28, n29⟩, ⟨n34, n35, n36, n37, n38, n39⟩,
      ⟨n45, n46, n47, n48, n49⟩, ⟨n56, n57, n58, n59⟩, ⟨n67, n68, n69⟩,
      ⟨n78, n79⟩, n89⟩ := hnd <;>
    simp only [List.mem_cons, List.not_mem_nil, or_false] at hn
  · rcases hn with rfl | rfl
    · intro heq
      simp only [List.cons.injEq, and_true, true_and] at heq
      exact (Ne.symm n14) heq.1
    · intro heq
      simp only [List.cons.injEq, and_true, true_and] at heq
      exact (Ne.symm n12) heq.1
  · rcases hn with rfl | rfl | rfl
    · intro heq
      simp only [List.cons.injEq, and_true, true_and] at heq
      exact (Ne.symm n25) heq.1
    · intro heq
      simp only [List.cons.injEq, and_true, true_and] at heq
      exact (Ne.symm n12) heq.1
    · intro heq
      simp only [List.cons.injEq, and_true, true_and] at heq
      exact (Ne.symm n23) heq.1
  · rcases hn with rfl | rfl
    · intro heq
      simp only [List.cons.injEq, and_true, true_and] at heq
      exact (Ne.symm n36) heq.1
    · intro heq
      simp only [List.cons.injEq, and_true, true_and] at heq
      exact (Ne.symm n23) heq.1
  · rcases hn with rfl | rfl | rfl
    · intro heq
      simp only [List.cons.injEq, and_true, true_and] at heq
      exact (Ne.symm n14) heq.1
    · intro heq
      simp only [List.cons.injEq, and_true, true_and] at heq
      exact (Ne.symm n47) heq.1
    · intro heq
      simp only [List.cons.injEq, and_true, true_and] at heq
      exact (Ne.symm n45) heq.1
  · rcases hn with rfl | rfl | rfl | rfl
    · intro heq
      simp only [List.cons.injEq, and_true, true_and] at heq
      exact (Ne.symm n25) heq.1
    · intro heq
      simp only [List.cons.injEq, and_true, true_and] at heq
      exact (Ne.symm n58) heq.1
    · intro heq
      simp only [List.cons.injEq, and_true, true_and] at heq
      exact (Ne.symm n45) heq.1
    · intro heq
      simp only [List.cons.injEq, and_true, true_and] at heq
      exact (Ne.symm n56) heq.1
  · rcases hn with rfl | rfl | rfl
    · intro heq
      simp only [List.cons.injEq, and_true, true_and] at heq
      exact (Ne.symm n36) heq.1
    · intro heq
      simp only [List.cons.injEq, and_true, true_and] at heq
      exact (Ne.symm n69) heq.1
    · intro heq
      simp only [List.cons.injEq, and_true, true_and] at heq
      exact (Ne.symm n56) heq.1
  · rcases hn with rfl | rfl
    · intro heq
      simp only [List.cons.injEq, and_true, true_and] at heq
      exact (Ne.symm n47) heq.1
    · intro heq
      simp only [List.cons.injEq, and_true, true_and] at heq
      exact (Ne.symm n78) heq.1
  · rcases hn with rfl | rfl | rfl
    · intro heq
      simp only [List.cons.injEq, and_true, true_and] at heq
      exact (Ne.symm n58) heq.1
    · intro heq
      simp only [List.cons.injEq, and_true, true_and] at heq
      exact (Ne.symm n78) heq.1
    · intro heq
      simp only [List.cons.injEq, and_true, true_and] at heq
      exact (Ne.symm n89) heq.1
  · rcases hn with rfl | rfl
    · intro heq
      simp only [List.cons.injEq, and_true, true_and] at heq
      exact (Ne.symm n69) heq.1
    · intro heq
      simp only [List.cons.injEq, and_true, true_and] at heq
      exact (Ne.symm n89) heq.1

theorem get_neighbors_ne_nil (g : Grid) (hv : validGrid g) :
    get_neighbors g ≠ [] := by
  rcases valid_grid_cases g hv with
      ⟨b, c, d, e, f, x, y, z, rfl, -, hns⟩ |
      ⟨a, c, d, e, f, x, y, z, rfl, -, hns⟩ |
      ⟨a, b, d, e, f, x, y, z, rfl, -, hns⟩ |
      ⟨a, b, c, e, f, x, y, z, rfl, -, hns⟩ |
      ⟨a, b, c, d, f, x, y, z, rfl, -, hns⟩ |
      ⟨a, b, c, d, e, x, y, z, rfl, -, hns⟩ |
      ⟨a, b, c, d, e, f, y, z, rfl, -, hns⟩ |
      ⟨a, b, c, d, e, f, x, z, rfl, -, hns⟩ |
      ⟨a, b, c, d, e, f, x, y, rfl, -, hns⟩ <;>
    rw [hns] <;> simp

theorem shuffle_puzzle_props (pick : Nat → List Grid → Grid)
    (hpick : ∀ i l, l ≠ [] → pick i l ∈ l) (s : Grid) (hv : validGrid s) :
    ∀ N, validGrid (shuffle_puzzle pick s N) ∧
      is_solvable (shuffle_puzzle pick s N) = is_solvable s := by
  intro N
  induction N with
  | zero => exact ⟨hv, rfl⟩
  | succ m ih =>
    obtain ⟨ihv, ihs⟩ := ih
    have hstep : shuffle_puzzle pick s (m + 1) =
        pick m (get_neighbors (shuffle_puzzle pick s m)) := by
      unfold shuffle_puzzle
      rw [List.range_succ, List.foldl_append]
      rfl
    have hmem := hpick m _ (get_neighbors_ne_nil _ ihv)
    rw [hstep]
    exact ⟨valid_neighbor _ _ ihv hmem,
      (is_solvable_neighbor _ _ ihv hmem).trans ihs⟩

/-- C8: for every number of moves and every resolution of the random
neighbor choices, shuffling starting from the goal grid yields a grid that
`is_solvable` accepts. -/
theorem C8_shuffle_solvable (pick : Nat → List Grid → Grid)
    (hpick : ∀ i l, l ≠ [] → pick i l ∈ l) (N : Nat) :
    is_solvable (shuffle_puzzle pick goal_state N) = true := by
  rw [(shuffle_puzzle_props pick hpick goal_state (by decide) N).2]
  decide

/-- Witness for C8 with the choice function that always takes the first
neighbor and five moves. -/
theorem C8_shuffle_solvable_witness :
    is_solvable (shuffle_puzzle (fun _ l => l.headD goal_state) goal_state 5) =
      true :=
  C8_shuffle_solvable (fun _ l => l.headD goal_state)
    (fun _ l hl => by
      cases l with
      | nil => exact absurd rfl hl
      | cons a t => exact List.mem_cons_self a t) 5

theorem getD_set_self (l : List Grid) (i : Nat) (a : Grid)
    (h : i < l.length) : (l.set i a).getD i [] = a := by
  rw [List.getD_eq_getElem?_getD, List.getElem?_set_self]
  · rfl
  · simpa using h

theorem shuffle_ref_fold (pick : Nat → List Grid → Grid) (store : List Grid)
    (ref : Nat) (h : ref < store.length) :
    ∀ N, ((List.range N).foldl
        (fun sigma i => sigma.set ref (pick i (get_neighbors (sigma.getD ref []))))
        store).getD ref [] = shuffle_puzzle pick (store.getD ref []) N ∧
      ((List.range N).foldl
        (fun sigma i => sigma.set ref (pick i (get_neighbors (sigma.getD ref []))))
        store).length = store.length := by
  intro N
  induction N with
  | zero => exact ⟨rfl, rfl⟩
  | succ m ih =>
    obtain ⟨ihv, ihl⟩ := ih
    rw [List.range_succ, List.foldl_append]
    have hstep : shuffle_puzzle pick (store.getD ref []) (m + 1) =
        pick m (get_neighbors (shuffle_puzzle pick (store.getD ref []) m)) := by
      unfold shuffle_puzzle
      rw [List.range_succ, List.foldl_append]
      rfl
    constructor
    · rw [List.foldl_cons, List.foldl_nil, getD_set_self _ _ _ (by omega), ihv,
        hstep]
    · rw [List.foldl_cons, List.foldl_nil, List.length_set, ihl]

/-- C9 counterexample: one shuffle move on a store holding the goal grid
rewrites the caller's slot (the argument does not retain its original
value), and the returned reference is the argument reference itself, not a
fresh grid. -/
theorem C9_counterexample :
    (shuffle_puzzle_ref (fun _ l => l.headD []) [goal_state] 0 1).1.getD 0 [] ≠
        goal_state ∧
      (shuffle_puzzle_ref (fun _ l => l.headD []) [goal_state] 0 1).2 = 0 := by
  decide

/-- C9 amended: `shuffle_puzzle` hands back the very reference it was given
(`return state` returns the argument object), the referenced slot is
rewritten in place by `state[:] = ...` to hold the shuffled configuration,
and the caller's argument does not in general retain its original value:
one move from a valid grid always changes it. -/
theorem C9_shuffle_in_place (pick : Nat → List Grid → Grid)
    (hpick : ∀ i l, l ≠ [] → pick i l ∈ l) (store : List Grid) (ref : Nat)
    (h : ref < store.length) (moves : Nat) :
    (shuffle_puzzle_ref pick store ref moves).2 = ref ∧
    (shuffle_puzzle_ref pick store ref moves).1.getD ref [] =
      shuffle_puzzle pick (store.getD ref []) moves ∧
    (validGrid (store.getD ref []) → moves = 1 →
      (shuffle_puzzle_ref pick store ref moves).1.getD ref [] ≠
        store.getD ref []) := by
  unfold shuffle_puzzle_ref
  refine ⟨rfl, (shuffle_ref_fold pick store ref h moves).1, ?_⟩
  intro hv hm
  subst hm
  rw [(shuffle_ref_fold pick store ref h 1).1]
  have hstep : shuffle_puzzle pick (store.getD ref []) 1 =
      pick 0 (get_neighbors (store.getD ref [])) := rfl
  rw [hstep]
  exact neighbor_ne _ _ hv (hpick 0 _ (get_neighbors_ne_nil _ hv))

/-- Witness for the amended C9. -/
theorem C9_shuffle_in_place_witness :
    (shuffle_puzzle_ref (fun _ l => l.headD goal_state) [goal_state] 0 1).2 = 0 ∧
    (shuffle_puzzle_ref (fun _ l => l.headD goal_state) [goal_state] 0 1).1.getD
        0 [] = shuffle_puzzle (fun _ l => l.headD goal_state) goal_state 1 ∧
    (validGrid goal_state → 1 = 1 →
      (shuffle_puzzle_ref (fun _ l => l.headD goal_state)
          [goal_state] 0 1).1.getD 0 [] ≠ goal_state) :=
  C9_shuffle_in_place (fun _ l => l.headD goal_state)
    (fun _ l hl => by
      cases l with
      | nil => exact absurd rfl hl
      | cons a t => exact List.mem_cons_self a t) [goal_state] 0
    (by decide) 1

theorem lookup_eq_none_keys (cf : List (Grid × Grid)) (t : Grid)
    (h : t ∉ cf.map Prod.fst) : cf.lookup t = none := by
  induction cf with
  | nil => rfl
  | cons e tl ih =>
    simp only [List.map_cons, List.mem_cons, not_or] at h
    have hne : (t == e.1) = false := by simpa using h.1
    obtain ⟨k, v⟩ := e
    simp only [List.lookup] at *
    rw [hne]
    exact ih h.2

theorem lookup_of_mem_nodup (cf : List (Grid × Grid)) (t v : Grid)
    (hnd : (cf.map Prod.fst).Nodup) (hm : (t, v) ∈ cf) :
    cf.lookup t = some v := by
  induction cf with
  | nil => exact absurd hm (List.not_mem_nil _)
  | cons e tl ih =>
    simp only [List.map_cons, List.nodup_cons] at hnd
    rcases List.mem_cons.mp hm with heq | hmem
    · subst heq
      simp [List.lookup]
    · obtain ⟨k, w⟩ := e
      have hkey : t ∈ tl.map Prod.fst := List.mem_map_of_mem Prod.fst hmem
      have hne : (t == k) = false := by
        simp only [beq_eq_false_iff_ne]
        intro hc
        subst hc
        exact hnd.1 hkey
      simp only [List.lookup]
      rw [hne]
      exact ih hnd.2 hmem

theorem reconstruct_loop_acc (cf : List (Grid × Grid)) :
    ∀ (fuel : Nat) (x : Grid) (acc : GPath),
      reconstruct_loop cf fuel x acc =
        (reconstruct_loop cf fuel x []).map (fun c => acc ++ c) := by
  intro fuel
  induction fuel with
  | zero => intro x acc; rfl
  | succ f ih =>
    intro x acc
    cases h : cf.lookup x with
    | none => simp [reconstruct_loop, h]
    | some prev =>
      simp only [reconstruct_loop, h]
      rw [ih prev (acc ++ [x]), ih prev ([] ++ [x])]
      cases reconstruct_loop cf f prev [] with
      | none => rfl
      | some c => simp

theorem reconstruct_walk (cf : List (Grid × Grid))
    (hnd : (cf.map Prod.fst).Nodup)
    (hwf : ∀ l1 e l2, cf = l1 ++ e :: l2 →
      e.2 ∉ cf.map Prod.fst ∨ e.2 ∈ l2.map Prod.fst) :
    ∀ (m : Nat) (t prev : Grid) (l1 l2 : List (Grid × Grid)),
      cf = l1 ++ (t, prev) :: l2 → l2.length ≤ m →
      ∃ c : GPath, (∀ fuel, c.length < fuel →
          reconstruct_loop cf fuel t [] = some c) ∧
        c.head? = some t ∧ c.length ≤ l2.length + 1 ∧
        List.Chain' (fun a b => cf.lookup a = some b) c ∧
        ∃ lastEl root, c.getLast? = some lastEl ∧ cf.lookup lastEl = some root ∧
          root ∉ cf.map Prod.fst := by
  intro m
  induction m with
  | zero =>
    intro t prev l1 l2 hsplit hlen
    have hl2 : l2 = [] := List.length_eq_zero.mp (Nat.le_zero.mp hlen)
    subst hl2
    have hlook : cf.lookup t = some prev :=
      lookup_of_mem_nodup cf t prev hnd (by
        rw [hsplit]; exact List.mem_append_right _ (List.mem_cons_self _ _))
    have hroot : prev ∉ cf.map Prod.fst := by
      rcases hwf l1 (t, prev) [] hsplit with h | h
      · exact h
      · simp at h
    refine ⟨[t], ?_, rfl, by simp, List.chain'_singleton t, t, prev, rfl, hlook,
      hroot⟩
    intro fuel hf
    match fuel, hf with
    | f + 1, hf =>
      simp only [reconstruct_loop, hlook]
      match f, Nat.lt_of_succ_lt_succ hf with
      | f2 + 1, _ =>
        simp only [reconstruct_loop, lookup_eq_none_keys cf prev hroot,
          List.nil_append]
  | succ m ih =>
    intro t prev l1 l2 hsplit hlen
    have hlook : cf.lookup t = some prev :=
      lookup_of_mem_nodup cf t prev hnd (by
        rw [hsplit]; exact List.mem_append_right _ (List.mem_cons_self _ _))
    rcases hwf l1 (t, prev) l2 hsplit with hroot | hkey
    · refine ⟨[t], ?_, rfl, by simp, List.chain'_singleton t, t, prev, rfl,
        hlook, hroot⟩
      intro fuel hf
      match fuel, hf with
      | f + 1, hf =>
        simp only [reconstruct_loop, hlook]
        match f, Nat.lt_of_succ_lt_succ hf with
        | f2 + 1, _ =>
          simp only [reconstruct_loop, lookup_eq_none_keys cf prev hroot,
            List.nil_append]
    · simp only [List.mem_map] at hkey
      obtain ⟨e, hmem, hfst⟩ := hkey
      obtain ⟨l1b, l2b, hsplit2⟩ := List.append_of_mem hmem
      have he : e = (prev, e.2) := by rw [← hfst]
      rw [he] at hsplit2
      have hsplit3 : cf = (l1 ++ (t, prev) :: l1b) ++ (prev, e.2) :: l2b := by
        rw [hsplit, hsplit2]
        simp
      have hlen2 : l2b.length ≤ m := by
        have : l2.length = l1b.length + 1 + l2b.length := by
          rw [hsplit2]; simp; omega
        omega
      obtain ⟨c2, hc2loop, hc2head, hc2len, hc2chain, lastEl, root, hc2last,
        hc2rootlook, hc2root⟩ :=
        ih prev e.2 (l1 ++ (t, prev) :: l1b) l2b hsplit3 hlen2
      have hc2ne : c2 ≠ [] := by
        intro hc
        rw [hc] at hc2head
        exact Option.noConfusion hc2head
      refine ⟨t :: c2, ?_, rfl, ?_, ?_, lastEl, root, ?_, hc2rootlook, hc2root⟩
      · intro fuel hf
        match fuel, hf with
        | f + 1, hf =>
          simp only [reconstruct_loop, hlook]
          rw [reconstruct_loop_acc cf f prev ([] ++ [t]),
            hc2loop f (by simpa using Nat.lt_of_succ_lt_succ hf)]
          simp
      · have : l2.length = l1b.length + 1 + l2b.length := by
          rw [hsplit2]; simp; omega
        simp only [List.length_cons]
        omega
      · rw [List.chain'_cons']
        refine ⟨?_, hc2chain⟩
        intro y hy
        rw [hc2head] at hy
        cases hy
        exact hlook
      · rw [List.getLast?_cons, hc2last]
        simp [hc2ne]

/-- C6: on a search-shaped predecessor map (distinct keys, each stored
predecessor a root or an earlier entry), `reconstruct_path` returns the empty
path exactly when the terminal is absent from the map; when the terminal has
an entry it walks it back to a grid with no entry, returning a nonempty
sequence in start-to-goal order (each element is the stored predecessor of
the next, the last element is the terminal, and the first element's stored
predecessor is the entry-less start). -/
theorem C6_reconstruct (cf : List (Grid × Grid)) (t : Grid)
    (hwf : PredMapWF cf) :
    (reconstruct_path cf t (cf.length + 1) = some [] ↔ t ∉ cf.map Prod.fst) ∧
    (t ∈ cf.map Prod.fst →
      ∃ p, reconstruct_path cf t (cf.length + 1) = some p ∧ p ≠ [] ∧
        p.getLast? = some t ∧
        List.Chain' (fun a b => cf.lookup b = some a) p ∧
        ∃ h0 s0, p.head? = some h0 ∧ cf.lookup h0 = some s0 ∧
          s0 ∉ cf.map Prod.fst) := by
  obtain ⟨hnd, hwf2⟩ := hwf
  have hmain : t ∈ cf.map Prod.fst →
      ∃ p, reconstruct_path cf t (cf.length + 1) = some p ∧ p ≠ [] ∧
        p.getLast? = some t ∧
        List.Chain' (fun a b => cf.lookup b = some a) p ∧
        ∃ h0 s0, p.head? = some h0 ∧ cf.lookup h0 = some s0 ∧
          s0 ∉ cf.map Prod.fst := by
    intro hkey
    simp only [List.mem_map] at hkey
    obtain ⟨e, hmem, hfst⟩ := hkey
    obtain ⟨l1, l2, hsplit⟩ := List.append_of_mem hmem
    have he : e = (t, e.2) := by rw [← hfst]
    rw [he] at hsplit
    obtain ⟨c, hloop, hhead, hclen, hchain, lastEl, root, hlast, hrootlook,
      hroot⟩ := reconstruct_walk cf hnd hwf2 l2.length t e.2 l1 l2 hsplit
        (Nat.le_refl _)
    have hfuel : c.length < cf.length + 1 := by
      have : cf.length = l1.length + 1 + l2.length := by
        rw [hsplit]; simp; omega
      omega
    have hcne : c ≠ [] := by
      intro hc
      rw [hc] at hhead
      exact Option.noConfusion hhead
    refine ⟨c.reverse, ?_, by simpa using hcne, ?_, ?_, ?_⟩
    · unfold reconstruct_path
      rw [hloop _ hfuel]
      rfl
    · rw [List.getLast?_reverse]
      exact hhead
    · rw [List.chain'_reverse]
      exact hchain
    · refine ⟨lastEl, root, ?_, hrootlook, hroot⟩
      rw [List.head?_reverse]
      exact hlast
  refine ⟨⟨?_, ?_⟩, hmain⟩
  · intro hres
    by_contra hkey
    obtain ⟨p, hp, hpne, -⟩ := hmain hkey
    rw [hres] at hp
    exact hpne (Option.some.inj hp).symm
  · intro hkey
    unfold reconstruct_path
    have hlook : cf.lookup t = none := lookup_eq_none_keys cf t hkey
    have h1 : cf.length + 1 = cf.length + 1 := rfl
    show (reconstruct_loop cf (cf.length + 1) t []).map List.reverse = some []
    simp only [reconstruct_loop, hlook]
    rfl

/-- Witness for C6 on a one-entry predecessor map. -/
theorem C6_reconstruct_witness :
    PredMapWF cf6 ∧
    ((reconstruct_path cf6 goal_state (cf6.length + 1) = some [] ↔
        goal_state ∉ cf6.map Prod.fst) ∧
      (goal_state ∈ cf6.map Prod.fst →
        ∃ p, reconstruct_path cf6 goal_state (cf6.length + 1) = some p ∧
          p ≠ [] ∧ p.getLast? = some goal_state ∧
          List.Chain' (fun a b => cf6.lookup b = some a) p ∧
          ∃ h0 s0, p.head? = some h0 ∧ cf6.lookup h0 = some s0 ∧
            s0 ∉ cf6.map Prod.fst)) := by
  have hwf : PredMapWF cf6 := by
    constructor
    · decide
    · intro l1 e l2 h
      rw [show cf6 = [(goal_state, [[1, 2, 3], [4, 5, 6], [7, 0, 8]])] from rfl]
        at h
      cases l1 with
      | nil =>
        simp only [List.nil_append, List.cons.injEq] at h
        obtain ⟨rfl, rfl⟩ := h
        left
        decide
      | cons xh xt =>
        simp only [List.cons_append, List.cons.injEq] at h
        exact absurd h.2.symm (by simp)
  exact ⟨hwf, C6_reconstruct cf6 goal_state hwf⟩

theorem lookup_some_mem (cf : List (Grid × Grid)) (t v : Grid)
    (h : cf.lookup t = some v) : (t, v) ∈ cf := by
  induction cf with
  | nil => exact Option.noConfusion h
  | cons e tl ih =>
    obtain ⟨k, w⟩ := e
    by_cases hk : t = k
    · subst hk
      simp only [List.lookup, beq_self_eq_true] at h
      rw [Option.some.injEq] at h
      subst h
      exact List.mem_cons_self _ _
    · have hne : (t == k) = false := by simpa using hk
      simp only [List.lookup, hne] at h
      exact List.mem_cons_of_mem _ (ih h)

theorem dfsLoop_sound (start goal : Grid) (dl : Nat) :
    ∀ (fuel : Nat) (stack : List (Grid × GPath × Nat)) (visited : List Grid)
      (p : GPath),
      (∀ e ∈ stack, (e.2.1 ++ [e.1]).head? = some start ∧
        List.Chain' adjacent (e.2.1 ++ [e.1])) →
      dfsLoop goal dl fuel stack visited = some (some p) →
      p.head? = some start ∧ p.getLast? = some goal ∧
        List.Chain' adjacent p := by
  intro fuel
  induction fuel with
  | zero =>
    intro stack visited p hinv h
    exact Option.noConfusion h
  | succ f ih =>
    intro stack visited p hinv h
    cases stack with
    | nil =>
      rw [show dfsLoop goal dl (f + 1) [] visited = some none from rfl] at h
      exact Option.noConfusion (Option.some.inj h)
    | cons e rest =>
      obtain ⟨current, pth, depth⟩ := e
      simp only [dfsLoop] at h
      by_cases h1 : dl < depth
      · rw [if_pos h1] at h
        exact ih rest visited p
          (fun e2 he2 => hinv e2 (List.mem_cons_of_mem _ he2)) h
      · rw [if_neg h1] at h
        by_cases h2 : current ∈ visited
        · rw [if_pos h2] at h
          exact ih rest visited p
            (fun e2 he2 => hinv e2 (List.mem_cons_of_mem _ he2)) h
        · rw [if_neg h2] at h
          by_cases h3 : current = goal
          · rw [if_pos h3] at h
            have hp : pth ++ [current] = p := Option.some.inj (Option.some.inj h)
            obtain ⟨hh, hc⟩ := hinv (current, pth, depth) (List.mem_cons_self _ _)
            subst hp
            refine ⟨hh, ?_, hc⟩
            rw [List.getLast?_concat, h3]
          · rw [if_neg h3] at h
            refine ih _ _ p ?_ h
            intro e2 he2
            rcases List.mem_append.mp he2 with hpush | hrest
            · simp only [List.mem_reverse, List.mem_map, List.mem_filter]
                at hpush
              obtain ⟨n, ⟨hn1, -⟩, rfl⟩ := hpush
              have hadj : adjacent current n := hn1
              obtain ⟨hh, hc⟩ := hinv (current, pth, depth)
                (List.mem_cons_self _ _)
              constructor
              · simp only []
                rw [List.append_assoc]
                cases hpe : (pth ++ [current]).head? with
                | none =>
                  rw [List.head?_eq_none_iff] at hpe
                  exact absurd hpe (by simp)
                | some z =>
                  rw [hpe] at hh
                  have : (pth ++ ([current] ++ [n])).head? = some z := by
                    rcases pth with - | ⟨a, t⟩
                    · simp only [List.nil_append] at hpe ⊢
                      simpa using hpe
                    · simpa using hpe
                  rw [this, hh]
              · simp only []
                rw [List.chain'_append]
                refine ⟨hc, List.chain'_singleton n, ?_⟩
                intro x hx y hy
                rw [List.getLast?_concat] at hx
                cases hx
                cases hy
                exact hadj
            · exact hinv e2 (List.mem_cons_of_mem _ hrest)

theorem getLast?_cons_ne {α : Type} (a : α) (l : List α) (h : l ≠ []) :
    (a :: l).getLast? = l.getLast? := by
  cases l with
  | nil => exact absurd rfl h
  | cons b t => exact List.getLast?_cons_cons

theorem bfs_visit_fold (start current : Grid) :
    ∀ (ns : List Grid) (q vis : List Grid) (cf : List (Grid × Grid)),
      (∀ n ∈ ns, adjacent current n) →
      BfsInvS start q vis cf → current ∈ vis →
      (current = start ∨ current ∈ cf.map Prod.fst) →
      BfsInvS start (ns.foldl (bfs_visit current) (q, vis, cf)).1
        (ns.foldl (bfs_visit current) (q, vis, cf)).2.1
        (ns.foldl (bfs_visit current) (q, vis, cf)).2.2 := by
  intro ns
  induction ns with
  | nil => intro q vis cf _ hinv _ _; exact hinv
  | cons n ns ih =>
    intro q vis cf hadj hinv hcur hck
    rw [List.foldl_cons]
    by_cases hn : n ∈ vis
    · rw [show bfs_visit current (q, vis, cf) n = (q, vis, cf) by
        simp [bfs_visit, hn]]
      exact ih q vis cf (fun m hm => hadj m (List.mem_cons_of_mem _ hm)) hinv
        hcur hck
    · rw [show bfs_visit current (q, vis, cf) n =
          (q ++ [n], n :: vis, (n, current) :: cf) by simp [bfs_visit, hn]]
      have hnkey : n ∉ cf.map Prod.fst := by
        intro hk
        simp only [List.mem_map] at hk
        obtain ⟨e, he, hefst⟩ := hk
        exact hn (hefst ▸ (hinv.keysVis e he))
      refine ih _ _ _ (fun m hm => hadj m (List.mem_cons_of_mem _ hm)) ?_
        (List.mem_cons_of_mem _ hcur)
        (by
          rcases hck with h | h
          · exact Or.inl h
          · refine Or.inr ?_
            rw [List.map_cons]
            exact List.mem_cons_of_mem _ h)
      constructor
      · exact List.mem_cons_of_mem _ hinv.startVis
      · intro x hx
        rcases List.mem_append.mp hx with h | h
        · exact List.mem_cons_of_mem _ (hinv.queueVis x h)
        · rw [List.mem_singleton.mp h]
          exact List.mem_cons_self _ _
      · exact List.nodup_cons.mpr ⟨hn, hinv.visNodup⟩
      · rw [List.map_cons]
        exact List.nodup_cons.mpr ⟨hnkey, hinv.keysNodup⟩
      · intro e he
        rcases List.mem_cons.mp he with rfl | h
        · intro hc
          apply hn
          have hns : n = start := hc
          rw [hns]
          exact hinv.startVis
        · exact hinv.keysNotStart e h
      · intro e he
        rcases List.mem_cons.mp he with rfl | h
        · exact List.mem_cons_self _ _
        · exact List.mem_cons_of_mem _ (hinv.keysVis e h)
      · intro e he
        rcases List.mem_cons.mp he with rfl | h
        · exact ⟨hadj n (List.mem_cons_self _ _), List.mem_cons_of_mem _ hcur⟩
        · obtain ⟨h1, h2⟩ := hinv.edges e h
          exact ⟨h1, List.mem_cons_of_mem _ h2⟩
      · intro l1 e l2 hsplit
        cases l1 with
        | nil =>
          simp only [List.nil_append, List.cons.injEq] at hsplit
          obtain ⟨rfl, rfl⟩ := hsplit
          exact hck
        | cons y l1t =>
          simp only [List.cons_append, List.cons.injEq] at hsplit
          exact hinv.wf l1t e l2 hsplit.2
      · intro v hv hvs
        rcases List.mem_cons.mp hv with rfl | h
        · rw [List.map_cons]
          exact List.mem_cons_self _ _
        · rw [List.map_cons]
          exact List.mem_cons_of_mem _ (hinv.visCover v h hvs)

theorem bfsLoop_sound (start goal : Grid) :
    ∀ (fuel : Nat) (q vis : List Grid) (cf : List (Grid × Grid)) (p : GPath),
      BfsInvS start q vis cf →
      bfsLoop goal fuel q vis cf = some (some p) →
      List.Chain' adjacent (start :: p) ∧
        (start :: p).getLast? = some goal := by
  intro fuel
  induction fuel with
  | zero => intro q vis cf p _ h; exact Option.noConfusion h
  | succ f ih =>
    intro q vis cf p hinv h
    cases q with
    | nil =>
      rw [show bfsLoop goal (f + 1) [] vis cf = some none from rfl] at h
      exact Option.noConfusion (Option.some.inj h)
    | cons current rest =>
      simp only [bfsLoop] at h
      by_cases hg : current = goal
      · rw [if_pos hg] at h
        cases hrec : reconstruct_path cf current (cf.length + 1) with
        | none => rw [hrec] at h; exact Option.noConfusion h
        | some p2 =>
          rw [hrec] at h
          have hp : p2 = p := Option.some.inj (Option.some.inj h)
          subst hp
          have hcv : current ∈ vis := hinv.queueVis current (List.mem_cons_self _ _)
          by_cases hcs : current = start
          · -- start = goal: the walk finds no entry and returns []
            have hnone : cf.lookup current = none := by
              apply lookup_eq_none_keys
              intro hk
              simp only [List.mem_map] at hk
              obtain ⟨e, he, hefst⟩ := hk
              exact hinv.keysNotStart e he (hefst.trans hcs)
            have : reconstruct_path cf current (cf.length + 1) = some [] := by
              unfold reconstruct_path
              show (reconstruct_loop cf (cf.length + 1) current []).map
                List.reverse = some []
              simp only [reconstruct_loop, hnone]
              rfl
            rw [this] at hrec
            have hp2 : p2 = [] := (Option.some.inj hrec).symm
            subst hp2
            refine ⟨List.chain'_singleton start, ?_⟩
            show some start = some goal
            rw [hcs.symm.trans hg]
          · -- current has an entry: walk the predecessor chain
            have hkey : current ∈ cf.map Prod.fst := hinv.visCover current hcv hcs
            simp only [List.mem_map] at hkey
            obtain ⟨e, hmem, hfst⟩ := hkey
            obtain ⟨l1, l2, hsplit⟩ := List.append_of_mem hmem
            have he2 : e = (current, e.2) := by rw [← hfst]
            rw [he2] at hsplit
            have hwf2 : ∀ l1 e l2, cf = l1 ++ e :: l2 →
                e.2 ∉ cf.map Prod.fst ∨ e.2 ∈ l2.map Prod.fst := by
              intro l1 e l2 hs
              rcases hinv.wf l1 e l2 hs with h1 | h1
              · left
                intro hk
                simp only [List.mem_map] at hk
                obtain ⟨e2, he2m, he2f⟩ := hk
                exact hinv.keysNotStart e2 he2m (he2f.trans h1)
              · exact Or.inr h1
            obtain ⟨c, hloop, hhead, hclen, hchain, lastEl, root, hlast,
              hrootlook, hroot⟩ := reconstruct_walk cf hinv.keysNodup hwf2
                l2.length current e.2 l1 l2 hsplit (Nat.le_refl _)
            have hfuel : c.length < cf.length + 1 := by
              have : cf.length = l1.length + 1 + l2.length := by
                rw [hsplit]; simp; omega
              omega
            have hres2 : reconstruct_path cf current (cf.length + 1) =
                some c.reverse := by
              unfold reconstruct_path
              rw [hloop _ hfuel]
              rfl
            rw [hres2] at hrec
            have hp2 : p2 = c.reverse := (Option.some.inj hrec).symm
            subst hp2
            have hcne : c ≠ [] := by
              intro hc
              rw [hc] at hhead
              exact Option.noConfusion hhead
            -- the root of the walk is the start
            have hrootstart : root = start := by
              have hrm := lookup_some_mem cf lastEl root hrootlook
              obtain ⟨l1r, l2r, hsplitr⟩ := List.append_of_mem hrm
              rcases hinv.wf l1r (lastEl, root) l2r hsplitr with h1 | h1
              · exact h1
              · exfalso
                apply hroot
                rw [hsplitr]
                simp only [List.map_append, List.map_cons]
                exact List.mem_append_right _ (List.mem_cons_of_mem _ h1)
            constructor
            · rw [List.chain'_cons']
              constructor
              · intro y hy
                rw [List.head?_reverse, hlast] at hy
                cases hy
                have := (hinv.edges (lastEl, root)
                  (lookup_some_mem cf lastEl root hrootlook)).1
                rw [hrootstart] at this
                exact this
              · rw [List.chain'_reverse]
                refine hchain.imp ?_
                intro a b hab
                exact (hinv.edges (a, b) (lookup_some_mem cf a b hab)).1
            · rw [getLast?_cons_ne start c.reverse (by simpa using hcne),
                List.getLast?_reverse, hhead]
              exact congrArg some hg
      · rw [if_neg hg] at h
        refine ih _ _ _ p ?_ h
        have hcv : current ∈ vis := hinv.queueVis current (List.mem_cons_self _ _)
        exact bfs_visit_fold start current (get_neighbors current) rest vis cf
          (fun n hn => hn)
          { hinv with queueVis := fun x hx =>
              hinv.queueVis x (List.mem_cons_of_mem _ hx) }
          hcv
          (by
            by_cases hcs : current = start
            · exact Or.inl hcs
            · exact Or.inr (hinv.visCover current hcv hcs))

theorem lookup_cons_self {β : Type} (k : Grid) (v : β) (l : List (Grid × β)) :
    ((k, v) :: l).lookup k = some v := by
  simp [List.lookup]

theorem lookup_cons_ne {β : Type} (k x : Grid) (v : β) (l : List (Grid × β))
    (h : x ≠ k) : ((k, v) :: l).lookup x = l.lookup x := by
  have hb : (x == k) = false := by simpa using h
  simp [List.lookup, hb]

theorem foldlMin_mem (ys : List (Nat × Grid)) :
    ∀ acc : Nat × Grid,
      ys.foldl (fun m y => if entryLt y m then y else m) acc ∈ acc :: ys := by
  induction ys with
  | nil => intro acc; exact List.mem_cons_self _ _
  | cons y ys ih =>
    intro acc
    rw [List.foldl_cons]
    by_cases hy : entryLt y acc
    · rw [if_pos hy]
      rcases List.mem_cons.mp (ih y) with h1 | h1
      · rw [h1]; exact List.mem_cons_of_mem _ (List.mem_cons_self _ _)
      · exact List.mem_cons_of_mem _ (List.mem_cons_of_mem _ h1)
    · rw [if_neg hy]
      rcases List.mem_cons.mp (ih acc) with h1 | h1
      · rw [h1]; exact List.mem_cons_self _ _
      · exact List.mem_cons_of_mem _ (List.mem_cons_of_mem _ h1)

theorem heapMinFrom_mem (xs : List (Nat × Grid)) (x : Nat × Grid) :
    heapMinFrom x xs ∈ x :: xs :=
  foldlMin_mem xs x

theorem ucs_walk (start : Grid) (cf : List (Grid × Grid))
    (cost : List (Grid × Nat))
    (hsn : cf.lookup start = none)
    (htree : ∀ x c, cost.lookup x = some c → x ≠ start →
      ∃ w, cf.lookup x = some w ∧ adjacent w x ∧
        ∃ cw, cost.lookup w = some cw ∧ cw < c) :
    ∀ (c : Nat) (x : Grid), cost.lookup x = some c →
      ∃ cl : GPath, (∀ fuel, cl.length < fuel → reconstruct_loop cf fuel x [] = some cl) ∧
        List.Chain' adjacent (start :: cl.reverse) ∧
        (start :: cl.reverse).getLast? = some x ∧
        cl.length ≤ c ∧ cl.Nodup ∧
        (∀ y ∈ cl, y ∈ cf.map Prod.fst ∧
          ∃ cy, cost.lookup y = some cy ∧ cy ≤ c) := by
  intro c
  induction c using Nat.strong_induction_on with
  | _ c ih =>
    intro x hx
    by_cases hxs : x = start
    · refine ⟨[], ?_, List.chain'_singleton _, by rw [hxs]; rfl, by simp,
        List.nodup_nil, by simp⟩
      intro fuel hf
      match fuel, hf with
      | f + 1, _ =>
        rw [hxs]
        simp only [reconstruct_loop, hsn]
    · obtain ⟨w, hcf, hadj, cw, hcw, hlt⟩ := htree x c hx hxs
      obtain ⟨clw, hloop, hchain, hlast, hlen, hnd, hmem⟩ := ih cw hlt w hcw
      refine ⟨x :: clw, ?_, ?_, ?_, ?_, ?_, ?_⟩
      · intro fuel hf
        rw [List.length_cons] at hf
        match fuel, hf with
        | f + 1, hf =>
          simp only [reconstruct_loop, hcf]
          rw [reconstruct_loop_acc cf f w ([] ++ [x]),
            hloop f (by omega)]
          simp
      · rw [List.reverse_cons,
          show start :: (clw.reverse ++ [x]) = (start :: clw.reverse) ++ [x]
            from rfl, List.chain'_append]
        refine ⟨hchain, List.chain'_singleton x, ?_⟩
        intro a ha b hb
        rw [hlast] at ha
        cases ha
        cases hb
        exact hadj
      · rw [List.reverse_cons,
          show start :: (clw.reverse ++ [x]) = (start :: clw.reverse) ++ [x]
            from rfl]
        exact List.getLast?_concat _
      · simp only [List.length_cons]
        omega
      · refine List.nodup_cons.mpr ⟨?_, hnd⟩
        intro hxm
        obtain ⟨-, cy, hcy, hcyle⟩ := hmem x hxm
        rw [hx] at hcy
        have hccy : c = cy := Option.some.inj hcy
        omega
      · intro y hy
        rcases List.mem_cons.mp hy with rfl | hy2
        · refine ⟨List.mem_map_of_mem Prod.fst (lookup_some_mem cf y w hcf),
            c, hx, Nat.le_refl c⟩
        · obtain ⟨hk, cy, hcy, hcyle⟩ := hmem y hy2
          exact ⟨hk, cy, hcy, by omega⟩

theorem ucs_push_inv (start cur n : Grid) (ccur : Nat)
    (heap : List (Nat × Grid)) (cf : List (Grid × Grid))
    (cost : List (Grid × Nat))
    (hadj : adjacent cur n)
    (hinv : UcsInvS start heap cf cost)
    (hcc : ∃ cc, cost.lookup cur = some cc ∧ cc ≤ ccur)
    (hbetter : ∀ oldc, cost.lookup n = some oldc → ccur + 1 < oldc) :
    UcsInvS start (heap ++ [(ccur + 1, n)]) ((n, cur) :: cf)
      ((n, ccur + 1) :: cost) ∧
    ((n, ccur + 1) :: cost).lookup cur = cost.lookup cur := by
  obtain ⟨cc, hccl, hccle⟩ := hcc
  have hns : n ≠ start := by
    intro h
    have := hbetter 0 (by rw [h]; exact hinv.sCost)
    omega
  have hnc : n ≠ cur := by
    intro h
    have := hbetter cc (by rw [h]; exact hccl)
    omega
  have hmono : ∀ y cy, cost.lookup y = some cy →
      ∃ cy2, ((n, ccur + 1) :: cost).lookup y = some cy2 ∧ cy2 ≤ cy := by
    intro y cy hy
    by_cases hyn : y = n
    · subst hyn
      have := hbetter cy hy
      exact ⟨ccur + 1, lookup_cons_self y (ccur + 1) cost, by omega⟩
    · exact ⟨cy, by rw [lookup_cons_ne n y (ccur + 1) cost hyn]; exact hy,
        Nat.le_refl cy⟩
  refine ⟨⟨?_, ?_, ?_, ?_⟩, ?_⟩
  · rw [lookup_cons_ne n start (ccur + 1) cost (Ne.symm hns)]
    exact hinv.sCost
  · rw [lookup_cons_ne n start cur cf (Ne.symm hns)]
    exact hinv.sNoCf
  · intro e he
    rcases List.mem_append.mp he with he1 | he1
    · obtain ⟨ce, hce, hle⟩ := hinv.heapCost e he1
      obtain ⟨ce2, hce2, hle2⟩ := hmono e.2 ce hce
      exact ⟨ce2, hce2, by omega⟩
    · have : e = (ccur + 1, n) := by simpa using he1
      subst this
      exact ⟨ccur + 1, lookup_cons_self n (ccur + 1) cost, Nat.le_refl _⟩
  · intro x c hxc hxs
    by_cases hxn : x = n
    · subst hxn
      rw [lookup_cons_self x (ccur + 1) cost] at hxc
      have hc : ccur + 1 = c := Option.some.inj hxc
      refine ⟨cur, lookup_cons_self x cur cf, hadj, cc, ?_, by omega⟩
      rw [lookup_cons_ne x cur (ccur + 1) cost (Ne.symm hnc)]
      exact hccl
    · rw [lookup_cons_ne n x (ccur + 1) cost hxn] at hxc
      obtain ⟨w, hw, hadjw, cw, hcw, hlt⟩ := hinv.tree x c hxc hxs
      obtain ⟨cw2, hcw2, hle2⟩ := hmono w cw hcw
      exact ⟨w, by rw [lookup_cons_ne n x cur cf hxn]; exact hw, hadjw,
        cw2, hcw2, by omega⟩
  · exact lookup_cons_ne n cur (ccur + 1) cost (Ne.symm hnc)

theorem ucs_relax_fold (start cur : Grid) (ccur : Nat) :
    ∀ (ns : List Grid) (heap : List (Nat × Grid)) (cf : List (Grid × Grid))
      (cost : List (Grid × Nat)),
      (∀ n ∈ ns, adjacent cur n) →
      UcsInvS start heap cf cost →
      (∃ cc, cost.lookup cur = some cc ∧ cc ≤ ccur) →
      UcsInvS start (ns.foldl (ucs_relax cur ccur) (heap, cf, cost)).1
        (ns.foldl (ucs_relax cur ccur) (heap, cf, cost)).2.1
        (ns.foldl (ucs_relax cur ccur) (heap, cf, cost)).2.2 := by
  intro ns
  induction ns with
  | nil => intro heap cf cost _ hinv _; exact hinv
  | cons n ns ih =>
    intro heap cf cost hadj hinv hcc
    rw [List.foldl_cons]
    have htail : ∀ m ∈ ns, adjacent cur m :=
      fun m hm => hadj m (List.mem_cons_of_mem _ hm)
    obtain ⟨cc, hccl, hccle⟩ := hcc
    cases hln : cost.lookup n with
    | none =>
      have hb : ∀ oldc, cost.lookup n = some oldc → ccur + 1 < oldc := by
        intro oldc h
        rw [hln] at h
        exact absurd h (by simp)
      obtain ⟨hinv2, hl2⟩ := ucs_push_inv start cur n ccur heap cf cost
        (hadj n (List.mem_cons_self _ _)) hinv ⟨cc, hccl, hccle⟩ hb
      have hred : ucs_relax cur ccur (heap, cf, cost) n =
          (heap ++ [(ccur + 1, n)], (n, cur) :: cf, (n, ccur + 1) :: cost) := by
        simp only [ucs_relax, hln]
      rw [hred]
      exact ih _ _ _ htail hinv2 ⟨cc, by rw [hl2]; exact hccl, hccle⟩
    | some oldc =>
      by_cases himp : ccur + 1 < oldc
      · have hb : ∀ oc, cost.lookup n = some oc → ccur + 1 < oc := by
          intro oc h
          rw [hln] at h
          rwa [← Option.some.inj h]
        obtain ⟨hinv2, hl2⟩ := ucs_push_inv start cur n ccur heap cf cost
          (hadj n (List.mem_cons_self _ _)) hinv ⟨cc, hccl, hccle⟩ hb
        have hred : ucs_relax cur ccur (heap, cf, cost) n =
            (heap ++ [(ccur + 1, n)], (n, cur) :: cf, (n, ccur + 1) :: cost) := by
          simp only [ucs_relax, hln, if_pos himp]
        rw [hred]
        exact ih _ _ _ htail hinv2 ⟨cc, by rw [hl2]; exact hccl, hccle⟩
      · have hred : ucs_relax cur ccur (heap, cf, cost) n = (heap, cf, cost) := by
          simp only [ucs_relax, hln, if_neg himp]
        rw [hred]
        exact ih _ _ _ htail hinv ⟨cc, hccl, hccle⟩

theorem ucsLoop_sound (start goal : Grid) :
    ∀ (fuel : Nat) (heap : List (Nat × Grid)) (vis : List Grid)
      (cf : List (Grid × Grid)) (cost : List (Grid × Nat)) (p : GPath),
      UcsInvS start heap cf cost →
      ucsLoop goal fuel heap vis cf cost = some (some p) →
      List.Chain' adjacent (start :: p) ∧ (start :: p).getLast? = some goal := by
  intro fuel
  induction fuel with
  | zero =>
    intro heap vis cf cost p _ hres
    exact absurd hres (by simp [ucsLoop])
  | succ f ih =>
    intro heap vis cf cost p hinv hres
    cases heap with
    | nil => exact absurd hres (by simp [ucsLoop])
    | cons h0 hs =>
      have hpop : heappop (h0 :: hs) =
          some (((heapMinFrom h0 hs).1, (heapMinFrom h0 hs).2),
            (h0 :: hs).erase (heapMinFrom h0 hs)) := rfl
      simp only [ucsLoop, hpop] at hres
      have hmm := heapMinFrom_mem hs h0
      obtain ⟨cm, hcm, hcmle⟩ := hinv.heapCost _ hmm
      by_cases hg : (heapMinFrom h0 hs).2 = goal
      · rw [if_pos hg] at hres
        obtain ⟨cl, hloop, hchain, hlast, -, hnd, hmem⟩ :=
          ucs_walk start cf cost hinv.sNoCf hinv.tree cm _ hcm
        have hsub : cl ⊆ cf.map Prod.fst := fun y hy => (hmem y hy).1
        have hlenb : cl.length ≤ cf.length := by
          have h1 := (List.Nodup.subperm hnd hsub).length_le
          simpa using h1
        have hrp : reconstruct_path cf (heapMinFrom h0 hs).2 (cf.length + 1) =
            some cl.reverse := by
          rw [reconstruct_path, hloop (cf.length + 1) (by omega)]
          rfl
        rw [hrp] at hres
        have hp : cl.reverse = p := Option.some.inj (Option.some.inj hres)
        rw [← hp]
        exact ⟨hchain, by rw [hlast, hg]⟩
      · rw [if_neg hg] at hres
        by_cases hv : (heapMinFrom h0 hs).2 ∈ vis
        · rw [if_pos hv] at hres
          refine ih _ vis cf cost p ?_ hres
          exact ⟨hinv.sCost, hinv.sNoCf,
            fun e he => hinv.heapCost e (List.mem_of_mem_erase he), hinv.tree⟩
        · rw [if_neg hv] at hres
          have hinv2 := ucs_relax_fold start (heapMinFrom h0 hs).2
            (heapMinFrom h0 hs).1 (get_neighbors (heapMinFrom h0 hs).2)
            ((h0 :: hs).erase (heapMinFrom h0 hs)) cf cost
            (fun n hn => hn)
            ⟨hinv.sCost, hinv.sNoCf,
              fun e he => hinv.heapCost e (List.mem_of_mem_erase he), hinv.tree⟩
            ⟨cm, hcm, hcmle⟩
          exact ih _ _ _ _ p hinv2 hres

theorem ucsInvS_init (start : Grid) :
    UcsInvS start [(0, start)] [] [(start, 0)] := by
  refine ⟨lookup_cons_self start 0 [], rfl, ?_, ?_⟩
  · intro e he
    have : e = (0, start) := by simpa using he
    subst this
    exact ⟨0, lookup_cons_self start 0 [], Nat.le_refl 0⟩
  · intro x c hxc hxs
    rw [lookup_cons_ne start x 0 [] hxs] at hxc
    exact absurd hxc (by simp)

theorem bfsInvS_init (start : Grid) : BfsInvS start [start] [start] [] := by
  refine ⟨List.mem_cons_self _ _, fun q hq => hq, List.nodup_singleton _,
    List.nodup_nil, ?_, ?_, ?_, ?_, ?_⟩
  · intro e he; exact absurd he (List.not_mem_nil e)
  · intro e he; exact absurd he (List.not_mem_nil e)
  · intro e he; exact absurd he (List.not_mem_nil e)
  · intro l1 e l2 h
    cases l1 with
    | nil => exact List.noConfusion h
    | cons a t => exact List.noConfusion h
  · intro v hv hne
    rcases List.mem_singleton.mp hv with rfl
    exact absurd rfl hne

/-- C3 counterexample: on the start one slide from the goal, `bfs` and `ucs`
return the one-element path `[goal_state]` — the start state is missing from
the returned path, so neither returns the claimed 2-element path
`[start, goal]`. -/
theorem C3_counterexample :
    bfs [[1,2,3],[4,5,6],[7,0,8]] goal_state = some (some [goal_state]) ∧
    bfs [[1,2,3],[4,5,6],[7,0,8]] goal_state ≠
      some (some [[[1,2,3],[4,5,6],[7,0,8]], goal_state]) ∧
    ucs [[1,2,3],[4,5,6],[7,0,8]] goal_state = some (some [goal_state]) ∧
    ucs [[1,2,3],[4,5,6],[7,0,8]] goal_state ≠
      some (some [[[1,2,3],[4,5,6],[7,0,8]], goal_state]) :=
  ⟨by decide, by decide, by decide, by decide⟩

/-- C3 (amended): for the concrete start `[[1,2,3],[4,5,6],[7,0,8]]` (one
slide from the goal), `is_solvable` returns true, and `bfs` and `ucs` both
return the one-element path `[goal_state]`: `reconstruct_path` collects
states strictly after the start, so the start itself is omitted from the
returned path. -/
theorem C3_one_slide :
    is_solvable [[1,2,3],[4,5,6],[7,0,8]] = true ∧
    bfs [[1,2,3],[4,5,6],[7,0,8]] goal_state = some (some [goal_state]) ∧
    ucs [[1,2,3],[4,5,6],[7,0,8]] goal_state = some (some [goal_state]) :=
  ⟨by decide, by decide, by decide⟩

/-- C2 counterexample: `bfs` on the start one slide from the goal returns the
path `[goal_state]`, whose first element is not the start argument — the
returned path's head equals the start only for `dfs`. -/
theorem C2_counterexample :
    bfs [[1,2,3],[4,5,6],[7,0,8]] goal_state = some (some [goal_state]) ∧
    ([goal_state] : GPath).head? ≠ some [[1,2,3],[4,5,6],[7,0,8]] :=
  ⟨by decide, by decide⟩

/-- C2 (amended): every path returned by a search strategy consists of
consecutive legal slides and ends at the goal argument; `dfs` paths begin at
the start argument, while `bfs` and `ucs` paths omit the start state, which
is the immediate predecessor of the returned path's first element (prepending
the start yields a legal slide sequence from start to goal). -/
theorem C2_paths_sound (start goal : Grid) :
    (∀ p, dfs start goal 50 = some (some p) →
      p.head? = some start ∧ p.getLast? = some goal ∧
        List.Chain' adjacent p) ∧
    (∀ p, bfs start goal = some (some p) →
      List.Chain' adjacent (start :: p) ∧ (start :: p).getLast? = some goal) ∧
    (∀ p, ucs start goal = some (some p) →
      List.Chain' adjacent (start :: p) ∧ (start :: p).getLast? = some goal) := by
  refine ⟨?_, ?_, ?_⟩
  · intro p hp
    refine dfsLoop_sound start goal 50 FUEL2 [(start, [], 0)] [] p ?_ hp
    intro e he
    have he2 : e = (start, [], 0) := by simpa using he
    subst he2
    exact ⟨rfl, List.chain'_singleton _⟩
  · intro p hp
    exact bfsLoop_sound start goal FUEL [start] [start] [] p
      (bfsInvS_init start) hp
  · intro p hp
    exact ucsLoop_sound start goal FUEL2 [(0, start)] [] [] [(start, 0)] p
      (ucsInvS_init start) hp

theorem C2_paths_sound_witness :
    List.Chain' adjacent
      (([[1,2,3],[4,5,6],[7,0,8]] : Grid) :: [goal_state]) ∧
    (([[1,2,3],[4,5,6],[7,0,8]] : Grid) :: [goal_state]).getLast? =
      some goal_state :=
  (C2_paths_sound [[1,2,3],[4,5,6],[7,0,8]] goal_state).2.1 [goal_state]
    (by decide)

theorem lookup_isSome_keys {β : Type} (l : List (Grid × β)) (t : Grid)
    (h : t ∈ l.map Prod.fst) : ∃ v, l.lookup t = some v := by
  induction l with
  | nil => simp at h
  | cons e tl ih =>
    obtain ⟨k, v⟩ := e
    by_cases ht : t = k
    · subst ht
      exact ⟨v, lookup_cons_self t v tl⟩
    · rw [lookup_cons_ne k t v tl ht]
      refine ih ?_
      simp only [List.map_cons, List.mem_cons] at h
      rcases h with h | h
      · exact absurd h ht
      · exact h

theorem ReachN_zero (a b : Grid) : ReachN a b 0 ↔ b = a := by
  constructor
  · rintro ⟨p, hlen, -, hlast⟩
    have hp : p = [] := List.eq_nil_of_length_eq_zero hlen
    subst hp
    have h2 : a = b := by simpa using hlast
    exact h2.symm
  · rintro rfl
    exact ⟨[], rfl, List.chain'_singleton _, rfl⟩

theorem ReachN_snoc (s x y : Grid) (k : Nat) (h : ReachN s x k)
    (hadj : adjacent x y) : ReachN s y (k + 1) := by
  obtain ⟨p, hlen, hchain, hlast⟩ := h
  refine ⟨p ++ [y], by simp [hlen], ?_, ?_⟩
  · rw [show s :: (p ++ [y]) = (s :: p) ++ [y] from rfl, List.chain'_append]
    refine ⟨hchain, List.chain'_singleton y, ?_⟩
    intro a ha b hb
    rw [hlast] at ha
    cases ha
    cases hb
    exact hadj
  · rw [show s :: (p ++ [y]) = (s :: p) ++ [y] from rfl]
    exact List.getLast?_concat _

theorem ReachN_back (s z : Grid) (k : Nat) (h : ReachN s z (k + 1)) :
    ∃ w, ReachN s w k ∧ adjacent w z := by
  obtain ⟨p, hlen, hchain, hlast⟩ := h
  rcases List.eq_nil_or_concat p with rfl | ⟨p0, l, rfl⟩
  · simp at hlen
  · rw [List.concat_eq_append] at hlen hchain hlast
    have hl : l = z := by
      rw [show s :: (p0 ++ [l]) = (s :: p0) ++ [l] from rfl,
        List.getLast?_concat] at hlast
      exact Option.some.inj hlast
    rw [hl] at hlen hchain
    rw [show s :: (p0 ++ [z]) = (s :: p0) ++ [z] from rfl,
      List.chain'_append] at hchain
    obtain ⟨hc1, -, hlink⟩ := hchain
    have hne : (s :: p0) ≠ [] := by simp
    have hwl : (s :: p0).getLast? = some ((s :: p0).getLast hne) :=
      List.getLast?_eq_getLast _ hne
    refine ⟨(s :: p0).getLast hne, ⟨p0, ?_, hc1, hwl⟩, ?_⟩
    · simp only [List.length_append, List.length_cons, List.length_nil] at hlen
      omega
    · exact hlink _ (by rw [hwl]; rfl) z rfl

theorem reachable_dist (s z : Grid) (h : Reachable s z) : ∃ k, distIs s z k := by
  haveI : DecidablePred (ReachN s z) := Classical.decPred _
  exact ⟨Nat.find h, Nat.find_spec h, fun m hm => Nat.find_min' h hm⟩

theorem distIs_unique (s z : Grid) (j j2 : Nat) (h1 : distIs s z j)
    (h2 : distIs s z j2) : j = j2 :=
  Nat.le_antisymm (h1.2 j2 h2.1) (h2.2 j h1.1)

theorem distIs_self (s : Grid) : distIs s s 0 :=
  ⟨(ReachN_zero s s).mpr rfl, fun m _ => Nat.zero_le m⟩

theorem pred_dist (s z : Grid) (k : Nat) (h : distIs s z (k + 1)) :
    ∃ w, distIs s w k ∧ adjacent w z := by
  obtain ⟨w, hw, hadj⟩ := ReachN_back s z k h.1
  obtain ⟨j, hj⟩ := reachable_dist s w ⟨k, hw⟩
  have hjk : j ≤ k := hj.2 k hw
  have hz : ReachN s z (j + 1) := ReachN_snoc s w z j hj.1 hadj
  have hk1 : k + 1 ≤ j + 1 := h.2 _ hz
  have hjk2 : j = k := by omega
  exact ⟨w, hjk2 ▸ hj, hadj⟩

theorem valid_flatten_inj (u v : Grid) (hu : validGrid u) (hv : validGrid v)
    (h : u.flatten = v.flatten) : u = v := by
  obtain ⟨a, b, c, d, e, f, x, y, z, rfl⟩ := valid_shape u hu
  obtain ⟨a2, b2, c2, d2, e2, f2, x2, y2, z2, rfl⟩ := valid_shape v hv
  simp only [List.flatten, List.cons_append, List.nil_append, List.append_nil,
    List.cons.injEq] at h
  simp_all

theorem visited_card_le (vis : List Grid) (hnd : vis.Nodup)
    (hval : ∀ v ∈ vis, validGrid v) : vis.length ≤ 362880 := by
  have hinj : ∀ a ∈ vis, ∀ b ∈ vis, a.flatten = b.flatten → a = b :=
    fun a ha b hb h => valid_flatten_inj a b (hval a ha) (hval b hb) h
  have hnd2 : (vis.map List.flatten).Nodup := List.Nodup.map_on hinj hnd
  have hsub : vis.map List.flatten ⊆ (List.range 9).permutations := by
    intro fl hfl
    obtain ⟨g, hg, rfl⟩ := List.mem_map.mp hfl
    exact List.mem_permutations.mpr ((hval g hg).2)
  have hle := (hnd2.subperm hsub).length_le
  have hperm : (List.range 9).permutations.length = 362880 := by
    rw [List.length_permutations]
    simp [List.length_range]
    rfl
  calc vis.length = (vis.map List.flatten).length := (List.length_map _ _).symm
    _ ≤ _ := hle
    _ = 362880 := hperm

theorem bfs_walk_dist (s : Grid) (cf : List (Grid × Grid))
    (hsn : cf.lookup s = none)
    (hstep : ∀ x w, cf.lookup x = some w → adjacent w x ∧
      (w = s ∨ ∃ v, cf.lookup w = some v) ∧
      ∀ j, distIs s x j → ∃ j2, j = j2 + 1 ∧ distIs s w j2) :
    ∀ (k : Nat) (x : Grid), distIs s x k → (x = s ∨ ∃ v, cf.lookup x = some v) →
      ∃ cl : GPath,
        (∀ fuel, cl.length < fuel → reconstruct_loop cf fuel x [] = some cl) ∧
        List.Chain' adjacent (s :: cl.reverse) ∧
        (s :: cl.reverse).getLast? = some x ∧
        cl.length = k ∧ cl.Nodup ∧ cl ⊆ cf.map Prod.fst ∧
        (∀ y ∈ cl, ∃ j, distIs s y j ∧ j ≤ k) := by
  intro k
  induction k using Nat.strong_induction_on with
  | _ k ih =>
    intro x hx hentry
    by_cases hxs : x = s
    · have hk0 : k = 0 :=
        distIs_unique s x k 0 hx (by rw [hxs]; exact distIs_self s)
      subst hk0
      refine ⟨[], ?_, List.chain'_singleton _, by rw [hxs]; rfl, rfl,
        List.nodup_nil, by simp, by simp⟩
      intro fuel hf
      match fuel, hf with
      | f + 1, _ =>
        rw [hxs]
        simp only [reconstruct_loop, hsn]
    · rcases hentry with rfl | ⟨w, hw⟩
      · exact absurd rfl hxs
      obtain ⟨hadj, hwent, hdec⟩ := hstep x w hw
      obtain ⟨k2, hk2, hwdist⟩ := hdec k hx
      subst hk2
      obtain ⟨clw, hloop, hchain, hlast, hlen, hnd, hsub, hdb⟩ :=
        ih k2 (by omega) w hwdist hwent
      refine ⟨x :: clw, ?_, ?_, ?_, ?_, ?_, ?_, ?_⟩
      · intro fuel hf
        rw [List.length_cons] at hf
        match fuel, hf with
        | f + 1, hf =>
          simp only [reconstruct_loop, hw]
          rw [reconstruct_loop_acc cf f w ([] ++ [x]), hloop f (by omega)]
          simp
      · rw [List.reverse_cons, show s :: (clw.reverse ++ [x]) =
          (s :: clw.reverse) ++ [x] from rfl, List.chain'_append]
        refine ⟨hchain, List.chain'_singleton x, ?_⟩
        intro a ha b hb
        rw [hlast] at ha
        cases ha
        cases hb
        exact hadj
      · rw [List.reverse_cons, show s :: (clw.reverse ++ [x]) =
          (s :: clw.reverse) ++ [x] from rfl]
        exact List.getLast?_concat _
      · simp [hlen]
      · refine List.nodup_cons.mpr ⟨?_, hnd⟩
        intro hxm
        obtain ⟨j, hj, hjle⟩ := hdb x hxm
        have := distIs_unique s x (k2 + 1) j hx hj
        omega
      · intro y hy
        rcases List.mem_cons.mp hy with rfl | hy2
        · exact List.mem_map_of_mem Prod.fst (lookup_some_mem cf y w hw)
        · exact hsub hy2
      · intro y hy
        rcases List.mem_cons.mp hy with rfl | hy2
        · exact ⟨k2 + 1, hx, Nat.le_refl _⟩
        · obtain ⟨j, hj, hjle⟩ := hdb y hy2
          exact ⟨j, hj, by omega⟩

theorem bfsOpt_shift (s goal : Grid) (q vis : List Grid)
    (cf : List (Grid × Grid)) (k : Nat)
    (hopt : BfsOpt s goal q vis cf k)
    (hq : ∀ x ∈ q, distIs s x (k + 1)) :
    BfsOpt s goal q vis cf (k + 1) := by
  refine ⟨⟨q, [], by simp, hq, by simp⟩, ?_, ?_, hopt.closed, hopt.cfDist,
    hopt.visValid, hopt.notGoal⟩
  · intro z j hz hj
    rcases Nat.lt_or_ge j (k + 1) with hlt | hge
    · exact hopt.covered z j hz (by omega)
    · have hj1 : j = k + 1 := by omega
      subst hj1
      obtain ⟨w, hwd, hadj⟩ := pred_dist s z k hz
      have hwv : w ∈ vis := hopt.covered w k hwd (Nat.le_refl k)
      rcases hopt.closed w hwv with hwq | hnb
      · have h1 := hq w hwq
        have h2 := distIs_unique s w k (k + 1) hwd h1
        omega
      · exact hnb z hadj
  · intro v hv
    obtain ⟨j, hj, hjk⟩ := hopt.visDist v hv
    exact ⟨j, hj, by omega⟩

theorem bfsFoldOut_refl (s goal c : Grid) (k : Nat) (ns q vis : List Grid)
    (cf : List (Grid × Grid)) (q2 vis2 : List Grid) (cf2 : List (Grid × Grid))
    (o : BfsFoldOut s goal c k ns q vis cf q2 vis2 cf2) :
    BfsFoldOut s goal c k [] q2 vis2 cf2 q2 vis2 cf2 :=
  ⟨⟨[], by simp, by simp⟩, o.covered, o.visDist, o.closedExc, o.cfDist,
    o.visValid, o.notGoalExc, by simp, fun a ha => ha, rfl⟩

theorem bfsFoldOut_comp (s goal c : Grid) (k : Nat)
    (ns1 ns2 q vis : List Grid) (cf : List (Grid × Grid))
    (q1 vis1 : List Grid) (cf1 : List (Grid × Grid))
    (q2 vis2 : List Grid) (cf2 : List (Grid × Grid))
    (o1 : BfsFoldOut s goal c k ns1 q vis cf q1 vis1 cf1)
    (o2 : BfsFoldOut s goal c k ns2 q1 vis1 cf1 q2 vis2 cf2) :
    BfsFoldOut s goal c k (ns1 ++ ns2) q vis cf q2 vis2 cf2 := by
  refine ⟨?_, o2.covered, o2.visDist, o2.closedExc, o2.cfDist, o2.visValid,
    o2.notGoalExc, ?_, ?_, ?_⟩
  · obtain ⟨f1, hf1, hd1⟩ := o1.qext
    obtain ⟨f2, hf2, hd2⟩ := o2.qext
    refine ⟨f1 ++ f2, by rw [hf2, hf1, List.append_assoc], ?_⟩
    intro f hf
    rcases List.mem_append.mp hf with h | h
    · exact hd1 f h
    · exact hd2 f h
  · intro n hn
    rcases List.mem_append.mp hn with h | h
    · exact o2.visSub (o1.nsVis n h)
    · exact o2.nsVis n h
  · exact fun a ha => o2.visSub (o1.visSub ha)
  · have h1 := o1.lenEq
    have h2 := o2.lenEq
    omega

theorem bfs_visit_step (s goal c : Grid) (k : Nat) (hc : distIs s c k)
    (hcv : validGrid c) (n : Grid) (q vis : List Grid)
    (cf : List (Grid × Grid)) (hadj : adjacent c n)
    (hin : BfsFoldOut s goal c k [] q vis cf q vis cf) :
    BfsFoldOut s goal c k [n] q vis cf
      (bfs_visit c (q, vis, cf) n).1
      (bfs_visit c (q, vis, cf) n).2.1
      (bfs_visit c (q, vis, cf) n).2.2 := by
  by_cases hv : n ∈ vis
  · have hred : bfs_visit c (q, vis, cf) n = (q, vis, cf) := by
      simp only [bfs_visit, if_pos hv]
    rw [hred]
    refine ⟨⟨[], by simp, by simp⟩, hin.covered, hin.visDist, hin.closedExc,
      hin.cfDist, hin.visValid, hin.notGoalExc, ?_, fun a ha => ha, rfl⟩
    intro m hm
    rcases List.mem_singleton.mp hm with rfl
    exact hv
  · have hr : ReachN s n (k + 1) := ReachN_snoc s c n k hc.1 hadj
    obtain ⟨j, hj⟩ := reachable_dist s n ⟨k + 1, hr⟩
    have hjle : j ≤ k + 1 := hj.2 _ hr
    have hjgt : ¬ j ≤ k := fun hle => hv (hin.covered n j hj hle)
    have hjeq : j = k + 1 := by omega
    rw [hjeq] at hj
    have hred : bfs_visit c (q, vis, cf) n =
        (q ++ [n], n :: vis, (n, c) :: cf) := by
      simp only [bfs_visit, if_neg hv]
    rw [hred]
    refine ⟨⟨[n], rfl, ?_⟩, ?_, ?_, ?_, ?_, ?_, ?_, ?_, ?_, ?_⟩
    · intro f hf
      rcases List.mem_singleton.mp hf with rfl
      exact hj
    · intro z j2 hz hj2
      exact List.mem_cons_of_mem _ (hin.covered z j2 hz hj2)
    · intro v hv2
      rcases List.mem_cons.mp hv2 with rfl | hv2
      · exact ⟨k + 1, hj, Nat.le_refl _⟩
      · exact hin.visDist v hv2
    · intro x hx
      rcases List.mem_cons.mp hx with rfl | hx
      · exact Or.inr (Or.inl (List.mem_append_right q (List.mem_singleton.mpr rfl)))
      · rcases hin.closedExc x hx with h | h | h
        · exact Or.inl h
        · exact Or.inr (Or.inl (List.mem_append_left _ h))
        · exact Or.inr (Or.inr fun m hm => List.mem_cons_of_mem _ (h m hm))
    · intro x w hxw j2 hxd
      by_cases hxn : x = n
      · subst hxn
        rw [lookup_cons_self x c cf] at hxw
        have hwc : c = w := Option.some.inj hxw
        have hj2 : j2 = k + 1 := distIs_unique s x j2 (k + 1) hxd hj
        exact ⟨k, by omega, hwc ▸ hc⟩
      · rw [lookup_cons_ne n x c cf hxn] at hxw
        exact hin.cfDist x w hxw j2 hxd
    · intro v hv2
      rcases List.mem_cons.mp hv2 with rfl | hv2
      · exact valid_neighbor c v hcv hadj
      · exact hin.visValid v hv2
    · intro x hx
      rcases List.mem_cons.mp hx with rfl | hx
      · exact Or.inr (Or.inl (List.mem_append_right q (List.mem_singleton.mpr rfl)))
      · rcases hin.notGoalExc x hx with h | h | h
        · exact Or.inl h
        · exact Or.inr (Or.inl (List.mem_append_left _ h))
        · exact Or.inr (Or.inr h)
    · intro m hm
      rcases List.mem_singleton.mp hm with rfl
      exact List.mem_cons_self _ _
    · exact fun a ha => List.mem_cons_of_mem _ ha
    · simp only [List.length_append, List.length_cons, List.length_nil]
      omega

theorem bfs_opt_fold (s goal c : Grid) (k : Nat) (hc : distIs s c k)
    (hcv : validGrid c) :
    ∀ (ns : List Grid) (q vis : List Grid) (cf : List (Grid × Grid)),
      (∀ n ∈ ns, adjacent c n) →
      BfsFoldOut s goal c k [] q vis cf q vis cf →
      BfsFoldOut s goal c k ns q vis cf
        (ns.foldl (bfs_visit c) (q, vis, cf)).1
        (ns.foldl (bfs_visit c) (q, vis, cf)).2.1
        (ns.foldl (bfs_visit c) (q, vis, cf)).2.2 := by
  intro ns
  induction ns with
  | nil => intro q vis cf _ hin; exact hin
  | cons n ns ih =>
    intro q vis cf hadj hin
    rw [List.foldl_cons]
    have o1 := bfs_visit_step s goal c k hc hcv n q vis cf
      (hadj n (List.mem_cons_self _ _)) hin
    have heq : bfs_visit c (q, vis, cf) n =
        ((bfs_visit c (q, vis, cf) n).1,
         (bfs_visit c (q, vis, cf) n).2.1,
         (bfs_visit c (q, vis, cf) n).2.2) := rfl
    rw [heq]
    have o2 := ih _ _ _ (fun m hm => hadj m (List.mem_cons_of_mem _ hm))
      (bfsFoldOut_refl s goal c k [n] q vis cf _ _ _ o1)
    exact bfsFoldOut_comp s goal c k [n] ns q vis cf _ _ _ _ _ _ o1 o2

theorem bfsOpt_empty_absurd (s goal : Grid) (d : Nat) (hd : distIs s goal d)
    (vis : List Grid) (cf : List (Grid × Grid)) (k : Nat)
    (hopt : BfsOpt s goal [] vis cf k) : False := by
  have hall : ∀ m, BfsOpt s goal [] vis cf (k + m) := by
    intro m
    induction m with
    | zero => exact hopt
    | succ m ihm => exact bfsOpt_shift s goal [] vis cf (k + m) ihm (by simp)
  have hg : goal ∈ vis := (hall d).covered goal d hd (by omega)
  rcases hopt.notGoal goal hg with h | h
  · exact List.not_mem_nil _ h
  · exact h rfl

theorem bfsLoop_opt (s goal : Grid) (d : Nat) (hd : distIs s goal d) :
    ∀ (fuel : Nat) (q vis : List Grid) (cf : List (Grid × Grid)) (k : Nat),
      BfsInvS s q vis cf → BfsOpt s goal q vis cf k →
      q.length + (362880 - vis.length) < fuel →
      ∃ p, bfsLoop goal fuel q vis cf = some (some p) ∧ p.length = d := by
  intro fuel
  induction fuel with
  | zero => intro q vis cf k _ _ hf; omega
  | succ f ih =>
    intro q vis cf k hbase hopt hf
    cases q with
    | nil => exact (bfsOpt_empty_absurd s goal d hd vis cf k hopt).elim
    | cons c q0 =>
      have hcvis : c ∈ vis := hbase.queueVis c (List.mem_cons_self _ _)
      obtain ⟨k2, A2, B2, hsplit, hcd, hA2, hB2, hopt2⟩ :
          ∃ k2 A2 B2, q0 = A2 ++ B2 ∧ distIs s c k2 ∧
            (∀ x ∈ A2, distIs s x k2) ∧ (∀ x ∈ B2, distIs s x (k2 + 1)) ∧
            BfsOpt s goal (c :: q0) vis cf k2 := by
        obtain ⟨A, B, hqAB, hA, hB⟩ := hopt.qLevels
        cases A with
        | nil =>
          have hBq : B = c :: q0 := by simpa using hqAB.symm
          subst hBq
          have hshift := bfsOpt_shift s goal (c :: q0) vis cf k hopt hB
          exact ⟨k + 1, q0, [], by simp, hB c (List.mem_cons_self _ _),
            fun x hx => hB x (List.mem_cons_of_mem _ hx), by simp, hshift⟩
        | cons a A2 =>
          rw [List.cons_append] at hqAB
          injection hqAB with h1 h2
          subst h1
          exact ⟨k, A2, B, h2, hA c (List.mem_cons_self _ _),
            fun x hx => hA x (List.mem_cons_of_mem _ hx), hB, hopt⟩
      have hsn : cf.lookup s = none := by
        apply lookup_eq_none_keys
        intro hmem
        obtain ⟨e, he, hfst⟩ := List.mem_map.mp hmem
        exact hbase.keysNotStart e he hfst
      have hstep : ∀ x w, cf.lookup x = some w → adjacent w x ∧
          (w = s ∨ ∃ v, cf.lookup w = some v) ∧
          ∀ j, distIs s x j → ∃ j2, j = j2 + 1 ∧ distIs s w j2 := by
        intro x w hxw
        have hmem := lookup_some_mem cf x w hxw
        have hedge := hbase.edges (x, w) hmem
        refine ⟨hedge.1, ?_, fun j hj => hopt2.cfDist x w hxw j hj⟩
        rcases eq_or_ne w s with rfl | hws
        · exact Or.inl rfl
        · exact Or.inr (lookup_isSome_keys cf w (hbase.visCover w hedge.2 hws))
      by_cases hcg : c = goal
      · have hcent : c = s ∨ ∃ v, cf.lookup c = some v := by
          rcases eq_or_ne c s with rfl | hcs
          · exact Or.inl rfl
          · exact Or.inr (lookup_isSome_keys cf c (hbase.visCover c hcvis hcs))
        obtain ⟨cl, hloop, hchain, hlast, hlen, hnd, hsub, -⟩ :=
          bfs_walk_dist s cf hsn hstep k2 c hcd hcent
        have hlenb : cl.length ≤ cf.length := by
          have h1 := (hnd.subperm hsub).length_le
          simpa using h1
        have hrp : reconstruct_path cf c (cf.length + 1) = some cl.reverse := by
          rw [reconstruct_path, hloop (cf.length + 1) (by omega)]
          rfl
        refine ⟨cl.reverse, ?_, ?_⟩
        · simp only [bfsLoop, if_pos hcg, hrp]
        · rw [List.length_reverse, hlen]
          have : distIs s goal k2 := hcg ▸ hcd
          exact distIs_unique s goal k2 d this hd
      · have hcv : validGrid c := hopt2.visValid c hcvis
        have hin : BfsFoldOut s goal c k2 [] q0 vis cf q0 vis cf := by
          refine ⟨⟨[], by simp, by simp⟩, hopt2.covered, hopt2.visDist, ?_,
            hopt2.cfDist, hopt2.visValid, ?_, by simp, fun a ha => ha, rfl⟩
          · intro x hx
            rcases hopt2.closed x hx with hq | hn
            · rcases List.mem_cons.mp hq with rfl | hq
              · exact Or.inl rfl
              · exact Or.inr (Or.inl hq)
            · exact Or.inr (Or.inr hn)
          · intro x hx
            rcases hopt2.notGoal x hx with hq | hn
            · rcases List.mem_cons.mp hq with rfl | hq
              · exact Or.inl rfl
              · exact Or.inr (Or.inl hq)
            · exact Or.inr (Or.inr hn)
        have o := bfs_opt_fold s goal c k2 hcd hcv (get_neighbors c) q0 vis cf
          (fun n hn => hn) hin
        have hbase0 : BfsInvS s q0 vis cf :=
          ⟨hbase.startVis, fun x hx => hbase.queueVis x (List.mem_cons_of_mem _ hx),
            hbase.visNodup, hbase.keysNodup, hbase.keysNotStart, hbase.keysVis,
            hbase.edges, hbase.wf, hbase.visCover⟩
        have hcor : c = s ∨ c ∈ cf.map Prod.fst := by
          rcases eq_or_ne c s with rfl | hcs
          · exact Or.inl rfl
          · exact Or.inr (hbase.visCover c hcvis hcs)
        have hbase2 := bfs_visit_fold s c (get_neighbors c) q0 vis cf
          (fun n hn => hn) hbase0 hcvis hcor
        have hopt3 : BfsOpt s goal
            ((get_neighbors c).foldl (bfs_visit c) (q0, vis, cf)).1
            ((get_neighbors c).foldl (bfs_visit c) (q0, vis, cf)).2.1
            ((get_neighbors c).foldl (bfs_visit c) (q0, vis, cf)).2.2 k2 := by
          obtain ⟨fresh, hfr, hfrd⟩ := o.qext
          refine ⟨⟨A2, B2 ++ fresh, ?_, hA2, ?_⟩, o.covered, o.visDist, ?_,
            o.cfDist, o.visValid, ?_⟩
          · rw [hfr, hsplit, List.append_assoc]
          · intro x hx
            rcases List.mem_append.mp hx with hx | hx
            · exact hB2 x hx
            · exact hfrd x hx
          · intro x hx
            rcases o.closedExc x hx with rfl | hq | hn
            · exact Or.inr (fun n hn => o.nsVis n hn)
            · exact Or.inl hq
            · exact Or.inr hn
          · intro x hx
            rcases o.notGoalExc x hx with rfl | hq | hn
            · exact Or.inr hcg
            · exact Or.inl hq
            · exact Or.inr hn
        have hvsize : ((get_neighbors c).foldl (bfs_visit c) (q0, vis, cf)).2.1.length
            ≤ 362880 := visited_card_le _ hbase2.visNodup o.visValid
        have hvmono : vis.length ≤
            ((get_neighbors c).foldl (bfs_visit c) (q0, vis, cf)).2.1.length :=
          (hbase.visNodup.subperm o.visSub).length_le
        have hlen2 := o.lenEq
        have hun : bfsLoop goal (f + 1) (c :: q0) vis cf =
            bfsLoop goal f
              ((get_neighbors c).foldl (bfs_visit c) (q0, vis, cf)).1
              ((get_neighbors c).foldl (bfs_visit c) (q0, vis, cf)).2.1
              ((get_neighbors c).foldl (bfs_visit c) (q0, vis, cf)).2.2 := by
          simp only [bfsLoop, if_neg hcg]
        rw [hun]
        refine ih _ _ _ k2 hbase2 hopt3 ?_
        simp only [List.length_cons] at hf
        omega

theorem entryLt_cost_le (a b : Nat × Grid) (h : entryLt a b = true) :
    a.1 ≤ b.1 := by
  unfold entryLt at h
  by_cases h1 : a.1 < b.1
  · omega
  · rw [if_neg h1] at h
    by_cases h2 : b.1 < a.1
    · rw [if_pos h2] at h
      exact absurd h (by simp)
    · omega

theorem entryLt_false_cost_ge (a b : Nat × Grid) (h : entryLt a b = false) :
    b.1 ≤ a.1 := by
  unfold entryLt at h
  by_cases h1 : a.1 < b.1
  · rw [if_pos h1] at h
    exact absurd h (by simp)
  · omega

theorem foldlMin_cost_le (ys : List (Nat × Grid)) :
    ∀ acc : Nat × Grid,
      (ys.foldl (fun m y => if entryLt y m then y else m) acc).1 ≤ acc.1 ∧
      ∀ e ∈ ys, (ys.foldl (fun m y => if entryLt y m then y else m) acc).1 ≤ e.1 := by
  induction ys with
  | nil => intro acc; exact ⟨Nat.le_refl _, by simp⟩
  | cons y ys ih =>
    intro acc
    rw [List.foldl_cons]
    by_cases hy : entryLt y acc
    · rw [if_pos hy]
      have hyc : y.1 ≤ acc.1 := entryLt_cost_le y acc hy
      obtain ⟨h1, h2⟩ := ih y
      refine ⟨by omega, ?_⟩
      intro e he
      rcases List.mem_cons.mp he with rfl | he
      · exact h1
      · exact h2 e he
    · rw [if_neg hy]
      have hyc : acc.1 ≤ y.1 := entryLt_false_cost_ge y acc (by simpa using hy)
      obtain ⟨h1, h2⟩ := ih acc
      refine ⟨h1, ?_⟩
      intro e he
      rcases List.mem_cons.mp he with rfl | he
      · omega
      · exact h2 e he

theorem heapMinFrom_cost_le (xs : List (Nat × Grid)) (x : Nat × Grid) :
    ∀ e ∈ x :: xs, (heapMinFrom x xs).1 ≤ e.1 := by
  intro e he
  obtain ⟨h1, h2⟩ := foldlMin_cost_le xs x
  rcases List.mem_cons.mp he with rfl | he
  · exact h1
  · exact h2 e he

theorem ucs_cover (s goal : Grid) (heap : List (Nat × Grid)) (vis : List Grid)
    (cost : List (Grid × Nat)) (ho : UcsOpt s goal heap vis cost) :
    ∀ (dz : Nat) (z : Grid), distIs s z dz → z ∉ vis →
      ∃ e ∈ heap, e.1 ≤ dz := by
  intro dz
  induction dz using Nat.strong_induction_on with
  | _ dz ih =>
    intro z hz hnv
    cases dz with
    | zero =>
      have hzs : z = s := (ReachN_zero s z).mp hz.1
      subst hzs
      obtain ⟨e, he, -, he1⟩ := ho.startEntry hnv
      exact ⟨e, he, by omega⟩
    | succ k =>
      obtain ⟨w, hwd, hadj⟩ := pred_dist s z k hz
      by_cases hwv : w ∈ vis
      · obtain ⟨cn, dx, hdx, hcn, hle⟩ := ho.nbrCost w hwv z hadj
        have hdxk : dx = k := distIs_unique s w dx k hdx hwd
        rcases ho.costEntry z cn hcn with hzv | ⟨e, he, -, hec⟩
        · exact absurd hzv hnv
        · exact ⟨e, he, by omega⟩
      · obtain ⟨e, he, hec⟩ := ih k (by omega) w hwd hwv
        exact ⟨e, he, by omega⟩

theorem ucs_pop_dist (s goal : Grid) (h0 : Nat × Grid)
    (hs : List (Nat × Grid)) (vis : List Grid) (cost : List (Grid × Nat))
    (ho : UcsOpt s goal (h0 :: hs) vis cost)
    (hnv : (heapMinFrom h0 hs).2 ∉ vis) :
    distIs s (heapMinFrom h0 hs).2 (heapMinFrom h0 hs).1 := by
  have hmm : heapMinFrom h0 hs ∈ h0 :: hs := heapMinFrom_mem hs h0
  have hr : ReachN s (heapMinFrom h0 hs).2 (heapMinFrom h0 hs).1 :=
    ho.heapReach _ hmm
  obtain ⟨dm, hdm⟩ := reachable_dist s (heapMinFrom h0 hs).2 ⟨_, hr⟩
  have hd1 : dm ≤ (heapMinFrom h0 hs).1 := hdm.2 _ hr
  obtain ⟨e, he, hec⟩ :=
    ucs_cover s goal (h0 :: hs) vis cost ho dm (heapMinFrom h0 hs).2 hdm hnv
  have hmin : (heapMinFrom h0 hs).1 ≤ e.1 := heapMinFrom_cost_le hs h0 e he
  have heq : (heapMinFrom h0 hs).1 = dm := by omega
  rw [heq]
  exact hdm

theorem ucsFoldOut_refl (s mg : Grid) (mc : Nat) (ns : List Grid)
    (heap : List (Nat × Grid)) (cost : List (Grid × Nat)) (vis : List Grid)
    (heap2 : List (Nat × Grid)) (cost2 : List (Grid × Nat))
    (o : UcsFoldOut s mg mc ns heap cost vis heap2 cost2) :
    UcsFoldOut s mg mc [] heap2 cost2 vis heap2 cost2 :=
  ⟨o.costReach, o.heapReach, o.heapValid, o.settled, o.mgCost, o.nbrCost,
    o.costEntry, by simp, fun e he => he,
    fun y cy h => ⟨cy, h, Nat.le_refl cy⟩, by simp⟩

theorem ucsFoldOut_comp (s mg : Grid) (mc : Nat) (ns1 ns2 : List Grid)
    (heap : List (Nat × Grid)) (cost : List (Grid × Nat)) (vis : List Grid)
    (heap1 : List (Nat × Grid)) (cost1 : List (Grid × Nat))
    (heap2 : List (Nat × Grid)) (cost2 : List (Grid × Nat))
    (o1 : UcsFoldOut s mg mc ns1 heap cost vis heap1 cost1)
    (o2 : UcsFoldOut s mg mc ns2 heap1 cost1 vis heap2 cost2) :
    UcsFoldOut s mg mc (ns1 ++ ns2) heap cost vis heap2 cost2 := by
  refine ⟨o2.costReach, o2.heapReach, o2.heapValid, o2.settled, o2.mgCost,
    o2.nbrCost, o2.costEntry, ?_, ?_, ?_, ?_⟩
  · intro n hn
    rcases List.mem_append.mp hn with h | h
    · obtain ⟨cn, hcn, hle⟩ := o1.processed n h
      obtain ⟨cn2, hcn2, hle2⟩ := o2.costMono n cn hcn
      exact ⟨cn2, hcn2, by omega⟩
    · exact o2.processed n h
  · exact fun e he => o2.heapMono e (o1.heapMono e he)
  · intro y cy h
    obtain ⟨cy1, h1, hl1⟩ := o1.costMono y cy h
    obtain ⟨cy2, h2, hl2⟩ := o2.costMono y cy1 h1
    exact ⟨cy2, h2, by omega⟩
  · have h1 := o1.lenLe
    have h2 := o2.lenLe
    simp only [List.length_append]
    omega

theorem ucs_relax_step (s mg : Grid) (mc : Nat) (hmc : distIs s mg mc)
    (hmgv : validGrid mg) (n : Grid) (heap : List (Nat × Grid))
    (cf : List (Grid × Grid)) (cost : List (Grid × Nat)) (vis : List Grid)
    (hadj : adjacent mg n)
    (hin : UcsFoldOut s mg mc [] heap cost vis heap cost) :
    UcsFoldOut s mg mc [n] heap cost vis
      (ucs_relax mg mc (heap, cf, cost) n).1
      (ucs_relax mg mc (heap, cf, cost) n).2.2 := by
  have hpushcase : ∀ (hbet : ∀ oldc, cost.lookup n = some oldc → mc + 1 < oldc),
      UcsFoldOut s mg mc [n] heap cost vis (heap ++ [(mc + 1, n)])
        ((n, mc + 1) :: cost) := by
    intro hbet
    have hreach : ReachN s n (mc + 1) := ReachN_snoc s mg n mc hmc.1 hadj
    have hnmg : n ≠ mg := by
      intro h
      have := hbet mc (by rw [h]; exact hin.mgCost)
      omega
    have hnvis : n ∉ vis := by
      intro hv
      obtain ⟨dx, hdx, hlk⟩ := hin.settled n hv
      have h1 := hbet dx hlk
      have h2 : dx ≤ mc + 1 := hdx.2 _ hreach
      omega
    have hmono : ∀ y cy, cost.lookup y = some cy →
        ∃ cy2, ((n, mc + 1) :: cost).lookup y = some cy2 ∧ cy2 ≤ cy := by
      intro y cy hy
      by_cases hyn : y = n
      · subst hyn
        have := hbet cy hy
        exact ⟨mc + 1, lookup_cons_self y (mc + 1) cost, by omega⟩
      · exact ⟨cy, by rw [lookup_cons_ne n y (mc + 1) cost hyn]; exact hy,
          Nat.le_refl cy⟩
    refine ⟨?_, ?_, ?_, ?_, ?_, ?_, ?_, ?_, ?_, hmono, ?_⟩
    · intro x c hx
      by_cases hxn : x = n
      · subst hxn
        rw [lookup_cons_self x (mc + 1) cost] at hx
        rw [← Option.some.inj hx]
        exact hreach
      · rw [lookup_cons_ne n x (mc + 1) cost hxn] at hx
        exact hin.costReach x c hx
    · intro e he
      rcases List.mem_append.mp he with he | he
      · exact hin.heapReach e he
      · have : e = (mc + 1, n) := by simpa using he
        subst this
        exact hreach
    · intro e he
      rcases List.mem_append.mp he with he | he
      · exact hin.heapValid e he
      · have : e = (mc + 1, n) := by simpa using he
        subst this
        exact valid_neighbor mg n hmgv hadj
    · intro x hx
      obtain ⟨dx, hdx, hlk⟩ := hin.settled x hx
      refine ⟨dx, hdx, ?_⟩
      have hxn : x ≠ n := fun h => hnvis (h ▸ hx)
      rw [lookup_cons_ne n x (mc + 1) cost hxn]
      exact hlk
    · rw [lookup_cons_ne n mg (mc + 1) cost (Ne.symm hnmg)]
      exact hin.mgCost
    · intro x hx n2 hadj2
      obtain ⟨cn, dx, hdx, hlk, hle⟩ := hin.nbrCost x hx n2 hadj2
      obtain ⟨cn2, hlk2, hle2⟩ := hmono n2 cn hlk
      exact ⟨cn2, dx, hdx, hlk2, by omega⟩
    · intro x c hx
      by_cases hxn : x = n
      · subst hxn
        rw [lookup_cons_self x (mc + 1) cost] at hx
        have hc := Option.some.inj hx
        refine Or.inr (Or.inr ⟨(mc + 1, x), List.mem_append_right heap (by simp),
          rfl, by omega⟩)
      · rw [lookup_cons_ne n x (mc + 1) cost hxn] at hx
        rcases hin.costEntry x c hx with h | h | ⟨e, he, h2, h3⟩
        · exact Or.inl h
        · exact Or.inr (Or.inl h)
        · exact Or.inr (Or.inr ⟨e, List.mem_append_left _ he, h2, h3⟩)
    · intro m hm
      rcases List.mem_singleton.mp hm with rfl
      exact ⟨mc + 1, lookup_cons_self m (mc + 1) cost, Nat.le_refl _⟩
    · exact fun e he => List.mem_append_left _ he
    · simp
  cases hln : cost.lookup n with
  | none =>
    have hred : ucs_relax mg mc (heap, cf, cost) n =
        (heap ++ [(mc + 1, n)], (n, mg) :: cf, (n, mc + 1) :: cost) := by
      simp only [ucs_relax, hln]
    rw [hred]
    exact hpushcase (fun oldc h => absurd (hln ▸ h) (by simp))
  | some oldc =>
    by_cases himp : mc + 1 < oldc
    · have hred : ucs_relax mg mc (heap, cf, cost) n =
          (heap ++ [(mc + 1, n)], (n, mg) :: cf, (n, mc + 1) :: cost) := by
        simp only [ucs_relax, hln, if_pos himp]
      rw [hred]
      refine hpushcase ?_
      intro oc h
      rw [hln] at h
      rwa [← Option.some.inj h]
    · have hred : ucs_relax mg mc (heap, cf, cost) n = (heap, cf, cost) := by
        simp only [ucs_relax, hln, if_neg himp]
      rw [hred]
      refine ⟨hin.costReach, hin.heapReach, hin.heapValid, hin.settled,
        hin.mgCost, hin.nbrCost, hin.costEntry, ?_, fun e he => he,
        fun y cy h => ⟨cy, h, Nat.le_refl cy⟩, by simp⟩
      intro m hm
      rcases List.mem_singleton.mp hm with rfl
      exact ⟨oldc, hln, by omega⟩

theorem ucs_opt_fold (s mg : Grid) (mc : Nat) (hmc : distIs s mg mc)
    (hmgv : validGrid mg) :
    ∀ (ns : List Grid) (heap : List (Nat × Grid)) (cf : List (Grid × Grid))
      (cost : List (Grid × Nat)) (vis : List Grid),
      (∀ n ∈ ns, adjacent mg n) →
      UcsFoldOut s mg mc [] heap cost vis heap cost →
      UcsFoldOut s mg mc ns heap cost vis
        (ns.foldl (ucs_relax mg mc) (heap, cf, cost)).1
        (ns.foldl (ucs_relax mg mc) (heap, cf, cost)).2.2 := by
  intro ns
  induction ns with
  | nil => intro heap cf cost vis _ hin; exact hin
  | cons n ns ih =>
    intro heap cf cost vis hadj hin
    rw [List.foldl_cons]
    have o1 := ucs_relax_step s mg mc hmc hmgv n heap cf cost vis
      (hadj n (List.mem_cons_self _ _)) hin
    have heq : ucs_relax mg mc (heap, cf, cost) n =
        ((ucs_relax mg mc (heap, cf, cost) n).1,
         (ucs_relax mg mc (heap, cf, cost) n).2.1,
         (ucs_relax mg mc (heap, cf, cost) n).2.2) := rfl
    rw [heq]
    have o2 := ih (ucs_relax mg mc (heap, cf, cost) n).1
      (ucs_relax mg mc (heap, cf, cost) n).2.1
      (ucs_relax mg mc (heap, cf, cost) n).2.2 vis
      (fun m hm => hadj m (List.mem_cons_of_mem _ hm))
      (ucsFoldOut_refl s mg mc [n] heap cost vis _ _ o1)
    exact ucsFoldOut_comp s mg mc [n] ns heap cost vis _ _ _ _ o1 o2

theorem ucsLoop_opt (s goal : Grid) (d : Nat) (hd : distIs s goal d) :
    ∀ (fuel : Nat) (heap : List (Nat × Grid)) (vis : List Grid)
      (cf : List (Grid × Grid)) (cost : List (Grid × Nat)),
      UcsInvS s heap cf cost → UcsOpt s goal heap vis cost →
      heap.length + 4 * (362880 - vis.length) < fuel →
      ∃ p, ucsLoop goal fuel heap vis cf cost = some (some p) ∧
        p.length = d := by
  intro fuel
  induction fuel with
  | zero => intro heap vis cf cost _ _ hf; omega
  | succ f ih =>
    intro heap vis cf cost hinv ho hf
    cases heap with
    | nil =>
      obtain ⟨e, he, -⟩ :=
        ucs_cover s goal [] vis cost ho d goal hd ho.goalNotVis
      exact absurd he (List.not_mem_nil e)
    | cons h0 hs =>
      have hpop : heappop (h0 :: hs) =
          some (((heapMinFrom h0 hs).1, (heapMinFrom h0 hs).2),
            (h0 :: hs).erase (heapMinFrom h0 hs)) := rfl
      have hmm : heapMinFrom h0 hs ∈ h0 :: hs := heapMinFrom_mem hs h0
      have hlerase : ((h0 :: hs).erase (heapMinFrom h0 hs)).length + 1 =
          (h0 :: hs).length := by
        rw [List.length_erase_of_mem hmm]
        simp
      by_cases hg : (heapMinFrom h0 hs).2 = goal
      · have hnv : (heapMinFrom h0 hs).2 ∉ vis := by
          rw [hg]; exact ho.goalNotVis
        have hmd : distIs s (heapMinFrom h0 hs).2 (heapMinFrom h0 hs).1 :=
          ucs_pop_dist s goal h0 hs vis cost ho hnv
        obtain ⟨ce, hce, hcele⟩ := hinv.heapCost _ hmm
        have hcer : ReachN s (heapMinFrom h0 hs).2 ce := ho.costReach _ ce hce
        have hcemc : ce = (heapMinFrom h0 hs).1 := by
          have h1 := hmd.2 ce hcer
          omega
        obtain ⟨cl, hloop, hchain, hlast, hlen, hnd, hmem⟩ :=
          ucs_walk s cf cost hinv.sNoCf hinv.tree ce _ hce
        have hsub : cl ⊆ cf.map Prod.fst := fun y hy => (hmem y hy).1
        have hlenb : cl.length ≤ cf.length := by
          have h1 := (hnd.subperm hsub).length_le
          simpa using h1
        have hrp : reconstruct_path cf (heapMinFrom h0 hs).2 (cf.length + 1) =
            some cl.reverse := by
          rw [reconstruct_path, hloop (cf.length + 1) (by omega)]
          rfl
        have hreach : ReachN s (heapMinFrom h0 hs).2 cl.reverse.length :=
          ⟨cl.reverse, rfl, hchain, hlast⟩
        have hge : (heapMinFrom h0 hs).1 ≤ cl.reverse.length := hmd.2 _ hreach
        have hdm : (heapMinFrom h0 hs).1 = d :=
          distIs_unique s goal _ d (hg ▸ hmd) hd
        refine ⟨cl.reverse, ?_, ?_⟩
        · simp only [ucsLoop, hpop, if_pos hg, hrp]
        · rw [List.length_reverse] at hge ⊢
          omega
      · by_cases hv : (heapMinFrom h0 hs).2 ∈ vis
        · have hinv2 : UcsInvS s ((h0 :: hs).erase (heapMinFrom h0 hs)) cf cost :=
            ⟨hinv.sCost, hinv.sNoCf,
              fun e he => hinv.heapCost e (List.mem_of_mem_erase he), hinv.tree⟩
          have ho2 : UcsOpt s goal ((h0 :: hs).erase (heapMinFrom h0 hs))
              vis cost := by
            refine ⟨ho.costReach,
              fun e he => ho.heapReach e (List.mem_of_mem_erase he),
              fun e he => ho.heapValid e (List.mem_of_mem_erase he),
              ho.settled, ho.nbrCost, ?_, ?_, ho.visValid, ho.visNodup,
              ho.goalNotVis⟩
            · intro x c hx
              rcases ho.costEntry x c hx with h | ⟨e, he, h2, h3⟩
              · exact Or.inl h
              · by_cases hem : e = heapMinFrom h0 hs
                · refine Or.inl ?_
                  rw [← h2, hem]
                  exact hv
                · exact Or.inr ⟨e, (List.mem_erase_of_ne hem).mpr he, h2, h3⟩
            · intro hsv
              obtain ⟨e, he, h2, h3⟩ := ho.startEntry hsv
              have hem : e ≠ heapMinFrom h0 hs := by
                intro h
                apply hsv
                rw [← h2, h]
                exact hv
              exact ⟨e, (List.mem_erase_of_ne hem).mpr he, h2, h3⟩
          have hun : ucsLoop goal (f + 1) (h0 :: hs) vis cf cost =
              ucsLoop goal f ((h0 :: hs).erase (heapMinFrom h0 hs))
                vis cf cost := by
            simp only [ucsLoop, hpop, if_neg hg, if_pos hv]
          rw [hun]
          refine ih _ vis cf cost hinv2 ho2 ?_
          simp only [List.length_cons] at hf hlerase
          omega
        · have hmd : distIs s (heapMinFrom h0 hs).2 (heapMinFrom h0 hs).1 :=
            ucs_pop_dist s goal h0 hs vis cost ho hv
          have hmgv : validGrid (heapMinFrom h0 hs).2 := ho.heapValid _ hmm
          obtain ⟨ce, hce, hcele⟩ := hinv.heapCost _ hmm
          have hcer : ReachN s (heapMinFrom h0 hs).2 ce := ho.costReach _ ce hce
          have hcemc : ce = (heapMinFrom h0 hs).1 := by
            have h1 := hmd.2 ce hcer
            omega
          have hinv1 : UcsInvS s ((h0 :: hs).erase (heapMinFrom h0 hs)) cf cost :=
            ⟨hinv.sCost, hinv.sNoCf,
              fun e he => hinv.heapCost e (List.mem_of_mem_erase he), hinv.tree⟩
          have hinv2 := ucs_relax_fold s (heapMinFrom h0 hs).2
            (heapMinFrom h0 hs).1 (get_neighbors (heapMinFrom h0 hs).2)
            ((h0 :: hs).erase (heapMinFrom h0 hs)) cf cost
            (fun n hn => hn) hinv1 ⟨ce, hce, by omega⟩
          have hin : UcsFoldOut s (heapMinFrom h0 hs).2 (heapMinFrom h0 hs).1 []
              ((h0 :: hs).erase (heapMinFrom h0 hs)) cost vis
              ((h0 :: hs).erase (heapMinFrom h0 hs)) cost := by
            refine ⟨ho.costReach,
              fun e he => ho.heapReach e (List.mem_of_mem_erase he),
              fun e he => ho.heapValid e (List.mem_of_mem_erase he),
              ho.settled, by rw [← hcemc]; exact hce, ho.nbrCost, ?_, by simp,
              fun e he => he, fun y cy h => ⟨cy, h, Nat.le_refl cy⟩, by simp⟩
            intro x c hx
            rcases ho.costEntry x c hx with h | ⟨e, he, h2, h3⟩
            · exact Or.inr (Or.inl h)
            · by_cases hem : e = heapMinFrom h0 hs
              · refine Or.inl ?_
                rw [← h2, hem]
              · exact Or.inr (Or.inr ⟨e, (List.mem_erase_of_ne hem).mpr he,
                  h2, h3⟩)
          have o := ucs_opt_fold s (heapMinFrom h0 hs).2 (heapMinFrom h0 hs).1
            hmd hmgv (get_neighbors (heapMinFrom h0 hs).2)
            ((h0 :: hs).erase (heapMinFrom h0 hs)) cf cost vis
            (fun n hn => hn) hin
          have hvv : ∀ v ∈ (heapMinFrom h0 hs).2 :: vis, validGrid v := by
            intro v hv2
            rcases List.mem_cons.mp hv2 with rfl | hv2
            · exact hmgv
            · exact ho.visValid v hv2
          have hnd2 : ((heapMinFrom h0 hs).2 :: vis).Nodup :=
            List.nodup_cons.mpr ⟨hv, ho.visNodup⟩
          have ho3 : UcsOpt s goal
              ((get_neighbors (heapMinFrom h0 hs).2).foldl
                (ucs_relax (heapMinFrom h0 hs).2 (heapMinFrom h0 hs).1)
                ((h0 :: hs).erase (heapMinFrom h0 hs), cf, cost)).1
              ((heapMinFrom h0 hs).2 :: vis)
              ((get_neighbors (heapMinFrom h0 hs).2).foldl
                (ucs_relax (heapMinFrom h0 hs).2 (heapMinFrom h0 hs).1)
                ((h0 :: hs).erase (heapMinFrom h0 hs), cf, cost)).2.2 := by
            refine ⟨o.costReach, o.heapReach, o.heapValid, ?_, ?_, ?_, ?_, hvv,
              hnd2, ?_⟩
            · intro x hx
              rcases List.mem_cons.mp hx with rfl | hx
              · exact ⟨(heapMinFrom h0 hs).1, hmd, o.mgCost⟩
              · exact o.settled x hx
            · intro x hx n hadj2
              rcases List.mem_cons.mp hx with rfl | hx
              · obtain ⟨cn, hcn, hle⟩ := o.processed n hadj2
                exact ⟨cn, (heapMinFrom h0 hs).1, hmd, hcn, hle⟩
              · exact o.nbrCost x hx n hadj2
            · intro x c hx
              rcases o.costEntry x c hx with h | h | h
              · exact Or.inl (h ▸ List.mem_cons_self _ _)
              · exact Or.inl (List.mem_cons_of_mem _ h)
              · exact Or.inr h
            · intro hsv
              have hsv1 : s ∉ vis := fun h => hsv (List.mem_cons_of_mem _ h)
              have hsne : s ≠ (heapMinFrom h0 hs).2 :=
                fun h => hsv (h ▸ List.mem_cons_self _ _)
              obtain ⟨e, he, h2, h3⟩ := ho.startEntry hsv1
              have hem : e ≠ heapMinFrom h0 hs := by
                intro h
                exact hsne (by rw [← h2, h])
              exact ⟨e, o.heapMono e ((List.mem_erase_of_ne hem).mpr he),
                h2, h3⟩
            · intro h
              rcases List.mem_cons.mp h with h1 | h1
              · exact hg h1.symm
              · exact ho.goalNotVis h1
          have hrl := o.lenLe
          have hns4 : (get_neighbors (heapMinFrom h0 hs).2).length ≤ 4 :=
            get_neighbors_length_le _
          have hvN : ((heapMinFrom h0 hs).2 :: vis).length ≤ 362880 :=
            visited_card_le _ hnd2 hvv
          have hun : ucsLoop goal (f + 1) (h0 :: hs) vis cf cost =
              ucsLoop goal f
                ((get_neighbors (heapMinFrom h0 hs).2).foldl
                  (ucs_relax (heapMinFrom h0 hs).2 (heapMinFrom h0 hs).1)
                  ((h0 :: hs).erase (heapMinFrom h0 hs), cf, cost)).1
                ((heapMinFrom h0 hs).2 :: vis)
                ((get_neighbors (heapMinFrom h0 hs).2).foldl
                  (ucs_relax (heapMinFrom h0 hs).2 (heapMinFrom h0 hs).1)
                  ((h0 :: hs).erase (heapMinFrom h0 hs), cf, cost)).2.1
                ((get_neighbors (heapMinFrom h0 hs).2).foldl
                  (ucs_relax (heapMinFrom h0 hs).2 (heapMinFrom h0 hs).1)
                  ((h0 :: hs).erase (heapMinFrom h0 hs), cf, cost)).2.2 := by
            simp only [ucsLoop, hpop, if_neg hg, if_neg hv]
          rw [hun]
          refine ih _ _ _ _ hinv2 ho3 ?_
          simp only [List.length_cons] at hf hlerase hvN ⊢
          omega

/-- C1: for every valid start grid from which the goal is reachable, `bfs`
succeeds and returns a path realizing the minimum number of slides over all
valid slide sequences from start to goal (the returned list has exactly one
grid per slide), and `ucs` succeeds and returns a path of the same length on
this unit-cost graph. -/
theorem C1_optimal (start : Grid) (h1 : validGrid start)
    (h2 : Reachable start goal_state) :
    ∃ p q : GPath, bfs start goal_state = some (some p) ∧
      ucs start goal_state = some (some q) ∧
      ReachN start goal_state p.length ∧
      (∀ m, ReachN start goal_state m → p.length ≤ m) ∧
      q.length = p.length := by
  obtain ⟨d, hd⟩ := reachable_dist start goal_state h2
  have hbase := bfsInvS_init start
  have hopt : BfsOpt start goal_state [start] [start] [] 0 := by
    refine ⟨⟨[start], [], by simp, ?_, by simp⟩, ?_, ?_, ?_, ?_, ?_, ?_⟩
    · intro x hx
      rcases List.mem_singleton.mp hx with rfl
      exact distIs_self x
    · intro z j hz hj
      have hj0 : j = 0 := by omega
      subst hj0
      have hzs := (ReachN_zero start z).mp hz.1
      simp [hzs]
    · intro v hv
      rcases List.mem_singleton.mp hv with rfl
      exact ⟨0, distIs_self v, by omega⟩
    · intro x hx
      exact Or.inl hx
    · intro x w hxw j hj
      exact absurd hxw (by simp [List.lookup])
    · intro v hv
      rcases List.mem_singleton.mp hv with rfl
      exact h1
    · intro x hx
      exact Or.inl hx
  obtain ⟨p, hp, hplen⟩ := bfsLoop_opt start goal_state d hd FUEL
    [start] [start] [] 0 hbase hopt
    (by simp only [List.length_singleton, FUEL]; omega)
  have hbaseU := ucsInvS_init start
  have hoptU : UcsOpt start goal_state [(0, start)] [] [(start, 0)] := by
    refine ⟨?_, ?_, ?_, by simp, by simp, ?_, ?_, by simp, List.nodup_nil,
      List.not_mem_nil _⟩
    · intro x c hx
      by_cases hxs : x = start
      · subst hxs
        rw [lookup_cons_self x 0 []] at hx
        rw [← Option.some.inj hx]
        exact (ReachN_zero x x).mpr rfl
      · rw [lookup_cons_ne start x 0 [] hxs] at hx
        exact absurd hx (by simp)
    · intro e he
      have he2 : e = (0, start) := by simpa using he
      subst he2
      exact (ReachN_zero start start).mpr rfl
    · intro e he
      have he2 : e = (0, start) := by simpa using he
      subst he2
      exact h1
    · intro x c hx
      by_cases hxs : x = start
      · subst hxs
        rw [lookup_cons_self x 0 []] at hx
        refine Or.inr ⟨(0, x), by simp, rfl, ?_⟩
        have hc := Option.some.inj hx
        omega
      · rw [lookup_cons_ne start x 0 [] hxs] at hx
        exact absurd hx (by simp)
    · intro hsv
      exact ⟨(0, start), by simp, rfl, rfl⟩
  obtain ⟨q, hq, hqlen⟩ := ucsLoop_opt start goal_state d hd FUEL2
    [(0, start)] [] [] [(start, 0)] hbaseU hoptU
    (by simp only [List.length_cons, List.length_nil, FUEL2]; omega)
  refine ⟨p, q, hp, hq, ?_, ?_, ?_⟩
  · rw [hplen]
    exact hd.1
  · intro m hm
    rw [hplen]
    exact hd.2 m hm
  · rw [hqlen, hplen]

theorem C1_optimal_witness :
    validGrid [[1,2,3],[4,5,6],[7,0,8]] ∧
    Reachable [[1,2,3],[4,5,6],[7,0,8]] goal_state ∧
    ∃ p q : GPath,
      bfs [[1,2,3],[4,5,6],[7,0,8]] goal_state = some (some p) ∧
      ucs [[1,2,3],[4,5,6],[7,0,8]] goal_state = some (some q) ∧
      ReachN [[1,2,3],[4,5,6],[7,0,8]] goal_state p.length ∧
      (∀ m, ReachN [[1,2,3],[4,5,6],[7,0,8]] goal_state m → p.length ≤ m) ∧
      q.length = p.length := by
  have hval : validGrid [[1,2,3],[4,5,6],[7,0,8]] := by decide
  have hadj : adjacent [[1,2,3],[4,5,6],[7,0,8]] goal_state := by
    show goal_state ∈ get_neighbors [[1,2,3],[4,5,6],[7,0,8]]
    decide
  have hreach : Reachable [[1,2,3],[4,5,6],[7,0,8]] goal_state :=
    ⟨1, [goal_state], rfl, List.chain'_pair.mpr hadj, by simp⟩
  exact ⟨hval, hreach, C1_optimal _ hval hreach⟩

end Puzzle
